import Mathlib

/-!
# FilteredStream (src/jrd/recsrc/FilteredStream.cpp)

A shallow embedding of the predicate-driven filter of the record-source
pipeline.  The operator object is immutable; everything it mutates lives in
the request (`req_flags`, the impure area) or in the successor stream
`m_next`.  Both are carried in one explicit `State`.

The last part of the definitions embeds `open`, `close`, `getRecord` and
`evaluateBoolean` a second time, on a memory that holds the operator objects
and the states of several requests, and with an arbitrary record source as
successor.  Over the external cursor the two embeddings agree.
-/

namespace Jrd

/-- Modelled from the spec: the result type of the predicate evaluator,
`{True, False, Unknown}` (SQL three-valued logic). -/
inductive TriState where
  | TRUE
  | FALSE
  | UNKNOWN
  deriving DecidableEq, Repr

/-- Modelled from the spec: the expression node type `jrd_nod` is declared
outside the sources.  `evaluateBoolean` only inspects whether `nod_type` is
`nod_and`, in which case it reads `nod_arg[0]` and `nod_arg[1]`; every other
node kind is kept abstract and identified by a number. -/
inductive jrd_nod where
  | nod_and (arg0 arg1 : jrd_nod)
  | nod_other (id : Nat)
  deriving DecidableEq, Repr

/-- Calls leaving the operator: the ones made on the successor `m_next` and
the expression evaluations. -/
inductive Call where
  | next_open
  | next_close
  | next_getRecord
  | next_invalidateRecords
  | next_refetchRecord
  | EVL_boolean (node : jrd_nod)
  deriving DecidableEq, Repr

/-- Modelled from the spec: the flag constant `irsb_open` is declared in
RecordSource.h, which is not among the sources; it is a single bit of the
`irsb_flags` word. -/
def irsb_open : Nat := 1

/-- Modelled from the spec: the flag constant `req_null` is declared in req.h,
which is not among the sources; it is a single bit of the `req_flags` word
(the "was-unknown" side channel of the evaluator). -/
def req_null : Nat := 8

/-- Bitwise complement `~m` of a 32-bit flag word (ULONG). -/
def bitNot32 (m : Nat) : Nat := 0xFFFFFFFF ^^^ m

/-- The compiled operator (immutable fields of `FilteredStream`).  The
successor `m_next` is represented by its state inside `State`. -/
structure FilteredStream where
  m_boolean : jrd_nod
  m_anyBoolean : Option jrd_nod
  m_ansiAny : Bool
  m_ansiAll : Bool
  m_ansiNot : Bool
  m_impure : Nat

/-- Modelled from the spec: the request (`jrd_req`) and the child
RecordSource are declared outside the sources.  The state is everything the
operator reads or writes while running under one request.

* `req_flags`, `impure`: the request (`impure off` is the word stored at
  offset `off` of the impure area; the operator keeps `irsb_flags` at
  `m_impure`).
* `source`, `rows`, `current`, `refetched`: the successor stream `m_next`, an
  external collaborator, here a cursor over a finite row sequence.  `source`
  is what it delivers after `open`, `rows` what it has not yet delivered,
  `current` the record loaded by the last successful fetch, `refetched` the
  record a refetch would re-read (`none` when refetch fails).
* `trace`: every call made on `m_next` and on the evaluator, oldest first. -/
structure State (Row : Type) where
  req_flags : Nat
  impure : Nat → Nat
  source : List Row
  rows : List Row
  current : Option Row
  refetched : Option Row
  trace : List Call

variable {Row : Type}

/-! ## The successor stream `m_next` -/

/-- Modelled from the spec: `m_next->open(tdbb)` of the child RecordSource
positions the child before its first row. -/
def next_open (st : State Row) : State Row :=
  { st with rows := st.source, current := none, trace := st.trace ++ [Call.next_open] }

/-- Modelled from the spec: `m_next->close(tdbb)` of the child RecordSource;
the child delivers nothing further. -/
def next_close (st : State Row) : State Row :=
  { st with rows := [], trace := st.trace ++ [Call.next_close] }

/-- Modelled from the spec: `m_next->invalidateRecords(request)` of the child
RecordSource; the loaded record becomes invalid. -/
def next_invalidateRecords (st : State Row) : State Row :=
  { st with current := none, trace := st.trace ++ [Call.next_invalidateRecords] }

/-- Modelled from the spec: `m_next->getRecord(tdbb)` of the child
RecordSource returning true; row `r` is loaded, `rs` remain. -/
def next_fetch (r : Row) (rs : List Row) (st : State Row) : State Row :=
  { st with rows := rs, current := some r, trace := st.trace ++ [Call.next_getRecord] }

/-- Modelled from the spec: `m_next->getRecord(tdbb)` of the child
RecordSource returning false; the child is exhausted (and stays so). -/
def next_eof (st : State Row) : State Row :=
  { st with rows := [], current := none, trace := st.trace ++ [Call.next_getRecord] }

/-- Modelled from the spec: `m_next->refetchRecord(tdbb)` of the child
RecordSource re-reads the current record, or fails. -/
def next_refetchRecord (st : State Row) : Bool × State Row :=
  match st.refetched with
  | none => (false, { st with trace := st.trace ++ [Call.next_refetchRecord] })
  | some r =>
    (true, { st with current := some r, trace := st.trace ++ [Call.next_refetchRecord] })

/-! ## The expression evaluator -/

/-- Modelled from the spec: `EVL_boolean` (evl.cpp, not among the sources) is
the predicate evaluator `evaluate(ctx, predicateRef) -> {True, False, Unknown}`
with the side-channel "was-unknown" flag on the request: it returns true
exactly for `TRUE`, and leaves `req_null` set exactly for `UNKNOWN`.  The
three-valued value of each node on each row is the parameter `ev`. -/
def EVL_boolean (ev : jrd_nod → Row → TriState) (node : jrd_nod) (r : Row)
    (st : State Row) : Bool × State Row :=
  match ev node r with
  | TriState.TRUE =>
    (true, { st with req_flags := st.req_flags &&& bitNot32 req_null,
                     trace := st.trace ++ [Call.EVL_boolean node] })
  | TriState.FALSE =>
    (false, { st with req_flags := st.req_flags &&& bitNot32 req_null,
                      trace := st.trace ++ [Call.EVL_boolean node] })
  | TriState.UNKNOWN =>
    (false, { st with req_flags := st.req_flags ||| req_null,
                      trace := st.trace ++ [Call.EVL_boolean node] })

/-- `request->req_flags &= ~req_null`. -/
def clear_req_null (st : State Row) : State Row :=
  { st with req_flags := st.req_flags &&& bitNot32 req_null }

/-- `request->req_flags & req_null`. -/
def test_req_null (st : State Row) : Bool :=
  (st.req_flags &&& req_null) != 0

/-! ## FilteredStream -/

/-- `FilteredStream::invalidateRecords`. -/
def invalidateRecords (_F : FilteredStream) (st : State Row) : State Row :=
  next_invalidateRecords st

/-- `FilteredStream::open`. -/
def FilteredStream.open (F : FilteredStream) (st : State Row) : State Row :=
  next_open { st with impure := Function.update st.impure F.m_impure irsb_open }

/-- `FilteredStream::close`. -/
def FilteredStream.close (F : FilteredStream) (st : State Row) : State Row :=
  let s := invalidateRecords F st
  if (s.impure F.m_impure &&& irsb_open) != 0 then
    next_close { s with
      impure := Function.update s.impure F.m_impure (s.impure F.m_impure &&& bitNot32 irsb_open) }
  else
    s

/-- The `do NOT ANY` loop (lines 202-247); returns `(any_null, any_true)`. -/
def notAnyLoop (F : FilteredStream) (ev : jrd_nod → Row → TriState)
    (select_node : Option jrd_nod) (column_node : jrd_nod) :
    List Row → State Row → (Bool × Bool) × State Row
  | [], st => ((false, false), next_eof st)
  | r :: rs, st =>
    let e := EVL_boolean ev F.m_boolean r (next_fetch r rs st)
    if e.1 then
      ((false, true), e.2)
    else
      match select_node with
      | none =>
        if test_req_null e.2 then ((true, false), e.2)
        else notAnyLoop F ev select_node column_node rs e.2
      | some sel =>
        let s := EVL_boolean ev sel r (clear_req_null e.2)
        if s.1 then
          let c := EVL_boolean ev column_node r (clear_req_null s.2)
          if test_req_null c.2 then ((true, false), c.2)
          else notAnyLoop F ev select_node column_node rs c.2
        else
          notAnyLoop F ev select_node column_node rs s.2

/-- The `do ANY` loop (lines 257-265); returns `result`. -/
def anyLoop (F : FilteredStream) (ev : jrd_nod → Row → TriState) :
    List Row → State Row → Bool × State Row
  | [], st => (false, next_eof st)
  | r :: rs, st =>
    let e := EVL_boolean ev F.m_boolean r (next_fetch r rs st)
    if e.1 then (true, e.2) else anyLoop F ev rs e.2

/-- The `do NOT ALL` loop (lines 278-307); returns `any_false`. -/
def notAllLoop (F : FilteredStream) (ev : jrd_nod → Row → TriState)
    (select_node : Option jrd_nod) :
    List Row → State Row → Bool × State Row
  | [], st => (false, next_eof st)
  | r :: rs, st =>
    let e := EVL_boolean ev F.m_boolean r (clear_req_null (next_fetch r rs st))
    if !e.1 && !test_req_null e.2 then
      match select_node with
      | some sel =>
        let s := EVL_boolean ev sel r (clear_req_null e.2)
        if s.1 then (true, s.2) else notAllLoop F ev select_node rs s.2
      | none => (true, e.2)
    else
      notAllLoop F ev select_node rs e.2

/-- The `do ALL` loop (lines 321-350); returns `any_false`. -/
def allLoop (F : FilteredStream) (ev : jrd_nod → Row → TriState)
    (select_node : Option jrd_nod) :
    List Row → State Row → Bool × State Row
  | [], st => (false, next_eof st)
  | r :: rs, st =>
    let e := EVL_boolean ev F.m_boolean r (clear_req_null (next_fetch r rs st))
    if !e.1 then
      match select_node with
      | some sel =>
        let s := EVL_boolean ev sel r (clear_req_null e.2)
        if s.1 then (true, s.2) else allLoop F ev select_node rs s.2
      | none => (true, e.2)
    else
      allLoop F ev select_node rs e.2

/-- The plain filter loop (lines 357-371); takes and returns `nullFlag`,
returns `(result, nullFlag)`. -/
def plainLoop (F : FilteredStream) (ev : jrd_nod → Row → TriState) :
    List Row → State Row → Bool → (Bool × Bool) × State Row
  | [], st, nullFlag => ((false, nullFlag), next_eof st)
  | r :: rs, st, nullFlag =>
    let e := EVL_boolean ev F.m_boolean r (next_fetch r rs st)
    if e.1 then ((true, nullFlag), e.2)
    else plainLoop F ev rs e.2 (if test_req_null e.2 then true else nullFlag)

/-- The ANY/ALL select node (lines 173-186): when the quantifier predicate is
an AND node its left argument; otherwise none.  (When neither quantifier flag
is set the source leaves the pointer unassigned and never reads it.) -/
def select_node (F : FilteredStream) : Option jrd_nod :=
  match F.m_anyBoolean with
  | some (jrd_nod.nod_and arg0 _) => if F.m_ansiAny || F.m_ansiAll then some arg0 else none
  | _ => none

/-- The ANY/ALL column node (lines 171-186): `m_anyBoolean`, replaced by its
right argument when it is an AND node and a quantifier flag is set. -/
def column_node (F : FilteredStream) : Option jrd_nod :=
  match F.m_anyBoolean with
  | some (jrd_nod.nod_and arg0 arg1) =>
    if F.m_ansiAny || F.m_ansiAll then some arg1 else some (jrd_nod.nod_and arg0 arg1)
  | other => other

/-- `FilteredStream::evaluateBoolean`. -/
def evaluateBoolean (F : FilteredStream) (ev : jrd_nod → Row → TriState)
    (st : State Row) : Bool × State Row :=
  match column_node F with
  | some col =>
    if F.m_ansiAny then
      if F.m_ansiNot then
        let l := notAnyLoop F ev (select_node F) col st.rows st
        (l.1.1 || l.1.2, clear_req_null l.2)
      else
        let l := anyLoop F ev st.rows st
        (l.1, clear_req_null l.2)
    else if F.m_ansiAll then
      if F.m_ansiNot then
        let l := notAllLoop F ev (select_node F) st.rows st
        (!l.1, clear_req_null l.2)
      else
        let l := allLoop F ev (select_node F) st.rows st
        (!l.1, clear_req_null l.2)
    else
      let l := plainLoop F ev st.rows st false
      (l.1.1, if l.1.2 then { l.2 with req_flags := l.2.req_flags ||| req_null } else l.2)
  | none =>
    let l := plainLoop F ev st.rows st false
    (l.1.1, if l.1.2 then { l.2 with req_flags := l.2.req_flags ||| req_null } else l.2)

/-- `FilteredStream::getRecord`. -/
def getRecord (F : FilteredStream) (ev : jrd_nod → Row → TriState)
    (st : State Row) : Bool × State Row :=
  if (st.impure F.m_impure &&& irsb_open) == 0 then
    (false, st)
  else
    let e := evaluateBoolean F ev st
    if !e.1 then (false, invalidateRecords F e.2) else (true, e.2)

/-- `FilteredStream::refetchRecord`. -/
def refetchRecord (F : FilteredStream) (ev : jrd_nod → Row → TriState)
    (st : State Row) : Bool × State Row :=
  let n := next_refetchRecord st
  if n.1 then evaluateBoolean F ev n.2 else (false, n.2)

/-! ## Drivers and concrete data used to state the properties -/

/-- Call `getRecord` until it returns false, at most `fuel` times.  The result
lists, for every call that returned true, the record the child had loaded when
the call returned; it is `none` when no call returned false within `fuel`. -/
def fetchAll (F : FilteredStream) (ev : jrd_nod → Row → TriState) :
    Nat → State Row → Option (List (Option Row))
  | 0, _ => none
  | n + 1, st =>
    let g := getRecord F ev st
    if g.1 then (fetchAll F ev n g.2).map (fun l => g.2.current :: l) else some []

/-- The state after `n` successive `getRecord` calls (no open or close in
between). -/
def getRecords (F : FilteredStream) (ev : jrd_nod → Row → TriState) :
    Nat → State Row → State Row
  | 0, st => st
  | n + 1, st => (getRecord F ev (getRecords F ev n st)).2

/-- Number of `close` calls the child has received. -/
def closeCount (st : State Row) : Nat :=
  st.trace.count Call.next_close

/-- Sample evaluator over rows holding one nullable integer column `value`:
node 0 is `value > 2`, node 1 is `value = 5`, node 2 is `value < 10`, any
other node is constantly true.  A comparison with NULL is unknown. -/
def sampleEval : jrd_nod → Option Int → TriState
  | _, none => TriState.UNKNOWN
  | jrd_nod.nod_other 0, some v => if v > 2 then TriState.TRUE else TriState.FALSE
  | jrd_nod.nod_other 1, some v => if v = 5 then TriState.TRUE else TriState.FALSE
  | jrd_nod.nod_other 2, some v => if v < 10 then TriState.TRUE else TriState.FALSE
  | _, some _ => TriState.TRUE

/-- A fresh request over a child that will deliver `rows`: nothing open, no
flags set, no calls made yet. -/
def initialState (rows : List Row) : State Row :=
  { req_flags := 0, impure := fun _ => 0, source := rows, rows := [],
    current := none, refetched := none, trace := [] }

/-- Sample operator: flags as given, outer predicate `m_boolean` is node `p`,
quantifier predicate `m_anyBoolean` as given, impure offset 0. -/
def sampleStream (p : Nat) (q : Option jrd_nod) (ansiAny ansiAll ansiNot : Bool) :
    FilteredStream :=
  { m_boolean := jrd_nod.nod_other p, m_anyBoolean := q,
    m_ansiAny := ansiAny, m_ansiAll := ansiAll, m_ansiNot := ansiNot, m_impure := 0 }

/-- The requests executing the shared compiled operator, each with its own
state; `tdbb->getRequest()` selects one of them. -/
abbrev World (Row : Type) := Nat → State Row

/-- Two values of the `req_flags` word (a ULONG) that differ at most in the
`req_null` bit; `b` is the later value. -/
def SameButNull (a b : Nat) : Prop :=
  b < 4294967296 ∧ b ||| req_null = a ||| req_null

/-! ## Several requests over one compiled statement

The operations once more, now on the memory they run in: the compiled
`FilteredStream` objects, which every request executing the statement shares,
and the state of each request.  The successor is reached through its virtual
methods and may be any record source, another `FilteredStream` included. -/

/-- Modelled from the spec: `thread_db` is declared outside the sources.  The
operator calls `tdbb->getRequest()` on it and hands it on to the successor and
to the evaluator.  Requests are identified by a number. -/
structure thread_db where
  getRequest : Nat

/-- A `FilteredStream` object as it lies in memory: the fields the operations
read, with the successor `m_next` held as the address of a record source. -/
structure FilteredStreamObject extends FilteredStream where
  m_next : Nat

/-- The memory: the `FilteredStream` objects of the compiled statement by
address (`rsb`) and the state of every request by number (`requests`). -/
structure Memory (Row : Type) where
  rsb : Nat → FilteredStreamObject
  requests : World Row

/-- Modelled from the spec: the virtual methods of `RecordSource` (declared in
RecordSource.h, not among the sources) that `FilteredStream` calls on its
successor.  Each gets the thread context, or the request for
`invalidateRecords`, and acts on the memory.  `getRecord` is `none` when the
call does not return. -/
structure RecordSource (Row : Type) where
  «open» : thread_db → Memory Row → Memory Row
  close : thread_db → Memory Row → Memory Row
  getRecord : thread_db → Memory Row → Option (Bool × Memory Row)
  invalidateRecords : Nat → Memory Row → Memory Row

/-- Store `st` as the state of request `request`. -/
def Memory.setRequest (m : Memory Row) (request : Nat) (st : State Row) : Memory Row :=
  { m with requests := Function.update m.requests request st }

/-- `request->getImpure<Impure>(off)->irsb_flags`. -/
def Memory.irsb_flags (m : Memory Row) (request off : Nat) : Nat :=
  (m.requests request).impure off

/-- `request->getImpure<Impure>(off)->irsb_flags = v`. -/
def Memory.set_irsb_flags (m : Memory Row) (request off v : Nat) : Memory Row :=
  m.setRequest request
    { m.requests request with impure := Function.update (m.requests request).impure off v }

/-- `request->req_flags &= ~req_null`. -/
def Memory.clear_req_null (m : Memory Row) (request : Nat) : Memory Row :=
  m.setRequest request (Jrd.clear_req_null (m.requests request))

/-- `request->req_flags |= req_null`. -/
def Memory.set_req_null (m : Memory Row) (request : Nat) : Memory Row :=
  m.setRequest request
    { m.requests request with req_flags := (m.requests request).req_flags ||| req_null }

/-- `request->req_flags & req_null`. -/
def Memory.test_req_null (m : Memory Row) (request : Nat) : Bool :=
  Jrd.test_req_null (m.requests request)

/-- Modelled from the spec: `EVL_boolean(tdbb, node)`, the evaluator
`evaluate(ctx, predicateRef)` with the request of `tdbb` as its context.  The
three-valued value of each node in each state of that request is the parameter
`ev`; the call returns true exactly for `TRUE` and leaves `req_null` set in
that request exactly for `UNKNOWN`. -/
def Memory.EVL_boolean (ev : jrd_nod → State Row → TriState) (tdbb : thread_db)
    (node : jrd_nod) (m : Memory Row) : Bool × Memory Row :=
  match ev node (m.requests tdbb.getRequest) with
  | TriState.TRUE =>
    (true, m.setRequest tdbb.getRequest
      { m.requests tdbb.getRequest with
        req_flags := (m.requests tdbb.getRequest).req_flags &&& bitNot32 req_null,
        trace := (m.requests tdbb.getRequest).trace ++ [Call.EVL_boolean node] })
  | TriState.FALSE =>
    (false, m.setRequest tdbb.getRequest
      { m.requests tdbb.getRequest with
        req_flags := (m.requests tdbb.getRequest).req_flags &&& bitNot32 req_null,
        trace := (m.requests tdbb.getRequest).trace ++ [Call.EVL_boolean node] })
  | TriState.UNKNOWN =>
    (false, m.setRequest tdbb.getRequest
      { m.requests tdbb.getRequest with
        req_flags := (m.requests tdbb.getRequest).req_flags ||| req_null,
        trace := (m.requests tdbb.getRequest).trace ++ [Call.EVL_boolean node] })

/-- The statement `while (m_next->getRecord(tdbb)) { body }`.  `getRecord` is
the call on the successor.  `body` gets the local variables and the memory and
either falls through to the next test of the loop (`Sum.inl`) or leaves the loop
by `break` (`Sum.inr`), in both cases with the local variables as it leaves
them.  The result is `none` when a call of the successor does not return or
the loop has not ended after `fuel` tests. -/
def whileGetRecord {L : Type} (getRecord : Memory Row → Option (Bool × Memory Row))
    (body : L → Memory Row → (L ⊕ L) × Memory Row) :
    Nat → L → Memory Row → Option (L × Memory Row)
  | 0, _, _ => none
  | fuel + 1, l, m =>
    match getRecord m with
    | none => none
    | some (false, m1) => some (l, m1)
    | some (true, m1) =>
      match body l m1 with
      | (Sum.inl l2, m2) => whileGetRecord getRecord body fuel l2 m2
      | (Sum.inr l2, m2) => some (l2, m2)

/-- The body of the `do NOT ANY` loop (lines 204-246); the local variables are
`(any_null, any_true)`. -/
def notAnyBody (ev : jrd_nod → State Row → TriState) (this : Nat) (tdbb : thread_db)
    (select_node : Option jrd_nod) (column_node : jrd_nod)
    (l : Bool × Bool) (m : Memory Row) : ((Bool × Bool) ⊕ (Bool × Bool)) × Memory Row :=
  let request := tdbb.getRequest
  let e := Memory.EVL_boolean ev tdbb (m.rsb this).m_boolean m
  if e.1 then
    (Sum.inr (l.1, true), e.2)
  else
    match select_node with
    | none =>
      if e.2.test_req_null request then (Sum.inr (true, l.2), e.2)
      else (Sum.inl l, e.2)
    | some sel =>
      let s := Memory.EVL_boolean ev tdbb sel (e.2.clear_req_null request)
      if s.1 then
        let c := Memory.EVL_boolean ev tdbb column_node (s.2.clear_req_null request)
        if c.2.test_req_null request then (Sum.inr (true, l.2), c.2)
        else (Sum.inl l, c.2)
      else
        (Sum.inl l, s.2)

/-- The body of the `do ANY` loop (lines 260-264); the local variable is
`result`. -/
def anyBody (ev : jrd_nod → State Row → TriState) (this : Nat) (tdbb : thread_db)
    (result : Bool) (m : Memory Row) : (Bool ⊕ Bool) × Memory Row :=
  let e := Memory.EVL_boolean ev tdbb (m.rsb this).m_boolean m
  if e.1 then (Sum.inr true, e.2) else (Sum.inl result, e.2)

/-- The body of the `do NOT ALL` loop (lines 281-306); the local variable is
`any_false`. -/
def notAllBody (ev : jrd_nod → State Row → TriState) (this : Nat) (tdbb : thread_db)
    (select_node : Option jrd_nod) (any_false : Bool) (m : Memory Row) :
    (Bool ⊕ Bool) × Memory Row :=
  let request := tdbb.getRequest
  let e := Memory.EVL_boolean ev tdbb (m.rsb this).m_boolean (m.clear_req_null request)
  if !e.1 && !e.2.test_req_null request then
    match select_node with
    | some sel =>
      let s := Memory.EVL_boolean ev tdbb sel (e.2.clear_req_null request)
      if s.1 then (Sum.inr true, s.2) else (Sum.inl any_false, s.2)
    | none => (Sum.inr true, e.2)
  else
    (Sum.inl any_false, e.2)

/-- The body of the `do ALL` loop (lines 324-349); the local variable is
`any_false`. -/
def allBody (ev : jrd_nod → State Row → TriState) (this : Nat) (tdbb : thread_db)
    (select_node : Option jrd_nod) (any_false : Bool) (m : Memory Row) :
    (Bool ⊕ Bool) × Memory Row :=
  let request := tdbb.getRequest
  let e := Memory.EVL_boolean ev tdbb (m.rsb this).m_boolean (m.clear_req_null request)
  if !e.1 then
    match select_node with
    | some sel =>
      let s := Memory.EVL_boolean ev tdbb sel (e.2.clear_req_null request)
      if s.1 then (Sum.inr true, s.2) else (Sum.inl any_false, s.2)
    | none => (Sum.inr true, e.2)
  else
    (Sum.inl any_false, e.2)

/-- The body of the plain filter loop (lines 361-370); the local variables are
`(result, nullFlag)`. -/
def plainBody (ev : jrd_nod → State Row → TriState) (this : Nat) (tdbb : thread_db)
    (l : Bool × Bool) (m : Memory Row) : ((Bool × Bool) ⊕ (Bool × Bool)) × Memory Row :=
  let request := tdbb.getRequest
  let e := Memory.EVL_boolean ev tdbb (m.rsb this).m_boolean m
  if e.1 then (Sum.inr (true, l.2), e.2)
  else (Sum.inl (l.1, if e.2.test_req_null request then true else l.2), e.2)

/-- `FilteredStream::invalidateRecords` of the object at address `this`;
`methods` gives the virtual methods of the record source at each address. -/
def FilteredStreamObject.invalidateRecords (methods : Nat → RecordSource Row) (this : Nat)
    (request : Nat) (m : Memory Row) : Memory Row :=
  (methods (m.rsb this).m_next).invalidateRecords request m

/-- `FilteredStream::open` of the object at address `this`. -/
def FilteredStreamObject.open (methods : Nat → RecordSource Row) (this : Nat)
    (tdbb : thread_db) (m : Memory Row) : Memory Row :=
  let request := tdbb.getRequest
  let m1 := m.set_irsb_flags request (m.rsb this).m_impure irsb_open
  (methods (m1.rsb this).m_next).open tdbb m1

/-- `FilteredStream::close` of the object at address `this`. -/
def FilteredStreamObject.close (methods : Nat → RecordSource Row) (this : Nat)
    (tdbb : thread_db) (m : Memory Row) : Memory Row :=
  let request := tdbb.getRequest
  let m1 := FilteredStreamObject.invalidateRecords methods this request m
  if (m1.irsb_flags request (m1.rsb this).m_impure &&& irsb_open) != 0 then
    let m2 := m1.set_irsb_flags request (m1.rsb this).m_impure
      (m1.irsb_flags request (m1.rsb this).m_impure &&& bitNot32 irsb_open)
    (methods (m2.rsb this).m_next).close tdbb m2
  else
    m1

/-- `FilteredStream::evaluateBoolean` of the object at address `this`; `none`
when a loop does not end within `fuel` tests. -/
def FilteredStreamObject.evaluateBoolean (methods : Nat → RecordSource Row)
    (ev : jrd_nod → State Row → TriState) (this : Nat) (fuel : Nat)
    (tdbb : thread_db) (m : Memory Row) : Option (Bool × Memory Row) :=
  let request := tdbb.getRequest
  let next := fun m1 : Memory Row => (methods (m1.rsb this).m_next).getRecord tdbb m1
  let plain :=
    (whileGetRecord next (plainBody ev this tdbb) fuel (false, false) m).map
      (fun l => (l.1.1, if l.1.2 then l.2.set_req_null request else l.2))
  match column_node (m.rsb this).toFilteredStream with
  | some col =>
    if (m.rsb this).m_ansiAny then
      if (m.rsb this).m_ansiNot then
        (whileGetRecord next
            (notAnyBody ev this tdbb (select_node (m.rsb this).toFilteredStream) col)
            fuel (false, false) m).map
          (fun l => (l.1.1 || l.1.2, l.2.clear_req_null request))
      else
        (whileGetRecord next (anyBody ev this tdbb) fuel false m).map
          (fun l => (l.1, l.2.clear_req_null request))
    else if (m.rsb this).m_ansiAll then
      if (m.rsb this).m_ansiNot then
        (whileGetRecord next
            (notAllBody ev this tdbb (select_node (m.rsb this).toFilteredStream))
            fuel false m).map
          (fun l => (!l.1, l.2.clear_req_null request))
      else
        (whileGetRecord next
            (allBody ev this tdbb (select_node (m.rsb this).toFilteredStream))
            fuel false m).map
          (fun l => (!l.1, l.2.clear_req_null request))
    else
      plain
  | none => plain

/-- `FilteredStream::getRecord` of the object at address `this`. -/
def FilteredStreamObject.getRecord (methods : Nat → RecordSource Row)
    (ev : jrd_nod → State Row → TriState) (this : Nat) (fuel : Nat)
    (tdbb : thread_db) (m : Memory Row) : Option (Bool × Memory Row) :=
  let request := tdbb.getRequest
  if (m.irsb_flags request (m.rsb this).m_impure &&& irsb_open) == 0 then
    some (false, m)
  else
    match FilteredStreamObject.evaluateBoolean methods ev this fuel tdbb m with
    | none => none
    | some (false, m1) =>
      some (false, FilteredStreamObject.invalidateRecords methods this request m1)
    | some (true, m1) => some (true, m1)

/-- The `FilteredStream` object at address `this` as a record source: the
virtual methods it offers to the operator above it. -/
def filteredSource (methods : Nat → RecordSource Row) (ev : jrd_nod → State Row → TriState)
    (this : Nat) (fuel : Nat) : RecordSource Row :=
  ⟨FilteredStreamObject.open methods this, FilteredStreamObject.close methods this,
   FilteredStreamObject.getRecord methods ev this fuel,
   FilteredStreamObject.invalidateRecords methods this⟩

/-- Modelled from the spec: a successor of another class, the cursor over a
finite row sequence that `next_open`, `next_close`, `next_fetch`, `next_eof`
and `next_invalidateRecords` describe, acting on the request it is called
under. -/
def externalSource : RecordSource Row :=
  ⟨fun tdbb m => m.setRequest tdbb.getRequest (next_open (m.requests tdbb.getRequest)),
   fun tdbb m => m.setRequest tdbb.getRequest (next_close (m.requests tdbb.getRequest)),
   fun tdbb m =>
     match (m.requests tdbb.getRequest).rows with
     | [] => some (false,
         m.setRequest tdbb.getRequest (next_eof (m.requests tdbb.getRequest)))
     | r :: rs => some (true,
         m.setRequest tdbb.getRequest (next_fetch r rs (m.requests tdbb.getRequest))),
   fun request m => m.setRequest request (next_invalidateRecords (m.requests request))⟩

/-- Modelled from the spec: an evaluator that looks at nothing but the record
the successor has loaded for the request, with value `ev` on that record.
Without a loaded record the value is unknown (the operator evaluates only
after a successful fetch). -/
def currentEval (ev : jrd_nod → Row → TriState) (node : jrd_nod) (st : State Row) :
    TriState :=
  match st.current with
  | some r => ev node r
  | none => TriState.UNKNOWN

/-- Every call on the record source `src` made under `tdbb` (for
`invalidateRecords`: with the request of `tdbb`) that returns takes a memory
`m` to a memory `m1` with `R m m1`. -/
def Keeps (R : Memory Row → Memory Row → Prop) (src : RecordSource Row)
    (tdbb : thread_db) : Prop :=
  (∀ m, R m (src.open tdbb m)) ∧
  (∀ m, R m (src.close tdbb m)) ∧
  (∀ m b m1, src.getRecord tdbb m = some (b, m1) → R m m1) ∧
  (∀ m, R m (src.invalidateRecords tdbb.getRequest m))

/-- The relation `R` between an earlier and a later memory is reflexive and
transitive and holds across each write that the operator at address `this`
makes itself under request `A`: clearing or setting the `req_null` bit of the
flag word of `A` (the evaluator does one or the other and records its call),
and storing a flag word at its own impure offset in `A`. -/
def OwnWrites (R : Memory Row → Memory Row → Prop) (this A : Nat) : Prop :=
  (∀ m, R m m) ∧
  (∀ m1 m2 m3, R m1 m2 → R m2 m3 → R m1 m3) ∧
  (∀ m t, R m (m.setRequest A { m.requests A with
      req_flags := (m.requests A).req_flags &&& bitNot32 req_null, trace := t })) ∧
  (∀ m t, R m (m.setRequest A { m.requests A with
      req_flags := (m.requests A).req_flags ||| req_null, trace := t })) ∧
  (∀ m v, R m (m.set_irsb_flags A (m.rsb this).m_impure v))

/-- From `m` to `m1` no `FilteredStream` object has changed: successor,
predicates, quantifier flags and impure offset are what they were. -/
def SameObjects (m m1 : Memory Row) : Prop :=
  m1.rsb = m.rsb

/-- From `m` to `m1` the state of every request other than `A` (impure area,
flags and all) is what it was. -/
def SameOtherRequests (A : Nat) (m m1 : Memory Row) : Prop :=
  ∀ B, B ≠ A → m1.requests B = m.requests B

/-- From `m` to `m1` the flag word of request `A` (a ULONG) has changed at
most in the `req_null` bit. -/
def SameFlagsButNull (A : Nat) (m m1 : Memory Row) : Prop :=
  (m.requests A).req_flags < 4294967296 →
    SameButNull (m.requests A).req_flags (m1.requests A).req_flags

/-- From `m` to `m1`, when `m` holds the objects `objs`: `m1` holds them too and
the impure area of request `A` holds at offset `off` what it held. -/
def SameImpureAt (objs : Nat → FilteredStreamObject) (A off : Nat) (m m1 : Memory Row) :
    Prop :=
  m.rsb = objs → m1.rsb = objs ∧ (m1.requests A).impure off = (m.requests A).impure off

/-- The memories `m` and `m2` hold the same objects and the same state of
request `A`; they may differ in every other request. -/
def Alike (A : Nat) (m m2 : Memory Row) : Prop :=
  m2.rsb = m.rsb ∧ m2.requests A = m.requests A

/-- Two outcomes of a call agree as far as request `A` can tell: both calls
fail to return, or both return the same value and leave alike memories. -/
def AlikeResult {β : Type} (A : Nat) :
    Option (β × Memory Row) → Option (β × Memory Row) → Prop
  | none, none => True
  | some x, some y => y.1 = x.1 ∧ Alike A x.2 y.2
  | _, _ => False

/-- The record source `src`, called under `tdbb`, reads nothing but the objects
and the state of the request of `tdbb`: on alike memories every call returns
the same value and leaves alike memories. -/
def ReadsOwnRequest (src : RecordSource Row) (tdbb : thread_db) : Prop :=
  ∀ m m2, Alike tdbb.getRequest m m2 →
    Alike tdbb.getRequest (src.open tdbb m) (src.open tdbb m2) ∧
    Alike tdbb.getRequest (src.close tdbb m) (src.close tdbb m2) ∧
    AlikeResult tdbb.getRequest (src.getRecord tdbb m) (src.getRecord tdbb m2) ∧
    Alike tdbb.getRequest (src.invalidateRecords tdbb.getRequest m)
      (src.invalidateRecords tdbb.getRequest m2)

/-- Sample statement: at address 0 the plain filter `value > 2` with impure
offset 0, whose successor, at address 1, is the plain filter `value < 10` with
impure offset 1; the successor of that one, at address 2, is not a
`FilteredStream`. -/
def sampleObjects (a : Nat) : FilteredStreamObject :=
  if a = 0 then
    { toFilteredStream := sampleStream 0 none false false false, m_next := 1 }
  else
    { toFilteredStream := { sampleStream 2 none false false false with m_impure := 1 },
      m_next := 2 }

/-- The virtual methods for the sample statement: the object at address 1 is a
`FilteredStream` over the external cursor, every other successor is the
external cursor. -/
def sampleMethods (fuel : Nat) (a : Nat) : RecordSource (Option Int) :=
  if a = 1 then filteredSource (fun _ => externalSource) (currentEval sampleEval) 1 fuel
  else externalSource

/-- The sample statement with every request fresh over a child delivering
`rows`. -/
def sampleMemory (rows : List (Option Int)) : Memory (Option Int) :=
  { rsb := sampleObjects, requests := fun _ => initialState rows }

/-- The sample statement after `open` of the operator at address 0 under
request 0, the external cursor delivering the rows [1, 5, NULL]; every other
request is fresh. -/
def sampleOpened : Memory (Option Int) :=
  FilteredStreamObject.open (sampleMethods 4) 0 ⟨0⟩ (sampleMemory [some 1, some 5, none])

end Jrd

deriving instance DecidableEq for Except

/-!
## String classes and PathUtils::splitLastComponent

Sources: src/common/classes/fb_string.h, src/common/classes/fb_string.cpp,
src/common/os/posix/path_utils.cpp.  A string object is its character sequence (`stringBuffer[0 .. stringLength)`),
the size of the allocated buffer and the length limit.  `PathName` is modelled
as compiled for POSIX (`WIN_NT` undefined).
-/

namespace Firebird

/-- Modelled from the spec: `FB_SIZE_T`, the `size_type` of the string classes,
is declared outside the sources; it is an unsigned 32-bit integer, so every
`size_type` expression is computed modulo `SIZE_MOD`. -/
def SIZE_MOD : Nat := 4294967296

/-- Unsigned `size_type` addition. -/
def uadd (a b : Nat) : Nat := (a + b) % SIZE_MOD

/-- Unsigned `size_type` subtraction. -/
def usub (a b : Nat) : Nat := (a + SIZE_MOD - b % SIZE_MOD) % SIZE_MOD

/-- `AbstractString::npos = (size_type)(~0)`. -/
def npos : Nat := SIZE_MOD - 1

/-- `INLINE_BUFFER_SIZE = 32u`. -/
def INLINE_BUFFER_SIZE : Nat := 32

/-- `INIT_RESERVE = 16u`. -/
def INIT_RESERVE : Nat := 16

/-- The null terminator. -/
def NUL : Char := Char.ofNat 0

/-- The exception raised by `checkLength`:
`fatal_exception::raise("Firebird::string - length exceeds predefined limit")`. -/
inductive Error where
  | length_exceeds_limit
  deriving DecidableEq, Repr

/-- A `const_pointer`: the characters found at the addresses `p`, `p + 1`, ... -/
abbrev const_pointer := Nat → Char

/-- The `n` characters read by `memcpy(dst, s, n)` / written by
`memset(dst, c, n)` when `s` is constant. -/
def readChars (s : const_pointer) (n : Nat) : List Char :=
  (List.range n).map s

/-- Buffer contents after writing `src` at offset `off`. -/
def writeAt (buf : List Char) (off : Nat) (src : List Char) : List Char :=
  buf.take off ++ src ++ buf.drop (off + src.length)

/-- The fields of `AbstractString`: `max_length`, the string itself
(`stringBuffer[0 .. stringLength)`, so `stringLength` is `chars.length`) and
`bufferSize`. -/
structure AbstractString where
  max_length : Nat
  chars : List Char
  bufferSize : Nat
  deriving DecidableEq, Repr

namespace AbstractString

/-- `length()`. -/
def length (s : AbstractString) : Nat := s.chars.length

/-- `max_size()`. -/
def max_size (s : AbstractString) : Nat := s.max_length

/-- `capacity()`: `bufferSize - 1u`. -/
def capacity (s : AbstractString) : Nat := usub s.bufferSize 1

/-- `c_str()`: the string followed by its terminator. -/
def c_str (s : AbstractString) : const_pointer := fun i => s.chars.getD i NUL

/-- `checkLength(len)`. -/
def checkLength (s : AbstractString) (len : Nat) : Except Error Unit :=
  if len > s.max_length then Except.error Error.length_exceeds_limit else Except.ok ()

/-- The first `newLen` characters of a buffer that starts with `kept` and is
otherwise not initialized (`junk i` stands for whatever is at index `i`). -/
def fill (kept : List Char) (newLen : Nat) (junk : Nat → Char) : List Char :=
  (List.range newLen).map (fun i => kept.getD i (junk i))

/-- `getBuffer(newLen, preserve)`.  A buffer that is reallocated keeps
`stringLength + 1` characters when `preserve` is set and nothing otherwise;
the characters of the result that were not kept are `junk`. -/
def getBuffer (s : AbstractString) (newLen : Nat) (preserve : Bool) (junk : Nat → Char) :
    Except Error AbstractString :=
  match s.checkLength newLen with
  | Except.error e => Except.error e
  | Except.ok _ =>
    if newLen ≥ s.bufferSize then
      let newSize0 := uadd (uadd newLen 1) INIT_RESERVE
      let newSize1 := if newSize0 / 2 < s.bufferSize then (s.bufferSize * 2) % SIZE_MOD
        else newSize0
      let newSize := if newSize1 > s.max_length then s.max_length else newSize1
      Except.ok { s with
        chars := fill (if preserve then s.chars ++ [NUL] else []) newLen junk,
        bufferSize := newSize }
    else
      Except.ok { s with chars := fill (s.chars ++ [NUL]) newLen junk }

/-- `initialize(len)` in a constructor for limit `limit`: sets up the buffer,
whose `len` characters are not initialized. -/
def initializeBuffer (limit len : Nat) (junk : Nat → Char) : Except Error AbstractString :=
  if len < INLINE_BUFFER_SIZE then
    Except.ok { max_length := limit, chars := fill [] len junk,
                bufferSize := INLINE_BUFFER_SIZE }
  else if len > limit then
    Except.error Error.length_exceeds_limit
  else
    let newSize0 := uadd (uadd len 1) INIT_RESERVE
    let newSize := if newSize0 > limit then limit else newSize0
    Except.ok { max_length := limit, chars := fill [] len junk, bufferSize := newSize }

/-- Characters never read before the caller overwrites them. -/
def unread : Nat → Char := fun _ => NUL

/-- `adjustRange(length, pos, n)`; returns the adjusted `(pos, n)`. -/
def adjustRange (length pos n : Nat) : Nat × Nat :=
  let pos1 := if pos = npos then (if length > n then usub length n else 0) else pos
  if pos1 ≥ length then (length, 0)
  else if n > length ∨ uadd pos1 n > length ∨ n = npos then (pos1, usub length pos1)
  else (pos1, n)

/-- `baseAssign(s, n)`: `memcpy(getBuffer(n, false), s, n)`. -/
def baseAssign (this : AbstractString) (s : const_pointer) (n : Nat) :
    Except Error AbstractString :=
  match this.getBuffer n false unread with
  | Except.error e => Except.error e
  | Except.ok b => Except.ok { b with chars := writeAt b.chars 0 (readChars s n) }

/-- `append(s, n)`: `memcpy(baseAppend(n), s, n)`, where `baseAppend(n)` is
`getBuffer(stringLength + n)` followed by `stringBuffer + stringLength - n`.
When that address lies before the buffer (the sum wrapped around) the copy
goes outside the string; the model then keeps what `getBuffer` left. -/
def append (this : AbstractString) (s : const_pointer) (n : Nat) :
    Except Error AbstractString :=
  match this.getBuffer (uadd this.length n) true unread with
  | Except.error e => Except.error e
  | Except.ok b =>
    if n ≤ b.length then
      Except.ok { b with chars := writeAt b.chars (b.length - n) (readChars s n) }
    else
      Except.ok b

/-- `append(n, c)`: `memset(baseAppend(n), c, n)`. -/
def appendFill (this : AbstractString) (n : Nat) (c : Char) : Except Error AbstractString :=
  this.append (fun _ => c) n

/-- `append(str, pos, n)` for `str` a different object. -/
def appendSub (this str : AbstractString) (pos n : Nat) : Except Error AbstractString :=
  let r := adjustRange str.length pos n
  this.append (fun i => str.c_str (r.1 + i)) r.2

/-- `baseErase(p0, n)` (and `erase(p0, n)`). -/
def baseErase (this : AbstractString) (p0 n : Nat) : AbstractString :=
  let r := adjustRange this.length p0 n
  if r.2 = 0 then this
  else { this with chars := this.chars.take r.1 ++ this.chars.drop (r.1 + r.2) }

/-- `resize(n, c)`. -/
def resize (this : AbstractString) (n : Nat) (c : Char) : Except Error AbstractString :=
  if n = this.length then Except.ok this
  else if n > this.length then
    match this.getBuffer n true unread with
    | Except.error e => Except.error e
    | Except.ok b =>
      Except.ok { b with
        chars := writeAt b.chars this.length (readChars (fun _ => c) (n - this.length)) }
  else
    Except.ok { this with chars := this.chars.take n }

/-- `reserve(n)`. -/
def reserve (this : AbstractString) (n : Nat) (junk : Nat → Char) :
    Except Error AbstractString :=
  this.getBuffer (if n > this.max_length then this.max_length else n) true junk

/-- The backward scan of `rfind(c, pos)`: indices `i, i - 1, ..., 0`. -/
def rfindLoop (chars : List Char) (c : Char) : Nat → Nat
  | 0 => if chars.getD 0 NUL = c then 0 else npos
  | i + 1 => if chars.getD (i + 1) NUL = c then i + 1 else rfindLoop chars c i

/-- `rfind(c, pos)`.  `int lastpos = length() - 1` is negative exactly when
the unsigned difference is at least 2^31. -/
def rfind (s : AbstractString) (c : Char) (pos : Nat) : Nat :=
  let lastpos := usub s.length 1
  if lastpos ≥ 2147483648 then npos
  else rfindLoop s.chars c (if pos < lastpos then pos else lastpos)

/-- `strchr` over the characters from index `i` on; the list is followed by
the terminator. -/
def strchr (c : Char) : List Char → Nat → Option Nat
  | [], i => if c = NUL then some i else none
  | x :: xs, i => if x = c then some i else if x = NUL then none else strchr c xs (i + 1)

/-- `find(c, pos)` for `pos <= length()`. -/
def find (s : AbstractString) (c : Char) (pos : Nat) : Nat :=
  match strchr c (s.chars.drop pos) pos with
  | some i => i
  | none => npos

end AbstractString

/-- `PathUtils::dir_sep` (POSIX). -/
def dir_sep : Char := '/'

/-- `PathName`: an `AbstractString` with the `normalized` flag. -/
structure PathName extends AbstractString where
  normalized : Bool
  deriving DecidableEq, Repr

namespace PathName

/-- `PathName::MAX_SIZE`. -/
def MAX_SIZE : Nat := 0x1FFFE

/-- The loop of `normalize`: up to the first null character, every backslash
or slash becomes `dir_sep`. -/
def normalizeChars : List Char → List Char
  | [] => []
  | c :: cs =>
    if c = NUL then c :: cs
    else (if c = '\\' ∨ c = '/' then dir_sep else c) :: normalizeChars cs

/-- `normalize()`. -/
def normalize (p : PathName) : PathName :=
  if p.normalized then p
  else { p with chars := if p.length > 0 then normalizeChars p.chars else p.chars,
                normalized := true }

/-- `PathName::rfind(c, pos)`; also returns the (possibly normalized) object. -/
def rfind (p : PathName) (c : Char) (pos : Nat) : Nat × PathName :=
  let q := if c = dir_sep then p.normalize else p
  (q.toAbstractString.rfind c pos, q)

/-- `PathName::find(c, pos)`; also returns the (possibly normalized) object. -/
def find (p : PathName) (c : Char) (pos : Nat) : Nat × PathName :=
  let q := if c = dir_sep then p.normalize else p
  (q.toAbstractString.find c pos, q)

/-- `isRelative()`; also returns the normalized object. -/
def isRelative (p : PathName) : Bool × PathName :=
  let q := p.normalize
  (q.length = 0 ∨ q.chars.getD 0 NUL ≠ dir_sep, q)

/-- `ensureSeparator()`. -/
def ensureSeparator (p : PathName) : Except Error PathName :=
  let q := p.normalize
  if q.length > 0 ∧ q.chars.getD (q.length - 1) NUL ≠ dir_sep then
    match q.toAbstractString.appendFill 1 dir_sep with
    | Except.error e => Except.error e
    | Except.ok a => Except.ok { q with toAbstractString := a }
  else
    Except.ok q

/-- `PathName::assign(const PathName& v)` for `v` a different object. -/
def assign (this v : PathName) : Except Error PathName :=
  match this.toAbstractString.baseAssign v.c_str v.length with
  | Except.error e => Except.error e
  | Except.ok a => Except.ok { toAbstractString := a, normalized := v.normalized }

/-- One pass of the `for` loop of `appendPath` per unit of `fuel`; `v` is
already normalized by `isRelative`. -/
def appendPathLoop (v : PathName) : Nat → PathName → Nat → Except Error PathName
  | 0, this, _ => Except.ok this
  | fuel + 1, this, cur_pos =>
    if cur_pos < v.length then
      let found := (v.find dir_sep cur_pos).1
      let pos := if found = npos then v.length else found
      if pos = cur_pos then
        appendPathLoop v fuel this (uadd pos 1)
      else if pos = uadd cur_pos 1 ∧ v.chars.getD cur_pos NUL = '.' then
        appendPathLoop v fuel this (uadd pos 1)
      else if pos = uadd cur_pos 2 ∧ v.chars.getD cur_pos NUL = '.'
          ∧ v.chars.getD (cur_pos + 1) NUL = '.' then
        if this.length < 2 then
          appendPathLoop v fuel this (uadd pos 1)
        else
          let r := this.rfind dir_sep (usub this.length 2)
          if r.1 = npos then
            appendPathLoop v fuel r.2 (uadd pos 1)
          else
            appendPathLoop v fuel
              { r.2 with toAbstractString := r.2.toAbstractString.baseErase (uadd r.1 1) npos }
              (uadd pos 1)
      else
        match this.toAbstractString.appendSub v.toAbstractString cur_pos
            (uadd (usub pos cur_pos) 1) with
        | Except.error e => Except.error e
        | Except.ok a => appendPathLoop v fuel { this with toAbstractString := a } (uadd pos 1)
    else
      Except.ok this

/-- `appendPath(v)` for `v` a different object; returns the receiver.  The
loop advances `cur_pos` by at least one per pass, so `v.length` passes
suffice. -/
def appendPath (this v : PathName) : Except Error PathName :=
  let rel := v.isRelative
  let w := rel.2
  let t := if !rel.1 then { this with toAbstractString := this.toAbstractString.baseErase 0 npos }
    else this
  if t.length = 0 then
    t.assign w
  else
    match t.ensureSeparator with
    | Except.error e => Except.error e
    | Except.ok u => appendPathLoop w w.length u 0

/-- The copy constructor `PathName(const PathName& from)`. -/
def copy (src : PathName) : Except Error PathName :=
  match AbstractString.initializeBuffer MAX_SIZE src.length AbstractString.unread with
  | Except.error e => Except.error e
  | Except.ok a =>
    let copied := writeAt a.chars 0 (readChars src.c_str src.length)
    Except.ok { toAbstractString := { a with chars := copied }, normalized := src.normalized }

/-- `isSubdirOf(PathName dir)`; `dir` is passed by value.  Returns the result
and the (possibly normalized) receiver. -/
def isSubdirOf (this dir : PathName) : Except Error (Bool × PathName) :=
  match copy dir with
  | Except.error e => Except.error e
  | Except.ok d0 =>
    match d0.ensureSeparator with
    | Except.error e => Except.error e
    | Except.ok d =>
      let dir_len := d.length
      if this.length ≤ dir_len then Except.ok (false, this)
      else
        let t := this.normalize
        Except.ok (decide (readChars t.c_str dir_len = readChars d.c_str dir_len), t)

end PathName

/-! ## References: `PathUtils::splitLastComponent` -/

/-- The `PathName` variables of the caller, by address. -/
abbrev Store := Nat → PathName

/-- `PathName::operator=(const_pointer s)` on the variable at `this`. -/
def assignCStr (m : Store) (this : Nat) (s : List Char) : Except Error Store :=
  match (m this).toAbstractString.baseAssign (fun i => s.getD i NUL) s.length with
  | Except.error e => Except.error e
  | Except.ok a => Except.ok (Function.update m this { toAbstractString := a, normalized := false })

/-- `PathName::operator=(const PathName& v)` on the variable at `this`. -/
def assignRef (m : Store) (this v : Nat) : Except Error Store :=
  if v ≠ this then
    match (m this).toAbstractString.baseAssign (m v).c_str (m v).length with
    | Except.error e => Except.error e
    | Except.ok a =>
      Except.ok (Function.update m this { toAbstractString := a, normalized := (m v).normalized })
  else
    Except.ok m

/-- `PathName::assign(const PathName& v, size_type pos, size_type n)` on the
variable at `this`. -/
def assignSub (m : Store) (this v : Nat) (pos n : Nat) : Except Error Store :=
  let r := AbstractString.adjustRange (m v).length pos n
  if v = this then
    let t := m this
    match (t.toAbstractString.baseErase 0 r.1).resize r.2 ' ' with
    | Except.error e => Except.error e
    | Except.ok a => Except.ok (Function.update m this { t with toAbstractString := a })
  else
    match (m this).toAbstractString.baseAssign (fun i => (m v).c_str (r.1 + i)) r.2 with
    | Except.error e => Except.error e
    | Except.ok a =>
      Except.ok (Function.update m this { toAbstractString := a, normalized := (m v).normalized })

/-- `PathUtils::splitLastComponent(path, file, orgPath)` (POSIX); the three
arguments are the addresses of the variables passed. -/
def splitLastComponent (m : Store) (path file orgPath : Nat) : Except Error Store :=
  let r := (m orgPath).rfind dir_sep npos
  let m1 := Function.update m orgPath r.2
  let pos := r.1
  if pos = npos then
    match assignCStr m1 path [] with
    | Except.error e => Except.error e
    | Except.ok m2 => assignRef m2 file orgPath
  else if orgPath = file then
    match assignSub m1 path orgPath 0 pos with
    | Except.error e => Except.error e
    | Except.ok m2 =>
      assignSub m2 file orgPath (uadd pos 1) (usub (usub (m2 orgPath).length pos) 1)
  else
    match assignSub m1 file orgPath (uadd pos 1) (usub (usub (m1 orgPath).length pos) 1) with
    | Except.error e => Except.error e
    | Except.ok m2 => assignSub m2 path orgPath 0 pos

/-- A `PathName` constructed from a C string no longer than the limit:
`PathName(const_pointer s)`. -/
def mkPath (s : String) : PathName :=
  { max_length := PathName.MAX_SIZE, chars := s.toList,
    bufferSize := if s.length < INLINE_BUFFER_SIZE then INLINE_BUFFER_SIZE
      else (if s.length + 17 > PathName.MAX_SIZE then PathName.MAX_SIZE else s.length + 17),
    normalized := false }

/-- A normalized path of the greatest admissible length, ending with a
separator: 0x1FFFD letters `a` followed by `/`. -/
def longestPath : PathName :=
  { max_length := PathName.MAX_SIZE,
    chars := List.replicate (PathName.MAX_SIZE - 1) 'a' ++ [dir_sep],
    bufferSize := PathName.MAX_SIZE, normalized := true }

end Firebird

namespace Jrd

variable {Row : Type}

/-! ## Flag-word arithmetic -/

theorem and_bitNot32_req_null (w : Nat) : (w &&& bitNot32 req_null) &&& req_null = 0 := by
  rw [Nat.and_assoc]
  have h : (bitNot32 req_null &&& req_null : Nat) = 0 := by decide
  rw [h, Nat.and_zero]

theorem or_req_null_ne (w : Nat) : (w ||| req_null) &&& req_null ≠ 0 := by
  intro h
  have h2 := congrArg (fun x => Nat.testBit x 3) h
  have h3 : Nat.testBit req_null 3 = true := by decide
  simp [Nat.testBit_and, Nat.testBit_or, h3] at h2

theorem and_bitNot32_irsb_open (w : Nat) : (w &&& bitNot32 irsb_open) &&& irsb_open = 0 := by
  rw [Nat.and_assoc]
  have h : (bitNot32 irsb_open &&& irsb_open : Nat) = 0 := by decide
  rw [h, Nat.and_zero]

theorem irsb_open_and_self : (irsb_open &&& irsb_open : Nat) ≠ 0 := by decide

/-! ## Projections of the primitive steps -/

@[simp] theorem EVL_boolean_fst (ev : jrd_nod → Row → TriState) (n : jrd_nod) (r : Row)
    (st : State Row) : (EVL_boolean ev n r st).1 = decide (ev n r = TriState.TRUE) := by
  unfold EVL_boolean; cases ev n r <;> rfl

@[simp] theorem EVL_boolean_test (ev : jrd_nod → Row → TriState) (n : jrd_nod) (r : Row)
    (st : State Row) :
    test_req_null (EVL_boolean ev n r st).2 = decide (ev n r = TriState.UNKNOWN) := by
  unfold EVL_boolean test_req_null
  cases ev n r <;> simp [and_bitNot32_req_null, or_req_null_ne]

@[simp] theorem EVL_boolean_impure (ev : jrd_nod → Row → TriState) (n : jrd_nod) (r : Row)
    (st : State Row) : (EVL_boolean ev n r st).2.impure = st.impure := by
  unfold EVL_boolean; cases ev n r <;> rfl

@[simp] theorem EVL_boolean_rows (ev : jrd_nod → Row → TriState) (n : jrd_nod) (r : Row)
    (st : State Row) : (EVL_boolean ev n r st).2.rows = st.rows := by
  unfold EVL_boolean; cases ev n r <;> rfl

@[simp] theorem EVL_boolean_current (ev : jrd_nod → Row → TriState) (n : jrd_nod) (r : Row)
    (st : State Row) : (EVL_boolean ev n r st).2.current = st.current := by
  unfold EVL_boolean; cases ev n r <;> rfl

@[simp] theorem clear_req_null_impure (st : State Row) :
    (clear_req_null st).impure = st.impure := rfl

@[simp] theorem clear_req_null_rows (st : State Row) :
    (clear_req_null st).rows = st.rows := rfl

@[simp] theorem clear_req_null_current (st : State Row) :
    (clear_req_null st).current = st.current := rfl

@[simp] theorem next_fetch_impure (r : Row) (rs : List Row) (st : State Row) :
    (next_fetch r rs st).impure = st.impure := rfl

@[simp] theorem next_fetch_rows (r : Row) (rs : List Row) (st : State Row) :
    (next_fetch r rs st).rows = rs := rfl

@[simp] theorem next_fetch_current (r : Row) (rs : List Row) (st : State Row) :
    (next_fetch r rs st).current = some r := rfl

@[simp] theorem next_eof_impure (st : State Row) : (next_eof st).impure = st.impure := rfl

@[simp] theorem next_eof_rows (st : State Row) : (next_eof st).rows = [] := rfl

@[simp] theorem invalidateRecords_impure (F : FilteredStream) (st : State Row) :
    (invalidateRecords F st).impure = st.impure := rfl

@[simp] theorem invalidateRecords_rows (F : FilteredStream) (st : State Row) :
    (invalidateRecords F st).rows = st.rows := rfl

/-! ## getRecord on a closed operator, close -/

theorem getRecord_closed (F : FilteredStream) (ev : jrd_nod → Row → TriState)
    (st : State Row) (h : st.impure F.m_impure &&& irsb_open = 0) :
    getRecord F ev st = (false, st) := by
  simp [getRecord, h]

/-- C6: when the open flag is clear, `getRecord` returns false and leaves the
whole state as it was: no call reaches the child (neither getRecord nor
invalidateRecords) and no predicate is evaluated, since the trace of such
calls is part of the state. -/
theorem getRecord_not_open (F : FilteredStream) (ev : jrd_nod → Row → TriState)
    (st : State Row) (h : st.impure F.m_impure &&& irsb_open = 0) :
    getRecord F ev st = (false, st) := by
  simp [getRecord, h]

/-- Witness for C6 on a fresh request with a non-empty child. -/
theorem getRecord_not_open_witness :
    (initialState [some (7 : Int)]).impure (sampleStream 0 none false false false).m_impure
        &&& irsb_open = 0 ∧
      getRecord (sampleStream 0 none false false false) sampleEval (initialState [some (7 : Int)])
        = (false, initialState [some (7 : Int)]) :=
  ⟨by decide, getRecord_not_open _ _ _ (by decide)⟩

theorem close_flag_clear (F : FilteredStream) (st : State Row) :
    (F.close st).impure F.m_impure &&& irsb_open = 0 := by
  unfold FilteredStream.close
  by_cases h : (st.impure F.m_impure &&& irsb_open) = 0
  · simp [h, next_close]
  · simp [h, next_close, and_bitNot32_irsb_open]

/-- C7: whatever the prior state and the quantifier configuration, after
`close` the open flag is clear, and a `getRecord` issued next returns false
and leaves the state (hence the trace of child calls) exactly as `close` left
it. -/
theorem getRecord_after_close (F : FilteredStream) (ev : jrd_nod → Row → TriState)
    (st : State Row) :
    (F.close st).impure F.m_impure &&& irsb_open = 0 ∧
      getRecord F ev (F.close st) = (false, F.close st) ∧
      (getRecord F ev (F.close st)).2.trace = (F.close st).trace := by
  have h := close_flag_clear F st
  refine ⟨h, ?_, ?_⟩ <;> simp [getRecord, h]

/-! ## The quantifier loops -/

theorem column_node_isSome (F : FilteredStream) (q : jrd_nod) (hq : F.m_anyBoolean = some q) :
    ∃ col, column_node F = some col := by
  unfold column_node
  rw [hq]
  cases q with
  | nod_and a b => by_cases h : (F.m_ansiAny || F.m_ansiAll) = true <;> simp [h]
  | nod_other i => exact ⟨_, rfl⟩

theorem select_node_not_and (F : FilteredStream) (q : jrd_nod) (hq : F.m_anyBoolean = some q)
    (hand : ∀ a b, q ≠ jrd_nod.nod_and a b) : select_node F = none := by
  unfold select_node
  rw [hq]
  cases q with
  | nod_and a b => exact absurd rfl (hand a b)
  | nod_other i => rfl

theorem anyLoop_fst (F : FilteredStream) (ev : jrd_nod → Row → TriState) (rows : List Row) :
    ∀ st : State Row, (anyLoop F ev rows st).1
      = rows.any (fun r => decide (ev F.m_boolean r = TriState.TRUE)) := by
  induction rows with
  | nil => intro st; rfl
  | cons r rs ih =>
    intro st
    simp only [anyLoop, EVL_boolean_fst, List.any_cons]
    by_cases h : ev F.m_boolean r = TriState.TRUE
    · simp [h]
    · simp [h, ih]

theorem notAnyLoop_fst (F : FilteredStream) (ev : jrd_nod → Row → TriState) (col : jrd_nod)
    (rows : List Row) :
    ∀ st : State Row,
      ((notAnyLoop F ev none col rows st).1.1 || (notAnyLoop F ev none col rows st).1.2)
      = rows.any (fun r => decide (ev F.m_boolean r = TriState.TRUE)
                            || decide (ev F.m_boolean r = TriState.UNKNOWN)) := by
  induction rows with
  | nil => intro st; rfl
  | cons r rs ih =>
    intro st
    simp only [notAnyLoop, EVL_boolean_fst, EVL_boolean_test, List.any_cons]
    by_cases h : ev F.m_boolean r = TriState.TRUE
    · simp [h]
    · by_cases h2 : ev F.m_boolean r = TriState.UNKNOWN
      · simp [h2]
      · simp [h, h2, ih]

/-- The row test of the ALL loops: the optional select predicate is true. -/
theorem allLoop_fst (F : FilteredStream) (ev : jrd_nod → Row → TriState)
    (sel : Option jrd_nod) (rows : List Row) :
    ∀ st : State Row, (allLoop F ev sel rows st).1
      = rows.any (fun r => !decide (ev F.m_boolean r = TriState.TRUE)
                            && decide (∀ s, sel = some s → ev s r = TriState.TRUE)) := by
  induction rows with
  | nil => intro st; rfl
  | cons r rs ih =>
    intro st
    simp only [allLoop, EVL_boolean_fst, List.any_cons]
    by_cases h : ev F.m_boolean r = TriState.TRUE
    · simp [h, ih]
    · cases sel with
      | none => simp [h]
      | some s =>
        by_cases h2 : ev s r = TriState.TRUE
        · simp [h, h2]
        · simp [h, h2, ih]

theorem notAllLoop_fst (F : FilteredStream) (ev : jrd_nod → Row → TriState)
    (sel : Option jrd_nod) (rows : List Row) :
    ∀ st : State Row, (notAllLoop F ev sel rows st).1
      = rows.any (fun r => decide (ev F.m_boolean r = TriState.FALSE)
                            && decide (∀ s, sel = some s → ev s r = TriState.TRUE)) := by
  induction rows with
  | nil => intro st; rfl
  | cons r rs ih =>
    intro st
    simp only [notAllLoop, EVL_boolean_fst, EVL_boolean_test, List.any_cons]
    cases h : ev F.m_boolean r with
    | TRUE => simp [ih]
    | UNKNOWN => simp [ih]
    | FALSE =>
      cases sel with
      | none => simp
      | some s =>
        by_cases h2 : ev s r = TriState.TRUE
        · simp [h2]
        · simp [h2, ih]


/-- C2: ANY, not negated.  With a quantifier predicate present, `m_ansiAny`
set and `m_ansiNot` clear, `evaluateBoolean` returns true iff some remaining
child row has the predicate true; so it returns false on an empty child and
when no row is true, whatever number of rows is unknown. -/
theorem evaluateBoolean_any (F : FilteredStream) (ev : jrd_nod → Row → TriState)
    (st : State Row) (q : jrd_nod) (hq : F.m_anyBoolean = some q)
    (hAny : F.m_ansiAny = true) (hNot : F.m_ansiNot = false) :
    ((evaluateBoolean F ev st).1 = true ↔ ∃ r ∈ st.rows, ev F.m_boolean r = TriState.TRUE) ∧
      (st.rows = [] → (evaluateBoolean F ev st).1 = false) ∧
      ((∀ r ∈ st.rows, ev F.m_boolean r = TriState.FALSE ∨ ev F.m_boolean r = TriState.UNKNOWN) →
        (evaluateBoolean F ev st).1 = false) := by
  obtain ⟨col, hcol⟩ := column_node_isSome F q hq
  have key : (evaluateBoolean F ev st).1
      = st.rows.any (fun r => decide (ev F.m_boolean r = TriState.TRUE)) := by
    simp [evaluateBoolean, hcol, hAny, hNot, anyLoop_fst]
  refine ⟨?_, ?_, ?_⟩
  · rw [key]; simp
  · intro h; rw [key, h]; rfl
  · intro h
    rw [key, List.any_eq_false]
    intro r hr
    rcases h r hr with h1 | h1 <;> simp [h1]

/-- Witness for C2: empty child, ANY with predicate `value = 5`, gives false. -/
theorem evaluateBoolean_any_witness :
    (evaluateBoolean (sampleStream 1 (some (jrd_nod.nod_other 1)) true false false) sampleEval
        ((sampleStream 1 (some (jrd_nod.nod_other 1)) true false false).open
          (initialState []))).1 = false :=
  (evaluateBoolean_any (sampleStream 1 (some (jrd_nod.nod_other 1)) true false false) sampleEval
    ((sampleStream 1 (some (jrd_nod.nod_other 1)) true false false).open (initialState []))
    (jrd_nod.nod_other 1) rfl rfl rfl).2.1 rfl

/-- C3: NOT ANY without a select/column pair.  With a quantifier predicate
that is not an AND node and `m_ansiAny`, `m_ansiNot` set, `evaluateBoolean`
returns true iff some child row makes the predicate true or some child row
makes it unknown; so it returns false when every row is definitely false, and
on an empty child. -/
theorem evaluateBoolean_not_any (F : FilteredStream) (ev : jrd_nod → Row → TriState)
    (st : State Row) (q : jrd_nod) (hq : F.m_anyBoolean = some q)
    (hand : ∀ a b, q ≠ jrd_nod.nod_and a b)
    (hAny : F.m_ansiAny = true) (hNot : F.m_ansiNot = true) :
    ((evaluateBoolean F ev st).1 = true ↔
        (∃ r ∈ st.rows, ev F.m_boolean r = TriState.TRUE) ∨
        (∃ r ∈ st.rows, ev F.m_boolean r = TriState.UNKNOWN)) ∧
      ((∀ r ∈ st.rows, ev F.m_boolean r = TriState.FALSE) →
        (evaluateBoolean F ev st).1 = false) ∧
      (st.rows = [] → (evaluateBoolean F ev st).1 = false) := by
  obtain ⟨col, hcol⟩ := column_node_isSome F q hq
  have hsel := select_node_not_and F q hq hand
  have key : (evaluateBoolean F ev st).1
      = st.rows.any (fun r => decide (ev F.m_boolean r = TriState.TRUE)
                              || decide (ev F.m_boolean r = TriState.UNKNOWN)) := by
    simp only [evaluateBoolean, hcol, hAny, hNot, hsel, if_true]
    exact notAnyLoop_fst F ev col st.rows st
  refine ⟨?_, ?_, ?_⟩
  · rw [key, List.any_eq_true]
    constructor
    · rintro ⟨r, hr, h⟩
      simp only [Bool.or_eq_true, decide_eq_true_eq] at h
      rcases h with h | h
      · exact Or.inl ⟨r, hr, h⟩
      · exact Or.inr ⟨r, hr, h⟩
    · rintro (⟨r, hr, h⟩ | ⟨r, hr, h⟩) <;> exact ⟨r, hr, by simp [h]⟩
  · intro h
    rw [key, List.any_eq_false]
    intro r hr
    simp [h r hr]
  · intro h; rw [key, h]; rfl

/-- Witness for C3: rows [NULL, 2], NOT ANY with predicate `value = 5`, give
true. -/
theorem evaluateBoolean_not_any_witness :
    (evaluateBoolean (sampleStream 1 (some (jrd_nod.nod_other 1)) true false true) sampleEval
        ((sampleStream 1 (some (jrd_nod.nod_other 1)) true false true).open
          (initialState [none, some 2]))).1 = true :=
  (evaluateBoolean_not_any (sampleStream 1 (some (jrd_nod.nod_other 1)) true false true)
    sampleEval
    ((sampleStream 1 (some (jrd_nod.nod_other 1)) true false true).open
      (initialState [none, some 2]))
    (jrd_nod.nod_other 1) rfl (fun _ _ h => jrd_nod.noConfusion h) rfl rfl).1.2
    (Or.inr ⟨none, by decide, rfl⟩)



theorem plainLoop_spec (F : FilteredStream) (ev : jrd_nod → Row → TriState) (rows : List Row) :
    ∀ (st : State Row) (nf : Bool),
      (plainLoop F ev rows st nf).2.impure = st.impure ∧
      ((plainLoop F ev rows st nf).1.1 = true →
        ∃ pre r post, rows = pre ++ r :: post ∧
          (∀ x ∈ pre, ev F.m_boolean x ≠ TriState.TRUE) ∧ ev F.m_boolean r = TriState.TRUE ∧
          (plainLoop F ev rows st nf).2.rows = post ∧
          (plainLoop F ev rows st nf).2.current = some r) ∧
      ((plainLoop F ev rows st nf).1.1 = false →
        (∀ x ∈ rows, ev F.m_boolean x ≠ TriState.TRUE) ∧
          (plainLoop F ev rows st nf).2.rows = []) := by
  induction rows with
  | nil => intro st nf; simp [plainLoop]
  | cons r rs ih =>
    intro st nf
    by_cases h : ev F.m_boolean r = TriState.TRUE
    · simp only [plainLoop, EVL_boolean_fst, h, decide_True, if_true]
      refine ⟨by simp, fun _ => ⟨[], r, rs, rfl, by simp, h, by simp, by simp⟩, by simp⟩
    · simp only [plainLoop, EVL_boolean_fst, h, decide_False]
      obtain ⟨h1, h2, h3⟩ := ih (EVL_boolean ev F.m_boolean r (next_fetch r rs st)).2
        (if test_req_null (EVL_boolean ev F.m_boolean r (next_fetch r rs st)).2 then true else nf)
      refine ⟨by simpa using h1, ?_, ?_⟩
      · intro ht
        obtain ⟨pre, x, post, e1, e2, e3, e4, e5⟩ := h2 (by simpa using ht)
        refine ⟨r :: pre, x, post, by simp [e1], ?_, e3, by simpa using e4, by simpa using e5⟩
        intro y hy
        rcases List.mem_cons.1 hy with hy | hy
        · rw [hy]; exact h
        · exact e2 y hy
      · intro hf
        obtain ⟨e1, e2⟩ := h3 (by simpa using hf)
        refine ⟨?_, by simpa using e2⟩
        intro y hy
        rcases List.mem_cons.1 hy with hy | hy
        · rw [hy]; exact h
        · exact e1 y hy

theorem anyLoop_spec (F : FilteredStream) (ev : jrd_nod → Row → TriState) (rows : List Row) :
    ∀ st : State Row,
      (anyLoop F ev rows st).2.impure = st.impure ∧
      ((anyLoop F ev rows st).1 = false → (anyLoop F ev rows st).2.rows = []) := by
  induction rows with
  | nil => intro st; simp [anyLoop]
  | cons r rs ih =>
    intro st
    by_cases h : ev F.m_boolean r = TriState.TRUE
    · simp [anyLoop, h]
    · simp only [anyLoop, EVL_boolean_fst, h, decide_False]
      simpa using ih (EVL_boolean ev F.m_boolean r (next_fetch r rs st)).2

theorem notAnyLoop_spec (F : FilteredStream) (ev : jrd_nod → Row → TriState)
    (sel : Option jrd_nod) (col : jrd_nod) (rows : List Row) :
    ∀ st : State Row,
      (notAnyLoop F ev sel col rows st).2.impure = st.impure ∧
      (((notAnyLoop F ev sel col rows st).1.1 || (notAnyLoop F ev sel col rows st).1.2) = false →
        (notAnyLoop F ev sel col rows st).2.rows = []) := by
  induction rows with
  | nil => intro st; simp [notAnyLoop]
  | cons r rs ih =>
    intro st
    by_cases h : ev F.m_boolean r = TriState.TRUE
    · simp [notAnyLoop, h]
    · cases sel with
      | none =>
        by_cases h2 : ev F.m_boolean r = TriState.UNKNOWN
        · simp [notAnyLoop, h2]
        · simp only [notAnyLoop, EVL_boolean_fst, EVL_boolean_test, h, h2, decide_False]
          simpa using ih (EVL_boolean ev F.m_boolean r (next_fetch r rs st)).2
      | some s =>
        by_cases h2 : ev s r = TriState.TRUE
        · by_cases h3 : ev col r = TriState.UNKNOWN
          · simp [notAnyLoop, h, h2, h3]
          · simp only [notAnyLoop, EVL_boolean_fst, EVL_boolean_test, h, h2, h3, decide_False,
              decide_True]
            simpa using ih (EVL_boolean ev col r (clear_req_null (EVL_boolean ev s r
              (clear_req_null (EVL_boolean ev F.m_boolean r (next_fetch r rs st)).2)).2)).2
        · simp only [notAnyLoop, EVL_boolean_fst, h, h2, decide_False]
          simpa using ih (EVL_boolean ev s r
            (clear_req_null (EVL_boolean ev F.m_boolean r (next_fetch r rs st)).2)).2



theorem column_node_none (F : FilteredStream) (hq : F.m_anyBoolean = none) :
    column_node F = none := by
  unfold column_node; rw [hq]

theorem evaluateBoolean_plain (F : FilteredStream) (ev : jrd_nod → Row → TriState)
    (st : State Row) (h : column_node F = none ∨ (F.m_ansiAny = false ∧ F.m_ansiAll = false)) :
    (evaluateBoolean F ev st).1 = (plainLoop F ev st.rows st false).1.1 ∧
    (evaluateBoolean F ev st).2.impure = (plainLoop F ev st.rows st false).2.impure ∧
    (evaluateBoolean F ev st).2.rows = (plainLoop F ev st.rows st false).2.rows ∧
    (evaluateBoolean F ev st).2.current = (plainLoop F ev st.rows st false).2.current := by
  have key : evaluateBoolean F ev st
      = ((plainLoop F ev st.rows st false).1.1,
          if (plainLoop F ev st.rows st false).1.2 then
            { (plainLoop F ev st.rows st false).2 with
              req_flags := (plainLoop F ev st.rows st false).2.req_flags ||| req_null }
          else (plainLoop F ev st.rows st false).2) := by
    rcases h with h | ⟨h1, h2⟩
    · simp only [evaluateBoolean, h]
    · cases hc : column_node F with
      | none => simp only [evaluateBoolean, hc]
      | some c => simp [evaluateBoolean, hc, h1, h2]
  rw [key]
  refine ⟨rfl, ?_, ?_, ?_⟩ <;> (dsimp only; split <;> rfl)

theorem getRecord_plain (F : FilteredStream) (ev : jrd_nod → Row → TriState)
    (st : State Row) (hq : F.m_anyBoolean = none)
    (hopen : st.impure F.m_impure &&& irsb_open ≠ 0) :
    (getRecord F ev st).2.impure = st.impure ∧
    ((getRecord F ev st).1 = true →
      ∃ pre r post, st.rows = pre ++ r :: post ∧
        (∀ x ∈ pre, ev F.m_boolean x ≠ TriState.TRUE) ∧ ev F.m_boolean r = TriState.TRUE ∧
        (getRecord F ev st).2.rows = post ∧ (getRecord F ev st).2.current = some r) ∧
    ((getRecord F ev st).1 = false → ∀ x ∈ st.rows, ev F.m_boolean x ≠ TriState.TRUE) := by
  obtain ⟨e1, e2, e3, e4⟩ := evaluateBoolean_plain F ev st (Or.inl (column_node_none F hq))
  obtain ⟨p1, p2, p3⟩ := plainLoop_spec F ev st.rows st false
  cases hb : (evaluateBoolean F ev st).1 with
  | true =>
    have hg : getRecord F ev st = (true, (evaluateBoolean F ev st).2) := by
      simp [getRecord, hopen, hb]
    rw [hg]
    refine ⟨by simp [e2, p1], ?_, by simp⟩
    intro _
    obtain ⟨pre, r, post, h1, h2, h3, h4, h5⟩ := p2 (by rw [← e1]; exact hb)
    exact ⟨pre, r, post, h1, h2, h3, by simp [e3, h4], by simp [e4, h5]⟩
  | false =>
    have hg : getRecord F ev st = (false, invalidateRecords F (evaluateBoolean F ev st).2) := by
      simp [getRecord, hopen, hb]
    rw [hg]
    refine ⟨by simp [e2, p1], by simp, ?_⟩
    intro _
    exact (p3 (by rw [← e1]; exact hb)).1

theorem fetchAll_plain (F : FilteredStream) (ev : jrd_nod → Row → TriState)
    (hq : F.m_anyBoolean = none) :
    ∀ (n : Nat) (st : State Row), st.impure F.m_impure &&& irsb_open ≠ 0 →
      st.rows.length < n →
      fetchAll F ev n st
        = some ((st.rows.filter (fun r => decide (ev F.m_boolean r = TriState.TRUE))).map some) := by
  intro n
  induction n with
  | zero => intro st _ h; exact absurd h (Nat.not_lt_zero _)
  | succ n ih =>
    intro st hopen hlen
    obtain ⟨g1, g2, g3⟩ := getRecord_plain F ev st hq hopen
    cases hb : (getRecord F ev st).1 with
    | true =>
      obtain ⟨pre, r, post, h1, h2, h3, h4, h5⟩ := g2 hb
      have hlen2 : (getRecord F ev st).2.rows.length < n := by
        rw [h4]; rw [h1] at hlen; simp at hlen; omega
      have hrec := ih (getRecord F ev st).2 (by rw [g1]; exact hopen) hlen2
      have hpre : pre.filter (fun r => decide (ev F.m_boolean r = TriState.TRUE)) = [] := by
        rw [List.filter_eq_nil_iff]
        intro x hx
        simpa using h2 x hx
      simp only [fetchAll, hb, if_true, hrec, h1, List.filter_append, hpre, List.nil_append,
        h4, h5, Option.map_some']
      simp [List.filter_cons, h3]
    | false =>
      have hnil : st.rows.filter (fun r => decide (ev F.m_boolean r = TriState.TRUE)) = [] := by
        rw [List.filter_eq_nil_iff]
        intro x hx
        simpa using g3 hb x hx
      simp [fetchAll, hb, hnil]

theorem open_flag_set (F : FilteredStream) (st : State Row) :
    (F.open st).impure F.m_impure &&& irsb_open ≠ 0 := by
  simp only [FilteredStream.open, next_open, Function.update_same]
  exact irsb_open_and_self

/-- C1: plain filter (no quantifier predicate).  For every child row sequence
`st.source` and every three-valued predicate, after `open` the successive
`getRecord` calls that return true stop exactly on the rows for which the
predicate is true, in the child's order, and the next `getRecord` returns
false; rows on which the predicate is false or unknown are never delivered. -/
theorem plain_filter_output (F : FilteredStream) (ev : jrd_nod → Row → TriState)
    (st : State Row) (n : Nat) (hq : F.m_anyBoolean = none) (hn : st.source.length < n) :
    fetchAll F ev n (F.open st)
      = some ((st.source.filter
          (fun r => decide (ev F.m_boolean r = TriState.TRUE))).map some) :=
  fetchAll_plain F ev hq n (F.open st) (open_flag_set F st) hn

/-- Witness for C1: rows [1,2,3,4] with predicate `value > 2` deliver [3,4]. -/
theorem plain_filter_output_witness :
    fetchAll (sampleStream 0 none false false false) sampleEval 5
        ((sampleStream 0 none false false false).open
          (initialState [some 1, some 2, some 3, some 4]))
      = some [some (some 3), some (some 4)] :=
  (plain_filter_output (sampleStream 0 none false false false) sampleEval
    (initialState [some 1, some 2, some 3, some 4]) 5 rfl (by decide)).trans (by decide)



/-! ## Exhaustion -/

theorem evaluateBoolean_exhaust (F : FilteredStream) (ev : jrd_nod → Row → TriState)
    (st : State Row)
    (hcfg : F.m_anyBoolean = none ∨ F.m_ansiAny = true ∨ F.m_ansiAll = false) :
    (evaluateBoolean F ev st).2.impure = st.impure ∧
    ((evaluateBoolean F ev st).1 = false → (evaluateBoolean F ev st).2.rows = []) := by
  have plain : (column_node F = none ∨ (F.m_ansiAny = false ∧ F.m_ansiAll = false)) →
      (evaluateBoolean F ev st).2.impure = st.impure ∧
      ((evaluateBoolean F ev st).1 = false → (evaluateBoolean F ev st).2.rows = []) := by
    intro h
    obtain ⟨e1, e2, e3, _⟩ := evaluateBoolean_plain F ev st h
    obtain ⟨p1, _, p3⟩ := plainLoop_spec F ev st.rows st false
    exact ⟨by rw [e2, p1], fun hb => by rw [e3]; exact (p3 (by rw [← e1]; exact hb)).2⟩
  cases hc : column_node F with
  | none => exact plain (Or.inl hc)
  | some c =>
    cases hAny : F.m_ansiAny with
    | true =>
      cases hNot : F.m_ansiNot with
      | true =>
        obtain ⟨n1, n2⟩ := notAnyLoop_spec F ev (select_node F) c st.rows st
        simp only [evaluateBoolean, hc, hAny, hNot, if_true, clear_req_null_impure,
          clear_req_null_rows]
        exact ⟨n1, n2⟩
      | false =>
        obtain ⟨n1, n2⟩ := anyLoop_spec F ev st.rows st
        simp only [evaluateBoolean, hc, hAny, hNot, if_true, clear_req_null_impure,
          clear_req_null_rows]
        exact ⟨n1, n2⟩
    | false =>
      rcases hcfg with h | h | h
      · rw [column_node_none F h] at hc; exact Option.noConfusion hc
      · rw [hAny] at h; exact Bool.noConfusion h
      · exact plain (Or.inr ⟨hAny, h⟩)

theorem evaluateBoolean_nil (F : FilteredStream) (ev : jrd_nod → Row → TriState)
    (st : State Row)
    (hcfg : F.m_anyBoolean = none ∨ F.m_ansiAny = true ∨ F.m_ansiAll = false)
    (hrows : st.rows = []) : (evaluateBoolean F ev st).1 = false := by
  cases hc : column_node F with
  | none => simp [evaluateBoolean, hc, hrows, plainLoop]
  | some c =>
    cases hAny : F.m_ansiAny with
    | true =>
      cases hNot : F.m_ansiNot <;>
        simp [evaluateBoolean, hc, hAny, hNot, hrows, notAnyLoop, anyLoop]
    | false =>
      rcases hcfg with h | h | h
      · rw [column_node_none F h] at hc; exact Option.noConfusion hc
      · rw [hAny] at h; exact Bool.noConfusion h
      · simp [evaluateBoolean, hc, hAny, h, hrows, plainLoop]

theorem getRecord_false_done (F : FilteredStream) (ev : jrd_nod → Row → TriState)
    (st : State Row)
    (hcfg : F.m_anyBoolean = none ∨ F.m_ansiAny = true ∨ F.m_ansiAll = false)
    (h : (getRecord F ev st).1 = false) :
    (getRecord F ev st).2.impure F.m_impure &&& irsb_open = 0 ∨ (getRecord F ev st).2.rows = [] := by
  by_cases ho : st.impure F.m_impure &&& irsb_open = 0
  · left; rw [getRecord_closed F ev st ho]; exact ho
  · right
    obtain ⟨_, e2⟩ := evaluateBoolean_exhaust F ev st hcfg
    cases hb : (evaluateBoolean F ev st).1 with
    | true => simp [getRecord, ho, hb] at h
    | false => simp [getRecord, ho, hb, e2 hb]

theorem getRecord_done (F : FilteredStream) (ev : jrd_nod → Row → TriState)
    (st : State Row)
    (hcfg : F.m_anyBoolean = none ∨ F.m_ansiAny = true ∨ F.m_ansiAll = false)
    (h : st.impure F.m_impure &&& irsb_open = 0 ∨ st.rows = []) :
    (getRecord F ev st).1 = false := by
  by_cases ho : st.impure F.m_impure &&& irsb_open = 0
  · rw [getRecord_closed F ev st ho]
  · rcases h with h | h
    · exact absurd h ho
    · simp [getRecord, ho, evaluateBoolean_nil F ev st hcfg h]

/-- C9 as stated fails for ALL: with one child row on which the predicate
`value < 10` is false, the first `getRecord` returns false (a false row was
found) and the second, finding the child exhausted, returns true. -/
theorem getRecord_all_true_after_false :
    (getRecord (sampleStream 2 (some (jrd_nod.nod_other 2)) false true false) sampleEval
        (getRecords (sampleStream 2 (some (jrd_nod.nod_other 2)) false true false) sampleEval 0
          ((sampleStream 2 (some (jrd_nod.nod_other 2)) false true false).open
            (initialState [some 20])))).1 = false ∧
    (getRecord (sampleStream 2 (some (jrd_nod.nod_other 2)) false true false) sampleEval
        (getRecords (sampleStream 2 (some (jrd_nod.nod_other 2)) false true false) sampleEval 1
          ((sampleStream 2 (some (jrd_nod.nod_other 2)) false true false).open
            (initialState [some 20])))).1 = true := by
  decide

/-- The same happens for NOT ALL: over one child row on which the predicate
`value < 10` is false, the first `getRecord` returns false and the second,
finding the child exhausted, returns true. -/
theorem getRecord_not_all_true_after_false :
    (getRecord (sampleStream 2 (some (jrd_nod.nod_other 2)) false true true) sampleEval
        (getRecords (sampleStream 2 (some (jrd_nod.nod_other 2)) false true true) sampleEval 0
          ((sampleStream 2 (some (jrd_nod.nod_other 2)) false true true).open
            (initialState [some 20])))).1 = false ∧
    (getRecord (sampleStream 2 (some (jrd_nod.nod_other 2)) false true true) sampleEval
        (getRecords (sampleStream 2 (some (jrd_nod.nod_other 2)) false true true) sampleEval 1
          ((sampleStream 2 (some (jrd_nod.nod_other 2)) false true true).open
            (initialState [some 20])))).1 = true := by
  decide

/-- C9 amended: for the plain filter, ANY and NOT ANY (every configuration
that does not reach the ALL / NOT ALL branch), over a finite child that keeps
returning false once exhausted: if the call number `i + 1` of a run of
`getRecord` calls returned false, every later call of the run returns false
too. -/
theorem getRecord_exhaustion_permanent (F : FilteredStream) (ev : jrd_nod → Row → TriState)
    (st : State Row) (i j : Nat)
    (hcfg : F.m_anyBoolean = none ∨ F.m_ansiAny = true ∨ F.m_ansiAll = false)
    (hij : i < j) (h : (getRecord F ev (getRecords F ev i st)).1 = false) :
    (getRecord F ev (getRecords F ev j st)).1 = false := by
  have hdone : ∀ k, (getRecords F ev (i + 1 + k) st).impure F.m_impure &&& irsb_open = 0 ∨
      (getRecords F ev (i + 1 + k) st).rows = [] := by
    intro k
    induction k with
    | zero => exact getRecord_false_done F ev _ hcfg h
    | succ k ih =>
      exact getRecord_false_done F ev _ hcfg (getRecord_done F ev _ hcfg ih)
  obtain ⟨k, rfl⟩ : ∃ k, j = i + 1 + k := ⟨j - (i + 1), by omega⟩
  exact getRecord_done F ev _ hcfg (hdone k)

/-- Witness for C9 amended: a plain filter `value > 2` over rows [1, 5]; the
second call returns false and so does the fourth. -/
theorem getRecord_exhaustion_permanent_witness :
    (getRecord (sampleStream 0 none false false false) sampleEval
        (getRecords (sampleStream 0 none false false false) sampleEval 1
          ((sampleStream 0 none false false false).open (initialState [some 1, some 5])))).1
        = false ∧
    (getRecord (sampleStream 0 none false false false) sampleEval
        (getRecords (sampleStream 0 none false false false) sampleEval 3
          ((sampleStream 0 none false false false).open (initialState [some 1, some 5])))).1
        = false :=
  ⟨by decide,
   getRecord_exhaustion_permanent (sampleStream 0 none false false false) sampleEval
    ((sampleStream 0 none false false false).open (initialState [some 1, some 5])) 1 3
    (Or.inl rfl) (by decide) (by decide)⟩



/-! ## close twice, refetch -/

theorem close_of_not_open (F : FilteredStream) (st : State Row)
    (h : st.impure F.m_impure &&& irsb_open = 0) :
    F.close st = next_invalidateRecords st := by
  simp [FilteredStream.close, invalidateRecords, next_invalidateRecords, h]

theorem closeCount_close_le (F : FilteredStream) (st : State Row) :
    closeCount (F.close st) ≤ closeCount st + 1 := by
  unfold FilteredStream.close
  by_cases h : (st.impure F.m_impure &&& irsb_open) = 0
  · simp [h, closeCount, invalidateRecords, next_invalidateRecords, List.count_append]
  · simp [h, closeCount, invalidateRecords, next_invalidateRecords, next_close,
      List.count_append]

/-- C8: `close` is idempotent.  For every state, calling `close` twice leaves
the same per-context state (impure area and request flags) as calling it once,
and the child's close is invoked at most once: not by the second call, at most
once by the first.  On a not-open operator `close` leaves the per-context state
as it was and never calls the child's close; all it does is the unconditional
`invalidateRecords` (line 61), which it hands on to the child, and the same
holds for the second of two calls. -/
theorem close_idempotent (F : FilteredStream) (st : State Row) :
    (F.close (F.close st)).impure = (F.close st).impure ∧
    (F.close (F.close st)).req_flags = (F.close st).req_flags ∧
    closeCount (F.close (F.close st)) = closeCount (F.close st) ∧
    closeCount (F.close st) ≤ closeCount st + 1 ∧
    F.close (F.close st) = next_invalidateRecords (F.close st) ∧
    (st.impure F.m_impure &&& irsb_open = 0 →
      F.close st = next_invalidateRecords st ∧
      (F.close st).impure = st.impure ∧ (F.close st).req_flags = st.req_flags ∧
      closeCount (F.close st) = closeCount st ∧
      (F.close st).trace = st.trace ++ [Call.next_invalidateRecords]) := by
  have h2 := close_of_not_open F (F.close st) (close_flag_clear F st)
  refine ⟨?_, ?_, ?_, closeCount_close_le F st, h2, ?_⟩
  · rw [h2]; rfl
  · rw [h2]; rfl
  · rw [h2]; simp [closeCount, next_invalidateRecords, List.count_append]
  · intro h
    have h1 := close_of_not_open F st h
    refine ⟨h1, ?_, ?_, ?_, ?_⟩
    · rw [h1]; rfl
    · rw [h1]; rfl
    · rw [h1]; simp [closeCount, next_invalidateRecords, List.count_append]
    · rw [h1]; rfl

/-- Witness for C8: after open, two closes reach the child as
invalidateRecords, close, invalidateRecords, one close only; on a fresh
request, which is not open, `close` adds the `invalidateRecords` call alone. -/
theorem close_idempotent_witness :
    closeCount ((sampleStream 0 none false false false).close
        ((sampleStream 0 none false false false).close
          ((sampleStream 0 none false false false).open (initialState [some (1 : Int)]))))
      = closeCount ((sampleStream 0 none false false false).close
          ((sampleStream 0 none false false false).open (initialState [some (1 : Int)]))) ∧
    ((sampleStream 0 none false false false).close (initialState [some (1 : Int)])).trace
      = (initialState [some (1 : Int)]).trace ++ [Call.next_invalidateRecords] :=
  ⟨(close_idempotent (sampleStream 0 none false false false)
      ((sampleStream 0 none false false false).open (initialState [some (1 : Int)]))).2.2.1,
   ((close_idempotent (sampleStream 0 none false false false)
      (initialState [some (1 : Int)])).2.2.2.2.2 (by decide)).2.2.2.2⟩

/-- C10, the code at the failing input: a plain filter `value > 2` positioned
on row 3 with row 1 still pending.  The child's refetch succeeds and re-reads
row 3, on which the predicate is true, yet `refetchRecord` returns false: it
runs the whole scan of `evaluateBoolean`, which fetches row 1, evaluates the
predicate there, and fetches again until the child is exhausted. -/
theorem refetchRecord_advances_child :
    (getRecord (sampleStream 0 none false false false) sampleEval
        ((sampleStream 0 none false false false).open
          { initialState [some 3, some 1] with refetched := some (some 3) })).1 = true ∧
    (getRecord (sampleStream 0 none false false false) sampleEval
        ((sampleStream 0 none false false false).open
          { initialState [some 3, some 1] with refetched := some (some 3) })).2.current
      = some (some 3) ∧
    sampleEval (sampleStream 0 none false false false).m_boolean (some 3) = TriState.TRUE ∧
    (refetchRecord (sampleStream 0 none false false false) sampleEval
        (getRecord (sampleStream 0 none false false false) sampleEval
          ((sampleStream 0 none false false false).open
            { initialState [some 3, some 1] with refetched := some (some 3) })).2).1 = false ∧
    (refetchRecord (sampleStream 0 none false false false) sampleEval
        (getRecord (sampleStream 0 none false false false) sampleEval
          ((sampleStream 0 none false false false).open
            { initialState [some 3, some 1] with refetched := some (some 3) })).2).2.trace
      = [Call.next_open, Call.next_getRecord, Call.EVL_boolean (jrd_nod.nod_other 0),
         Call.next_refetchRecord,
         Call.next_getRecord, Call.EVL_boolean (jrd_nod.nod_other 0), Call.next_getRecord] := by
  decide


/-! ## What a request leaves untouched -/

theorem SameButNull_refl (a : Nat) (h : a < 4294967296) : SameButNull a a := ⟨h, rfl⟩

theorem SameButNull_clear (a b : Nat) (h : SameButNull a b) :
    SameButNull a (b &&& bitNot32 req_null) := by
  refine ⟨lt_of_le_of_lt Nat.and_le_left h.1, ?_⟩
  rw [← h.2]
  show (b &&& ((2 ^ 32 - 1) ^^^ 2 ^ 3)) ||| 2 ^ 3 = b ||| 2 ^ 3
  apply Nat.eq_of_testBit_eq
  intro i
  simp only [Nat.testBit_or, Nat.testBit_and, Nat.testBit_xor,
    Nat.testBit_two_pow_sub_one, Nat.testBit_two_pow]
  by_cases h3 : 3 = i
  · simp [h3]
  · by_cases h32 : i < 32
    · simp [h3, h32]
    · have hb : b.testBit i = false := by
        apply Nat.testBit_eq_false_of_lt
        calc b < 2 ^ 32 := h.1
          _ ≤ 2 ^ i := Nat.pow_le_pow_right (by norm_num) (by omega)
      simp [h3, h32, hb]

theorem SameButNull_set (a b : Nat) (h : SameButNull a b) :
    SameButNull a (b ||| req_null) := by
  refine ⟨?_, ?_⟩
  · have h2 := @Nat.or_lt_two_pow b req_null 32 h.1 (by decide)
    exact h2
  · rw [Nat.or_assoc, Nat.or_self]; exact h.2

theorem EVL_boolean_req_flags (ev : jrd_nod → Row → TriState) (n : jrd_nod) (r : Row)
    (st : State Row) (a : Nat) (h : SameButNull a st.req_flags) :
    SameButNull a (EVL_boolean ev n r st).2.req_flags := by
  unfold EVL_boolean
  cases ev n r
  · exact SameButNull_clear a _ h
  · exact SameButNull_clear a _ h
  · exact SameButNull_set a _ h

theorem clear_req_null_req_flags (st : State Row) (a : Nat) (h : SameButNull a st.req_flags) :
    SameButNull a (clear_req_null st).req_flags :=
  SameButNull_clear a _ h

@[simp] theorem next_fetch_req_flags (r : Row) (rs : List Row) (st : State Row) :
    (next_fetch r rs st).req_flags = st.req_flags := rfl

@[simp] theorem next_eof_req_flags (st : State Row) :
    (next_eof st).req_flags = st.req_flags := rfl

theorem plainLoop_req_flags (F : FilteredStream) (ev : jrd_nod → Row → TriState) (a : Nat)
    (rows : List Row) :
    ∀ (st : State Row) (nf : Bool), SameButNull a st.req_flags →
      SameButNull a (plainLoop F ev rows st nf).2.req_flags := by
  induction rows with
  | nil => intro st nf h; exact h
  | cons r rs ih =>
    intro st nf h
    have h1 := EVL_boolean_req_flags ev F.m_boolean r (next_fetch r rs st) a h
    simp only [plainLoop]
    split
    · exact h1
    · exact ih _ _ h1

theorem anyLoop_req_flags (F : FilteredStream) (ev : jrd_nod → Row → TriState) (a : Nat)
    (rows : List Row) :
    ∀ st : State Row, SameButNull a st.req_flags →
      SameButNull a (anyLoop F ev rows st).2.req_flags := by
  induction rows with
  | nil => intro st h; exact h
  | cons r rs ih =>
    intro st h
    have h1 := EVL_boolean_req_flags ev F.m_boolean r (next_fetch r rs st) a h
    simp only [anyLoop]
    split
    · exact h1
    · exact ih _ h1

theorem notAnyLoop_req_flags (F : FilteredStream) (ev : jrd_nod → Row → TriState) (a : Nat)
    (sel : Option jrd_nod) (col : jrd_nod) (rows : List Row) :
    ∀ st : State Row, SameButNull a st.req_flags →
      SameButNull a (notAnyLoop F ev sel col rows st).2.req_flags := by
  induction rows with
  | nil => intro st h; exact h
  | cons r rs ih =>
    intro st h
    have h1 := EVL_boolean_req_flags ev F.m_boolean r (next_fetch r rs st) a h
    cases sel with
    | none =>
      simp only [notAnyLoop]
      split
      · exact h1
      · split
        · exact h1
        · exact ih _ h1
    | some s =>
      have h2 := EVL_boolean_req_flags ev s r _ a (clear_req_null_req_flags _ a h1)
      have h3 := EVL_boolean_req_flags ev col r _ a (clear_req_null_req_flags _ a h2)
      simp only [notAnyLoop]
      split
      · exact h1
      · split
        · split
          · exact h3
          · exact ih _ h3
        · exact ih _ h2

theorem allLoop_frame (F : FilteredStream) (ev : jrd_nod → Row → TriState) (a : Nat)
    (sel : Option jrd_nod) (rows : List Row) :
    ∀ st : State Row,
      (allLoop F ev sel rows st).2.impure = st.impure ∧
      (SameButNull a st.req_flags → SameButNull a (allLoop F ev sel rows st).2.req_flags) := by
  induction rows with
  | nil => intro st; exact ⟨rfl, fun h => h⟩
  | cons r rs ih =>
    intro st
    have h1 : SameButNull a st.req_flags → SameButNull a (EVL_boolean ev F.m_boolean r
        (clear_req_null (next_fetch r rs st))).2.req_flags := fun h =>
      EVL_boolean_req_flags ev F.m_boolean r _ a (clear_req_null_req_flags _ a h)
    simp only [allLoop]
    split
    · cases sel with
      | none => exact ⟨by simp, h1⟩
      | some s =>
        have h2 : SameButNull a st.req_flags → SameButNull a (EVL_boolean ev s r
            (clear_req_null (EVL_boolean ev F.m_boolean r
              (clear_req_null (next_fetch r rs st))).2)).2.req_flags := fun h =>
          EVL_boolean_req_flags ev s r _ a (clear_req_null_req_flags _ a (h1 h))
        dsimp only
        split
        · exact ⟨by simp, h2⟩
        · exact ⟨by rw [(ih _).1]; simp, fun h => (ih _).2 (h2 h)⟩
    · exact ⟨by rw [(ih _).1]; simp, fun h => (ih _).2 (h1 h)⟩

theorem notAllLoop_frame (F : FilteredStream) (ev : jrd_nod → Row → TriState) (a : Nat)
    (sel : Option jrd_nod) (rows : List Row) :
    ∀ st : State Row,
      (notAllLoop F ev sel rows st).2.impure = st.impure ∧
      (SameButNull a st.req_flags →
        SameButNull a (notAllLoop F ev sel rows st).2.req_flags) := by
  induction rows with
  | nil => intro st; exact ⟨rfl, fun h => h⟩
  | cons r rs ih =>
    intro st
    have h1 : SameButNull a st.req_flags → SameButNull a (EVL_boolean ev F.m_boolean r
        (clear_req_null (next_fetch r rs st))).2.req_flags := fun h =>
      EVL_boolean_req_flags ev F.m_boolean r _ a (clear_req_null_req_flags _ a h)
    simp only [notAllLoop]
    split
    · cases sel with
      | none => exact ⟨by simp, h1⟩
      | some s =>
        have h2 : SameButNull a st.req_flags → SameButNull a (EVL_boolean ev s r
            (clear_req_null (EVL_boolean ev F.m_boolean r
              (clear_req_null (next_fetch r rs st))).2)).2.req_flags := fun h =>
          EVL_boolean_req_flags ev s r _ a (clear_req_null_req_flags _ a (h1 h))
        dsimp only
        split
        · exact ⟨by simp, h2⟩
        · exact ⟨by rw [(ih _).1]; simp, fun h => (ih _).2 (h2 h)⟩
    · exact ⟨by rw [(ih _).1]; simp, fun h => (ih _).2 (h1 h)⟩

theorem evaluateBoolean_frame (F : FilteredStream) (ev : jrd_nod → Row → TriState)
    (st : State Row) (a : Nat) :
    (evaluateBoolean F ev st).2.impure = st.impure ∧
    (SameButNull a st.req_flags → SameButNull a (evaluateBoolean F ev st).2.req_flags) := by
  have plain : ((plainLoop F ev st.rows st false).1.1,
        if (plainLoop F ev st.rows st false).1.2 = true then
          { (plainLoop F ev st.rows st false).2 with
            req_flags := (plainLoop F ev st.rows st false).2.req_flags ||| req_null }
        else (plainLoop F ev st.rows st false).2).2.impure = st.impure ∧
      (SameButNull a st.req_flags → SameButNull a
        ((plainLoop F ev st.rows st false).1.1,
          if (plainLoop F ev st.rows st false).1.2 = true then
            { (plainLoop F ev st.rows st false).2 with
              req_flags := (plainLoop F ev st.rows st false).2.req_flags ||| req_null }
          else (plainLoop F ev st.rows st false).2).2.req_flags) := by
    have p1 := (plainLoop_spec F ev st.rows st false).1
    dsimp only
    split
    · exact ⟨p1, fun h => SameButNull_set a _ (plainLoop_req_flags F ev a st.rows st false h)⟩
    · exact ⟨p1, fun h => plainLoop_req_flags F ev a st.rows st false h⟩
  unfold evaluateBoolean
  cases column_node F with
  | none => exact plain
  | some c =>
    dsimp only
    cases F.m_ansiAny with
    | true =>
      cases F.m_ansiNot with
      | true =>
        exact ⟨(notAnyLoop_spec F ev _ c st.rows st).1, fun h =>
          clear_req_null_req_flags _ a (notAnyLoop_req_flags F ev a _ c st.rows st h)⟩
      | false =>
        exact ⟨(anyLoop_spec F ev st.rows st).1, fun h =>
          clear_req_null_req_flags _ a (anyLoop_req_flags F ev a st.rows st h)⟩
    | false =>
      cases F.m_ansiAll with
      | true =>
        cases F.m_ansiNot with
        | true =>
          exact ⟨(notAllLoop_frame F ev a _ st.rows st).1, fun h =>
            clear_req_null_req_flags _ a ((notAllLoop_frame F ev a _ st.rows st).2 h)⟩
        | false =>
          exact ⟨(allLoop_frame F ev a _ st.rows st).1, fun h =>
            clear_req_null_req_flags _ a ((allLoop_frame F ev a _ st.rows st).2 h)⟩
      | false => exact plain

/-! ## Several requests: the writes of the operator and those of its successor -/

@[simp] theorem setRequest_rsb (m : Memory Row) (A : Nat) (st : State Row) :
    (m.setRequest A st).rsb = m.rsb := rfl

@[simp] theorem setRequest_same (m : Memory Row) (A : Nat) (st : State Row) :
    (m.setRequest A st).requests A = st := by
  simp [Memory.setRequest]

theorem setRequest_other (m : Memory Row) (A B : Nat) (st : State Row) (h : B ≠ A) :
    (m.setRequest A st).requests B = m.requests B := by
  simp [Memory.setRequest, Function.update_noteq h]

theorem setRequest_twice (m : Memory Row) (A : Nat) (st st2 : State Row) :
    (m.setRequest A st).setRequest A st2 = m.setRequest A st2 := by
  simp [Memory.setRequest]

theorem EVL_boolean_keeps (R : Memory Row → Memory Row → Prop) (this : Nat)
    (ev : jrd_nod → State Row → TriState) (tdbb : thread_db)
    (hR : OwnWrites R this tdbb.getRequest) (node : jrd_nod) (m : Memory Row) :
    R m (Memory.EVL_boolean ev tdbb node m).2 := by
  unfold Memory.EVL_boolean
  cases ev node (m.requests tdbb.getRequest)
  · exact hR.2.2.1 m _
  · exact hR.2.2.1 m _
  · exact hR.2.2.2.1 m _

theorem clear_req_null_keeps (R : Memory Row → Memory Row → Prop) (this : Nat)
    (tdbb : thread_db) (hR : OwnWrites R this tdbb.getRequest) (m : Memory Row) :
    R m (m.clear_req_null tdbb.getRequest) :=
  hR.2.2.1 m (m.requests tdbb.getRequest).trace

theorem set_req_null_keeps (R : Memory Row → Memory Row → Prop) (this : Nat)
    (tdbb : thread_db) (hR : OwnWrites R this tdbb.getRequest) (m : Memory Row) :
    R m (m.set_req_null tdbb.getRequest) :=
  hR.2.2.2.1 m (m.requests tdbb.getRequest).trace

theorem clear_EVL_keeps (R : Memory Row → Memory Row → Prop) (this : Nat)
    (ev : jrd_nod → State Row → TriState) (tdbb : thread_db)
    (hR : OwnWrites R this tdbb.getRequest) (node : jrd_nod) (m : Memory Row) :
    R m (Memory.EVL_boolean ev tdbb node (m.clear_req_null tdbb.getRequest)).2 :=
  hR.2.1 _ _ _ (clear_req_null_keeps R this tdbb hR m) (EVL_boolean_keeps R this ev tdbb hR node _)

theorem plainBody_keeps (R : Memory Row → Memory Row → Prop) (this : Nat)
    (ev : jrd_nod → State Row → TriState) (tdbb : thread_db)
    (hR : OwnWrites R this tdbb.getRequest) (l : Bool × Bool) (m : Memory Row) :
    R m (plainBody ev this tdbb l m).2 := by
  have h1 := EVL_boolean_keeps R this ev tdbb hR (m.rsb this).m_boolean m
  unfold plainBody
  dsimp only
  split <;> exact h1

theorem anyBody_keeps (R : Memory Row → Memory Row → Prop) (this : Nat)
    (ev : jrd_nod → State Row → TriState) (tdbb : thread_db)
    (hR : OwnWrites R this tdbb.getRequest) (l : Bool) (m : Memory Row) :
    R m (anyBody ev this tdbb l m).2 := by
  have h1 := EVL_boolean_keeps R this ev tdbb hR (m.rsb this).m_boolean m
  unfold anyBody
  dsimp only
  split <;> exact h1

theorem notAnyBody_keeps (R : Memory Row → Memory Row → Prop) (this : Nat)
    (ev : jrd_nod → State Row → TriState) (tdbb : thread_db)
    (hR : OwnWrites R this tdbb.getRequest) (sel : Option jrd_nod) (col : jrd_nod)
    (l : Bool × Bool) (m : Memory Row) :
    R m (notAnyBody ev this tdbb sel col l m).2 := by
  have h1 := EVL_boolean_keeps R this ev tdbb hR (m.rsb this).m_boolean m
  unfold notAnyBody
  dsimp only
  split
  · exact h1
  · cases sel with
    | none =>
      dsimp only
      split <;> exact h1
    | some s =>
      have h2 := hR.2.1 _ _ _ h1 (clear_EVL_keeps R this ev tdbb hR s
        (Memory.EVL_boolean ev tdbb (m.rsb this).m_boolean m).2)
      dsimp only
      split
      · have h3 := hR.2.1 _ _ _ h2 (clear_EVL_keeps R this ev tdbb hR col _)
        split <;> exact h3
      · exact h2

theorem allBody_keeps (R : Memory Row → Memory Row → Prop) (this : Nat)
    (ev : jrd_nod → State Row → TriState) (tdbb : thread_db)
    (hR : OwnWrites R this tdbb.getRequest) (sel : Option jrd_nod)
    (l : Bool) (m : Memory Row) :
    R m (allBody ev this tdbb sel l m).2 := by
  have h1 := clear_EVL_keeps R this ev tdbb hR (m.rsb this).m_boolean m
  unfold allBody
  dsimp only
  split
  · cases sel with
    | none => exact h1
    | some s =>
      have h2 := hR.2.1 _ _ _ h1 (clear_EVL_keeps R this ev tdbb hR s _)
      dsimp only
      split <;> exact h2
  · exact h1

theorem notAllBody_keeps (R : Memory Row → Memory Row → Prop) (this : Nat)
    (ev : jrd_nod → State Row → TriState) (tdbb : thread_db)
    (hR : OwnWrites R this tdbb.getRequest) (sel : Option jrd_nod)
    (l : Bool) (m : Memory Row) :
    R m (notAllBody ev this tdbb sel l m).2 := by
  have h1 := clear_EVL_keeps R this ev tdbb hR (m.rsb this).m_boolean m
  unfold notAllBody
  dsimp only
  split
  · cases sel with
    | none => exact h1
    | some s =>
      have h2 := hR.2.1 _ _ _ h1 (clear_EVL_keeps R this ev tdbb hR s _)
      dsimp only
      split <;> exact h2
  · exact h1

theorem whileGetRecord_keeps {L : Type} (R : Memory Row → Memory Row → Prop)
    (htrans : ∀ m1 m2 m3, R m1 m2 → R m2 m3 → R m1 m3)
    (getRecord : Memory Row → Option (Bool × Memory Row))
    (body : L → Memory Row → (L ⊕ L) × Memory Row)
    (hget : ∀ m b m1, getRecord m = some (b, m1) → R m m1)
    (hbody : ∀ l m, R m (body l m).2) :
    ∀ (fuel : Nat) (l : L) (m : Memory Row) (r : L × Memory Row),
      whileGetRecord getRecord body fuel l m = some r → R m r.2 := by
  intro fuel
  induction fuel with
  | zero => intro l m r h; simp [whileGetRecord] at h
  | succ n ih =>
    intro l m r h
    unfold whileGetRecord at h
    cases hg : getRecord m with
    | none => simp [hg] at h
    | some x =>
      obtain ⟨b, m1⟩ := x
      have h1 := hget m b m1 hg
      rw [hg] at h
      cases b with
      | false =>
        simp only [Option.some.injEq] at h
        rw [← h]; exact h1
      | true =>
        dsimp only at h
        have h2 := hbody l m1
        cases hb : body l m1 with
        | mk x m2 =>
          rw [hb] at h h2
          cases x with
          | inl l2 => exact htrans _ _ _ h1 (htrans _ _ _ h2 (ih l2 m2 r h))
          | inr l2 =>
            simp only [Option.some.injEq] at h
            rw [← h]; exact htrans _ _ _ h1 h2

theorem evaluateBoolean_keeps (R : Memory Row → Memory Row → Prop) (this : Nat)
    (methods : Nat → RecordSource Row) (ev : jrd_nod → State Row → TriState)
    (fuel : Nat) (tdbb : thread_db) (hR : OwnWrites R this tdbb.getRequest)
    (hnext : ∀ c, Keeps R (methods c) tdbb) (m : Memory Row) (b : Bool) (m1 : Memory Row)
    (h : FilteredStreamObject.evaluateBoolean methods ev this fuel tdbb m = some (b, m1)) :
    R m m1 := by
  have hget : ∀ (m : Memory Row) (b : Bool) (m1 : Memory Row),
      (methods (m.rsb this).m_next).getRecord tdbb m = some (b, m1) → R m m1 :=
    fun m b m1 hg => (hnext _).2.2.1 m b m1 hg
  have loop : ∀ {L : Type} (body : L → Memory Row → (L ⊕ L) × Memory Row),
      (∀ l m, R m (body l m).2) → ∀ (l : L) (r : L × Memory Row),
      whileGetRecord (fun m1 : Memory Row => (methods (m1.rsb this).m_next).getRecord tdbb m1)
        body fuel l m = some r → R m r.2 :=
    fun body hb l r hr => whileGetRecord_keeps R hR.2.1 _ body hget hb fuel l m r hr
  have plain : ∀ (b : Bool) (m1 : Memory Row),
      (whileGetRecord (fun m1 : Memory Row => (methods (m1.rsb this).m_next).getRecord tdbb m1)
        (plainBody ev this tdbb) fuel (false, false) m).map
        (fun l => (l.1.1, if l.1.2 then l.2.set_req_null tdbb.getRequest else l.2))
        = some (b, m1) → R m m1 := by
    intro b m1 h
    obtain ⟨r, hr, he⟩ := Option.map_eq_some'.mp h
    have h1 := loop _ (plainBody_keeps R this ev tdbb hR) _ r hr
    have he2 := congrArg Prod.snd he
    dsimp only at he2
    rw [← he2]
    split
    · exact hR.2.1 _ _ _ h1 (set_req_null_keeps R this tdbb hR _)
    · exact h1
  have quant : ∀ {L : Type} (body : L → Memory Row → (L ⊕ L) × Memory Row)
      (l : L) (f : L → Bool) (b : Bool) (m1 : Memory Row),
      (∀ l m, R m (body l m).2) →
      (whileGetRecord (fun m1 : Memory Row => (methods (m1.rsb this).m_next).getRecord tdbb m1)
        body fuel l m).map (fun l => (f l.1, l.2.clear_req_null tdbb.getRequest))
        = some (b, m1) → R m m1 := by
    intro L body l f b m1 hb h
    obtain ⟨r, hr, he⟩ := Option.map_eq_some'.mp h
    have h1 := loop body hb l r hr
    have he2 := congrArg Prod.snd he
    dsimp only at he2
    rw [← he2]
    exact hR.2.1 _ _ _ h1 (clear_req_null_keeps R this tdbb hR _)
  unfold FilteredStreamObject.evaluateBoolean at h
  dsimp only at h
  split at h
  · split at h
    · split at h
      · exact quant _ _ (fun l => l.1 || l.2) b m1 (notAnyBody_keeps R this ev tdbb hR _ _) h
      · exact quant _ _ (fun l => l) b m1 (anyBody_keeps R this ev tdbb hR) h
    · split at h
      · split at h
        · exact quant _ _ (fun l => !l) b m1 (notAllBody_keeps R this ev tdbb hR _) h
        · exact quant _ _ (fun l => !l) b m1 (allBody_keeps R this ev tdbb hR _) h
      · exact plain b m1 h
  · exact plain b m1 h

theorem filteredSource_keeps (R : Memory Row → Memory Row → Prop) (this : Nat)
    (methods : Nat → RecordSource Row) (ev : jrd_nod → State Row → TriState)
    (fuel : Nat) (tdbb : thread_db) (hR : OwnWrites R this tdbb.getRequest)
    (hnext : ∀ c, Keeps R (methods c) tdbb) :
    Keeps R (filteredSource methods ev this fuel) tdbb := by
  have hinv : ∀ m, R m (FilteredStreamObject.invalidateRecords methods this tdbb.getRequest m) :=
    fun m => (hnext _).2.2.2 m
  refine ⟨?_, ?_, ?_, hinv⟩
  · intro m
    exact hR.2.1 _ _ _ (hR.2.2.2.2 m irsb_open) ((hnext _).1 _)
  · intro m
    show R m (FilteredStreamObject.close methods this tdbb m)
    unfold FilteredStreamObject.close
    dsimp only
    split
    · exact hR.2.1 _ _ _ (hinv m) (hR.2.1 _ _ _ (hR.2.2.2.2 _ _) ((hnext _).2.1 _))
    · exact hinv m
  · intro m b m1 h
    change FilteredStreamObject.getRecord methods ev this fuel tdbb m = some (b, m1) at h
    unfold FilteredStreamObject.getRecord at h
    dsimp only at h
    split at h
    · simp only [Option.some.injEq, Prod.mk.injEq] at h
      rw [← h.2]; exact hR.1 m
    · split at h
      · simp at h
      · rename_i m2 he
        simp only [Option.some.injEq, Prod.mk.injEq] at h
        rw [← h.2]
        exact hR.2.1 _ _ _ (evaluateBoolean_keeps R this methods ev fuel tdbb hR hnext m _ m2 he)
          (hinv m2)
      · rename_i m2 he
        simp only [Option.some.injEq, Prod.mk.injEq] at h
        rw [← h.2]
        exact evaluateBoolean_keeps R this methods ev fuel tdbb hR hnext m _ m2 he

theorem ownWrites_SameObjects (this A : Nat) :
    OwnWrites (SameObjects : Memory Row → Memory Row → Prop) this A :=
  ⟨fun _ => rfl, fun _ _ _ h1 h2 => h2.trans h1, fun _ _ => rfl, fun _ _ => rfl,
   fun _ _ => rfl⟩

theorem ownWrites_SameOtherRequests (this A : Nat) :
    OwnWrites (SameOtherRequests A : Memory Row → Memory Row → Prop) this A :=
  ⟨fun _ _ _ => rfl, fun _ _ _ h1 h2 B hB => (h2 B hB).trans (h1 B hB),
   fun m _ B hB => setRequest_other m A B _ hB,
   fun m _ B hB => setRequest_other m A B _ hB,
   fun m _ B hB => setRequest_other m A B _ hB⟩

theorem ownWrites_SameFlagsButNull (this A : Nat) :
    OwnWrites (SameFlagsButNull A : Memory Row → Memory Row → Prop) this A := by
  refine ⟨fun m h => SameButNull_refl _ h, ?_, ?_, ?_, ?_⟩
  · intro m1 m2 m3 h1 h2 h
    have a := h1 h
    have b := h2 a.1
    exact ⟨b.1, b.2.trans a.2⟩
  · intro m t h
    simp only [SameFlagsButNull, setRequest_same]
    exact SameButNull_clear _ _ (SameButNull_refl _ h)
  · intro m t h
    simp only [SameFlagsButNull, setRequest_same]
    exact SameButNull_set _ _ (SameButNull_refl _ h)
  · intro m v h
    simp only [Memory.set_irsb_flags, setRequest_same]
    exact SameButNull_refl _ h

theorem ownWrites_SameImpureAt (objs : Nat → FilteredStreamObject) (this A off : Nat)
    (hoff : off ≠ (objs this).m_impure) :
    OwnWrites (SameImpureAt objs A off : Memory Row → Memory Row → Prop) this A := by
  refine ⟨fun m h => ⟨h, rfl⟩, ?_, ?_, ?_, ?_⟩
  · intro m1 m2 m3 h1 h2 h
    have a := h1 h
    have b := h2 a.1
    exact ⟨b.1, b.2.trans a.2⟩
  · intro m t h
    exact ⟨h, by simp only [setRequest_same]⟩
  · intro m t h
    exact ⟨h, by simp only [setRequest_same]⟩
  · intro m v h
    refine ⟨h, ?_⟩
    simp only [Memory.set_irsb_flags, setRequest_same]
    rw [h]
    exact Function.update_noteq hoff _ _

theorem externalSource_keeps (R : Memory Row → Memory Row → Prop) (tdbb : thread_db)
    (hR : ∀ (m : Memory Row) (st : State Row),
      st.impure = (m.requests tdbb.getRequest).impure →
      st.req_flags = (m.requests tdbb.getRequest).req_flags →
      R m (m.setRequest tdbb.getRequest st)) :
    Keeps R (externalSource : RecordSource Row) tdbb := by
  refine ⟨fun m => hR m _ rfl rfl, fun m => hR m _ rfl rfl, ?_, fun m => hR m _ rfl rfl⟩
  intro m b m1 h
  simp only [externalSource] at h
  split at h
  · simp only [Option.some.injEq, Prod.mk.injEq] at h
    rw [← h.2]; exact hR m _ rfl rfl
  · simp only [Option.some.injEq, Prod.mk.injEq] at h
    rw [← h.2]; exact hR m _ rfl rfl

theorem externalSource_SameObjects (tdbb : thread_db) :
    Keeps SameObjects (externalSource : RecordSource Row) tdbb :=
  externalSource_keeps _ tdbb (fun _ _ _ _ => rfl)

theorem externalSource_SameOtherRequests (tdbb : thread_db) :
    Keeps (SameOtherRequests tdbb.getRequest) (externalSource : RecordSource Row) tdbb :=
  externalSource_keeps _ tdbb (fun m _ _ _ B hB => setRequest_other m _ B _ hB)

theorem externalSource_SameFlagsButNull (tdbb : thread_db) :
    Keeps (SameFlagsButNull tdbb.getRequest) (externalSource : RecordSource Row) tdbb :=
  externalSource_keeps _ tdbb (fun m st _ h2 h => by
    simp only [setRequest_same, h2]
    exact SameButNull_refl _ h)

theorem externalSource_SameImpureAt (objs : Nat → FilteredStreamObject) (off : Nat)
    (tdbb : thread_db) :
    Keeps (SameImpureAt objs tdbb.getRequest off) (externalSource : RecordSource Row) tdbb :=
  externalSource_keeps _ tdbb (fun m st h1 _ h => ⟨h, by simp only [setRequest_same, h1]⟩)

/-! ## Several requests: what the operator reads -/

theorem setRequest_alike (A : Nat) (m m2 : Memory Row) (h : Alike A m m2) (st : State Row) :
    Alike A (m.setRequest A st) (m2.setRequest A st) :=
  ⟨h.1, by simp only [setRequest_same]⟩

theorem EVL_boolean_alike (ev : jrd_nod → State Row → TriState) (tdbb : thread_db)
    (node : jrd_nod) (m m2 : Memory Row) (h : Alike tdbb.getRequest m m2) :
    (Memory.EVL_boolean ev tdbb node m2).1 = (Memory.EVL_boolean ev tdbb node m).1 ∧
    Alike tdbb.getRequest (Memory.EVL_boolean ev tdbb node m).2
      (Memory.EVL_boolean ev tdbb node m2).2 := by
  unfold Memory.EVL_boolean
  rw [h.2]
  cases ev node (m.requests tdbb.getRequest)
  · exact ⟨rfl, setRequest_alike _ m m2 h _⟩
  · exact ⟨rfl, setRequest_alike _ m m2 h _⟩
  · exact ⟨rfl, setRequest_alike _ m m2 h _⟩

theorem clear_req_null_alike (A : Nat) (m m2 : Memory Row) (h : Alike A m m2) :
    Alike A (m.clear_req_null A) (m2.clear_req_null A) := by
  unfold Memory.clear_req_null
  rw [h.2]
  exact setRequest_alike A m m2 h _

theorem set_req_null_alike (A : Nat) (m m2 : Memory Row) (h : Alike A m m2) :
    Alike A (m.set_req_null A) (m2.set_req_null A) := by
  unfold Memory.set_req_null
  rw [h.2]
  exact setRequest_alike A m m2 h _

theorem set_irsb_flags_alike (A off v : Nat) (m m2 : Memory Row) (h : Alike A m m2) :
    Alike A (m.set_irsb_flags A off v) (m2.set_irsb_flags A off v) := by
  unfold Memory.set_irsb_flags
  rw [h.2]
  exact setRequest_alike A m m2 h _

theorem test_req_null_alike (A : Nat) (m m2 : Memory Row) (h : Alike A m m2) :
    m2.test_req_null A = m.test_req_null A := by
  unfold Memory.test_req_null
  rw [h.2]

theorem clear_EVL_alike (ev : jrd_nod → State Row → TriState) (tdbb : thread_db)
    (node : jrd_nod) (m m2 : Memory Row) (h : Alike tdbb.getRequest m m2) :
    (Memory.EVL_boolean ev tdbb node (m2.clear_req_null tdbb.getRequest)).1
      = (Memory.EVL_boolean ev tdbb node (m.clear_req_null tdbb.getRequest)).1 ∧
    Alike tdbb.getRequest
      (Memory.EVL_boolean ev tdbb node (m.clear_req_null tdbb.getRequest)).2
      (Memory.EVL_boolean ev tdbb node (m2.clear_req_null tdbb.getRequest)).2 :=
  EVL_boolean_alike ev tdbb node _ _ (clear_req_null_alike _ m m2 h)

theorem plainBody_alike (ev : jrd_nod → State Row → TriState) (this : Nat) (tdbb : thread_db)
    (l : Bool × Bool) (m m2 : Memory Row) (h : Alike tdbb.getRequest m m2) :
    (plainBody ev this tdbb l m2).1 = (plainBody ev this tdbb l m).1 ∧
    Alike tdbb.getRequest (plainBody ev this tdbb l m).2 (plainBody ev this tdbb l m2).2 := by
  obtain ⟨e1, e2⟩ := EVL_boolean_alike ev tdbb (m.rsb this).m_boolean m m2 h
  have t := test_req_null_alike _ _ _ e2
  unfold plainBody
  dsimp only
  rw [h.1, e1, t]
  split
  · exact ⟨rfl, e2⟩
  · exact ⟨rfl, e2⟩

theorem anyBody_alike (ev : jrd_nod → State Row → TriState) (this : Nat) (tdbb : thread_db)
    (l : Bool) (m m2 : Memory Row) (h : Alike tdbb.getRequest m m2) :
    (anyBody ev this tdbb l m2).1 = (anyBody ev this tdbb l m).1 ∧
    Alike tdbb.getRequest (anyBody ev this tdbb l m).2 (anyBody ev this tdbb l m2).2 := by
  obtain ⟨e1, e2⟩ := EVL_boolean_alike ev tdbb (m.rsb this).m_boolean m m2 h
  unfold anyBody
  dsimp only
  rw [h.1, e1]
  split
  · exact ⟨rfl, e2⟩
  · exact ⟨rfl, e2⟩

theorem notAnyBody_alike (ev : jrd_nod → State Row → TriState) (this : Nat) (tdbb : thread_db)
    (sel : Option jrd_nod) (col : jrd_nod)
    (l : Bool × Bool) (m m2 : Memory Row) (h : Alike tdbb.getRequest m m2) :
    (notAnyBody ev this tdbb sel col l m2).1 = (notAnyBody ev this tdbb sel col l m).1 ∧
    Alike tdbb.getRequest (notAnyBody ev this tdbb sel col l m).2
      (notAnyBody ev this tdbb sel col l m2).2 := by
  obtain ⟨e1, e2⟩ := EVL_boolean_alike ev tdbb (m.rsb this).m_boolean m m2 h
  have t := test_req_null_alike _ _ _ e2
  unfold notAnyBody
  dsimp only
  rw [h.1, e1]
  split
  · exact ⟨rfl, e2⟩
  · cases sel with
    | none =>
      dsimp only
      rw [t]
      split
      · exact ⟨rfl, e2⟩
      · exact ⟨rfl, e2⟩
    | some s =>
      obtain ⟨s1, s2⟩ := clear_EVL_alike ev tdbb s _ _ e2
      obtain ⟨c1, c2⟩ := clear_EVL_alike ev tdbb col _ _ s2
      have tc := test_req_null_alike _ _ _ c2
      dsimp only
      rw [s1]
      split
      · rw [tc]
        split
        · exact ⟨rfl, c2⟩
        · exact ⟨rfl, c2⟩
      · exact ⟨rfl, s2⟩

theorem allBody_alike (ev : jrd_nod → State Row → TriState) (this : Nat) (tdbb : thread_db)
    (sel : Option jrd_nod) (l : Bool) (m m2 : Memory Row) (h : Alike tdbb.getRequest m m2) :
    (allBody ev this tdbb sel l m2).1 = (allBody ev this tdbb sel l m).1 ∧
    Alike tdbb.getRequest (allBody ev this tdbb sel l m).2 (allBody ev this tdbb sel l m2).2 := by
  obtain ⟨e1, e2⟩ := clear_EVL_alike ev tdbb (m.rsb this).m_boolean m m2 h
  unfold allBody
  dsimp only
  rw [h.1, e1]
  split
  · cases sel with
    | none => exact ⟨rfl, e2⟩
    | some s =>
      obtain ⟨s1, s2⟩ := clear_EVL_alike ev tdbb s _ _ e2
      dsimp only
      rw [s1]
      split
      · exact ⟨rfl, s2⟩
      · exact ⟨rfl, s2⟩
  · exact ⟨rfl, e2⟩

theorem notAllBody_alike (ev : jrd_nod → State Row → TriState) (this : Nat) (tdbb : thread_db)
    (sel : Option jrd_nod) (l : Bool) (m m2 : Memory Row) (h : Alike tdbb.getRequest m m2) :
    (notAllBody ev this tdbb sel l m2).1 = (notAllBody ev this tdbb sel l m).1 ∧
    Alike tdbb.getRequest (notAllBody ev this tdbb sel l m).2
      (notAllBody ev this tdbb sel l m2).2 := by
  obtain ⟨e1, e2⟩ := clear_EVL_alike ev tdbb (m.rsb this).m_boolean m m2 h
  have t := test_req_null_alike _ _ _ e2
  unfold notAllBody
  dsimp only
  rw [h.1, e1, t]
  split
  · cases sel with
    | none => exact ⟨rfl, e2⟩
    | some s =>
      obtain ⟨s1, s2⟩ := clear_EVL_alike ev tdbb s _ _ e2
      dsimp only
      rw [s1]
      split
      · exact ⟨rfl, s2⟩
      · exact ⟨rfl, s2⟩
  · exact ⟨rfl, e2⟩

theorem alikeResult_map {β γ : Type} (A : Nat) (f : β × Memory Row → γ × Memory Row)
    (hf : ∀ x y : β × Memory Row, y.1 = x.1 → Alike A x.2 y.2 →
      (f y).1 = (f x).1 ∧ Alike A (f x).2 (f y).2)
    (x y : Option (β × Memory Row)) (h : AlikeResult A x y) :
    AlikeResult A (x.map f) (y.map f) := by
  cases x with
  | none =>
    cases y with
    | none => exact h
    | some y => exact h
  | some x =>
    cases y with
    | none => exact h
    | some y => exact hf x y h.1 h.2

theorem whileGetRecord_alike {L : Type} (A : Nat)
    (getRecord : Memory Row → Option (Bool × Memory Row))
    (body : L → Memory Row → (L ⊕ L) × Memory Row)
    (hget : ∀ m m2, Alike A m m2 → AlikeResult A (getRecord m) (getRecord m2))
    (hbody : ∀ l m m2, Alike A m m2 →
      (body l m2).1 = (body l m).1 ∧ Alike A (body l m).2 (body l m2).2) :
    ∀ (fuel : Nat) (l : L) (m m2 : Memory Row), Alike A m m2 →
      AlikeResult A (whileGetRecord getRecord body fuel l m)
        (whileGetRecord getRecord body fuel l m2) := by
  intro fuel
  induction fuel with
  | zero => intro l m m2 _; exact True.intro
  | succ n ih =>
    intro l m m2 h
    have hg := hget m m2 h
    unfold whileGetRecord
    cases h1 : getRecord m with
    | none =>
      cases h2 : getRecord m2 with
      | none => exact True.intro
      | some y => rw [h1, h2] at hg; exact hg.elim
    | some x =>
      cases h2 : getRecord m2 with
      | none => rw [h1, h2] at hg; exact hg.elim
      | some y =>
        rw [h1, h2] at hg
        obtain ⟨b, m1⟩ := x
        obtain ⟨b2, m12⟩ := y
        obtain ⟨hb, ha⟩ := hg
        dsimp only at hb ha
        subst hb
        cases b2 with
        | false => exact ⟨rfl, ha⟩
        | true =>
          dsimp only
          obtain ⟨b1, b2⟩ := hbody l m1 m12 ha
          cases hx : body l m1 with
          | mk x mx =>
            cases hy : body l m12 with
            | mk y my =>
              rw [hx, hy] at b1 b2
              dsimp only at b1 b2
              subst b1
              cases y with
              | inl l2 => exact ih l2 mx my b2
              | inr l2 => exact ⟨rfl, b2⟩

theorem next_getRecord_alike (methods : Nat → RecordSource Row) (this : Nat) (tdbb : thread_db)
    (hnext : ∀ c, ReadsOwnRequest (methods c) tdbb) (m m2 : Memory Row)
    (h : Alike tdbb.getRequest m m2) :
    AlikeResult tdbb.getRequest ((methods (m.rsb this).m_next).getRecord tdbb m)
      ((methods (m2.rsb this).m_next).getRecord tdbb m2) := by
  rw [h.1]
  exact (hnext _ m m2 h).2.2.1

theorem invalidateRecords_alike (methods : Nat → RecordSource Row) (this : Nat)
    (tdbb : thread_db) (hnext : ∀ c, ReadsOwnRequest (methods c) tdbb) (m m2 : Memory Row)
    (h : Alike tdbb.getRequest m m2) :
    Alike tdbb.getRequest (FilteredStreamObject.invalidateRecords methods this tdbb.getRequest m)
      (FilteredStreamObject.invalidateRecords methods this tdbb.getRequest m2) := by
  unfold FilteredStreamObject.invalidateRecords
  rw [h.1]
  exact (hnext _ m m2 h).2.2.2

theorem evaluateBoolean_alike (methods : Nat → RecordSource Row)
    (ev : jrd_nod → State Row → TriState) (this : Nat) (fuel : Nat) (tdbb : thread_db)
    (hnext : ∀ c, ReadsOwnRequest (methods c) tdbb) (m m2 : Memory Row)
    (h : Alike tdbb.getRequest m m2) :
    AlikeResult tdbb.getRequest
      (FilteredStreamObject.evaluateBoolean methods ev this fuel tdbb m)
      (FilteredStreamObject.evaluateBoolean methods ev this fuel tdbb m2) := by
  have loop : ∀ {L : Type} (body : L → Memory Row → (L ⊕ L) × Memory Row) (l : L),
      (∀ l m m2, Alike tdbb.getRequest m m2 →
        (body l m2).1 = (body l m).1 ∧ Alike tdbb.getRequest (body l m).2 (body l m2).2) →
      AlikeResult tdbb.getRequest
        (whileGetRecord (fun m1 : Memory Row => (methods (m1.rsb this).m_next).getRecord tdbb m1)
          body fuel l m)
        (whileGetRecord (fun m1 : Memory Row => (methods (m1.rsb this).m_next).getRecord tdbb m1)
          body fuel l m2) :=
    fun body l hb => whileGetRecord_alike _ _ body
      (next_getRecord_alike methods this tdbb hnext) hb fuel l m m2 h
  have quant : ∀ {L : Type} (body : L → Memory Row → (L ⊕ L) × Memory Row) (l : L)
      (f : L → Bool),
      (∀ l m m2, Alike tdbb.getRequest m m2 →
        (body l m2).1 = (body l m).1 ∧ Alike tdbb.getRequest (body l m).2 (body l m2).2) →
      AlikeResult tdbb.getRequest
        ((whileGetRecord
            (fun m1 : Memory Row => (methods (m1.rsb this).m_next).getRecord tdbb m1)
            body fuel l m).map (fun l => (f l.1, l.2.clear_req_null tdbb.getRequest)))
        ((whileGetRecord
            (fun m1 : Memory Row => (methods (m1.rsb this).m_next).getRecord tdbb m1)
            body fuel l m2).map (fun l => (f l.1, l.2.clear_req_null tdbb.getRequest))) :=
    fun body l f hb => alikeResult_map _ _
      (fun x y h1 h2 => ⟨by dsimp only; rw [h1], clear_req_null_alike _ _ _ h2⟩) _ _
      (loop body l hb)
  have plain : AlikeResult tdbb.getRequest
      ((whileGetRecord (fun m1 : Memory Row => (methods (m1.rsb this).m_next).getRecord tdbb m1)
        (plainBody ev this tdbb) fuel (false, false) m).map
        (fun l => (l.1.1, if l.1.2 then l.2.set_req_null tdbb.getRequest else l.2)))
      ((whileGetRecord (fun m1 : Memory Row => (methods (m1.rsb this).m_next).getRecord tdbb m1)
        (plainBody ev this tdbb) fuel (false, false) m2).map
        (fun l => (l.1.1, if l.1.2 then l.2.set_req_null tdbb.getRequest else l.2))) := by
    refine alikeResult_map _ _ ?_ _ _ (loop _ _ (plainBody_alike ev this tdbb))
    intro x y h1 h2
    dsimp only
    rw [h1]
    refine ⟨rfl, ?_⟩
    split
    · exact set_req_null_alike _ _ _ h2
    · exact h2
  unfold FilteredStreamObject.evaluateBoolean
  dsimp only
  rw [h.1]
  cases column_node (m.rsb this).toFilteredStream with
  | none => exact plain
  | some col =>
    dsimp only
    cases (m.rsb this).m_ansiAny with
    | true =>
      cases (m.rsb this).m_ansiNot with
      | true => exact quant _ _ (fun l => l.1 || l.2) (notAnyBody_alike ev this tdbb _ col)
      | false => exact quant _ _ (fun l => l) (anyBody_alike ev this tdbb)
    | false =>
      cases (m.rsb this).m_ansiAll with
      | true =>
        cases (m.rsb this).m_ansiNot with
        | true => exact quant _ _ (fun l => !l) (notAllBody_alike ev this tdbb _)
        | false => exact quant _ _ (fun l => !l) (allBody_alike ev this tdbb _)
      | false => exact plain

theorem filteredSource_reads (methods : Nat → RecordSource Row)
    (ev : jrd_nod → State Row → TriState) (this : Nat) (fuel : Nat) (tdbb : thread_db)
    (hnext : ∀ c, ReadsOwnRequest (methods c) tdbb) :
    ReadsOwnRequest (filteredSource methods ev this fuel) tdbb := by
  intro m m2 h
  have hinv := invalidateRecords_alike methods this tdbb hnext
  refine ⟨?_, ?_, ?_, hinv m m2 h⟩
  · show Alike _ (FilteredStreamObject.open methods this tdbb m)
      (FilteredStreamObject.open methods this tdbb m2)
    unfold FilteredStreamObject.open
    dsimp only
    have h1 := set_irsb_flags_alike tdbb.getRequest (m.rsb this).m_impure irsb_open m m2 h
    rw [h.1]
    have h2 := (hnext ((m.set_irsb_flags tdbb.getRequest (m.rsb this).m_impure irsb_open).rsb
      this).m_next _ _ h1).1
    rw [h1.1]
    exact h2
  · show Alike _ (FilteredStreamObject.close methods this tdbb m)
      (FilteredStreamObject.close methods this tdbb m2)
    have h1 := hinv m m2 h
    unfold FilteredStreamObject.close
    dsimp only
    generalize FilteredStreamObject.invalidateRecords methods this tdbb.getRequest m = x at h1 ⊢
    generalize FilteredStreamObject.invalidateRecords methods this tdbb.getRequest m2 = y at h1 ⊢
    unfold Memory.irsb_flags
    rw [h1.1, h1.2]
    split
    · have h2 := set_irsb_flags_alike tdbb.getRequest (x.rsb this).m_impure
        ((x.requests tdbb.getRequest).impure (x.rsb this).m_impure &&& bitNot32 irsb_open)
        x y h1
      have h3 := (hnext ((x.set_irsb_flags tdbb.getRequest (x.rsb this).m_impure
        ((x.requests tdbb.getRequest).impure (x.rsb this).m_impure &&& bitNot32 irsb_open)).rsb
        this).m_next _ _ h2).2.1
      rw [h2.1]
      exact h3
    · exact h1
  · show AlikeResult _ (FilteredStreamObject.getRecord methods ev this fuel tdbb m)
      (FilteredStreamObject.getRecord methods ev this fuel tdbb m2)
    have he := evaluateBoolean_alike methods ev this fuel tdbb hnext m m2 h
    unfold FilteredStreamObject.getRecord
    dsimp only
    unfold Memory.irsb_flags
    rw [h.1, h.2]
    split
    · exact ⟨rfl, h⟩
    · cases h1 : FilteredStreamObject.evaluateBoolean methods ev this fuel tdbb m with
      | none =>
        cases h2 : FilteredStreamObject.evaluateBoolean methods ev this fuel tdbb m2 with
        | none => exact True.intro
        | some y => rw [h1, h2] at he; exact he.elim
      | some x =>
        cases h2 : FilteredStreamObject.evaluateBoolean methods ev this fuel tdbb m2 with
        | none => rw [h1, h2] at he; exact he.elim
        | some y =>
          rw [h1, h2] at he
          obtain ⟨b, m1⟩ := x
          obtain ⟨b2, m12⟩ := y
          obtain ⟨hb, ha⟩ := he
          dsimp only at hb ha
          subst hb
          cases b2 with
          | false => exact ⟨rfl, hinv _ _ ha⟩
          | true => exact ⟨rfl, ha⟩

theorem externalSource_reads (tdbb : thread_db) :
    ReadsOwnRequest (externalSource : RecordSource Row) tdbb := by
  intro m m2 h
  refine ⟨?_, ?_, ?_, ?_⟩
  · show Alike _ (m.setRequest _ _) (m2.setRequest _ _)
    rw [h.2]; exact setRequest_alike _ m m2 h _
  · show Alike _ (m.setRequest _ _) (m2.setRequest _ _)
    rw [h.2]; exact setRequest_alike _ m m2 h _
  · simp only [externalSource]
    rw [h.2]
    cases (m.requests tdbb.getRequest).rows with
    | nil => exact ⟨rfl, setRequest_alike _ m m2 h _⟩
    | cons r rs => exact ⟨rfl, setRequest_alike _ m m2 h _⟩
  · show Alike _ (m.setRequest _ _) (m2.setRequest _ _)
    rw [h.2]; exact setRequest_alike _ m m2 h _

/-! ## Several requests: over the external cursor the operations are those of one request -/

theorem EVL_boolean_setRequest (ev : jrd_nod → Row → TriState) (tdbb : thread_db)
    (node : jrd_nod) (m : Memory Row) (st : State Row) (r : Row) (hc : st.current = some r) :
    Memory.EVL_boolean (currentEval ev) tdbb node (m.setRequest tdbb.getRequest st)
      = ((EVL_boolean ev node r st).1,
         m.setRequest tdbb.getRequest (EVL_boolean ev node r st).2) := by
  unfold Memory.EVL_boolean EVL_boolean currentEval
  simp only [setRequest_same, hc, setRequest_twice]
  cases ev node r <;> rfl

theorem clear_req_null_setRequest (A : Nat) (m : Memory Row) (st : State Row) :
    (m.setRequest A st).clear_req_null A = m.setRequest A (clear_req_null st) := by
  simp only [Memory.clear_req_null, setRequest_same, setRequest_twice]

theorem set_req_null_setRequest (A : Nat) (m : Memory Row) (st : State Row) :
    (m.setRequest A st).set_req_null A
      = m.setRequest A { st with req_flags := st.req_flags ||| req_null } := by
  simp only [Memory.set_req_null, setRequest_same, setRequest_twice]

theorem test_req_null_setRequest (A : Nat) (m : Memory Row) (st : State Row) :
    (m.setRequest A st).test_req_null A = test_req_null st := by
  simp only [Memory.test_req_null, setRequest_same]

theorem external_getRecord_nil (methods : Nat → RecordSource Row) (this : Nat)
    (tdbb : thread_db) (m : Memory Row) (hnext : methods (m.rsb this).m_next = externalSource)
    (st : State Row) (h : st.rows = []) :
    (methods ((m.setRequest tdbb.getRequest st).rsb this).m_next).getRecord tdbb
        (m.setRequest tdbb.getRequest st)
      = some (false, m.setRequest tdbb.getRequest (next_eof st)) := by
  simp only [setRequest_rsb, hnext, externalSource, setRequest_same, h, setRequest_twice]

theorem external_getRecord_cons (methods : Nat → RecordSource Row) (this : Nat)
    (tdbb : thread_db) (m : Memory Row) (hnext : methods (m.rsb this).m_next = externalSource)
    (st : State Row) (r : Row) (rs : List Row) (h : st.rows = r :: rs) :
    (methods ((m.setRequest tdbb.getRequest st).rsb this).m_next).getRecord tdbb
        (m.setRequest tdbb.getRequest st)
      = some (true, m.setRequest tdbb.getRequest (next_fetch r rs st)) := by
  simp only [setRequest_rsb, hnext, externalSource, setRequest_same, h, setRequest_twice]

theorem whileGetRecord_eof {L : Type} (getRecord : Memory Row → Option (Bool × Memory Row))
    (body : L → Memory Row → (L ⊕ L) × Memory Row) (n : Nat) (l : L) (m m1 : Memory Row)
    (hg : getRecord m = some (false, m1)) :
    whileGetRecord getRecord body (n + 1) l m = some (l, m1) := by
  unfold whileGetRecord
  rw [hg]

theorem whileGetRecord_continue {L : Type}
    (getRecord : Memory Row → Option (Bool × Memory Row))
    (body : L → Memory Row → (L ⊕ L) × Memory Row) (n : Nat) (l l2 : L)
    (m m1 m2 : Memory Row) (hg : getRecord m = some (true, m1))
    (hb : body l m1 = (Sum.inl l2, m2)) :
    whileGetRecord getRecord body (n + 1) l m = whileGetRecord getRecord body n l2 m2 := by
  conv => lhs; unfold whileGetRecord
  rw [hg]
  dsimp only
  rw [hb]

theorem whileGetRecord_break {L : Type}
    (getRecord : Memory Row → Option (Bool × Memory Row))
    (body : L → Memory Row → (L ⊕ L) × Memory Row) (n : Nat) (l l2 : L)
    (m m1 m2 : Memory Row) (hg : getRecord m = some (true, m1))
    (hb : body l m1 = (Sum.inr l2, m2)) :
    whileGetRecord getRecord body (n + 1) l m = some (l2, m2) := by
  unfold whileGetRecord
  rw [hg]
  dsimp only
  rw [hb]

theorem anyBody_setRequest (ev : jrd_nod → Row → TriState) (this : Nat) (tdbb : thread_db)
    (l : Bool) (m : Memory Row) (st : State Row) (r : Row) (hc : st.current = some r) :
    anyBody (currentEval ev) this tdbb l (m.setRequest tdbb.getRequest st)
      = (if (EVL_boolean ev (m.rsb this).m_boolean r st).1 then Sum.inr true else Sum.inl l,
         m.setRequest tdbb.getRequest (EVL_boolean ev (m.rsb this).m_boolean r st).2) := by
  unfold anyBody
  simp only [setRequest_rsb]
  rw [EVL_boolean_setRequest ev tdbb _ m _ r hc]
  dsimp only
  split <;> rfl

theorem anyLoop_external (methods : Nat → RecordSource Row) (ev : jrd_nod → Row → TriState)
    (this : Nat) (tdbb : thread_db) (m : Memory Row)
    (hnext : methods (m.rsb this).m_next = externalSource) (rows : List Row) :
    ∀ (fuel : Nat) (st : State Row), st.rows = rows → rows.length < fuel →
      whileGetRecord (fun m1 : Memory Row => (methods (m1.rsb this).m_next).getRecord tdbb m1)
          (anyBody (currentEval ev) this tdbb) fuel false (m.setRequest tdbb.getRequest st)
        = some ((anyLoop (m.rsb this).toFilteredStream ev rows st).1,
            m.setRequest tdbb.getRequest (anyLoop (m.rsb this).toFilteredStream ev rows st).2) := by
  induction rows with
  | nil =>
    intro fuel st hst hf
    obtain ⟨n, rfl⟩ : ∃ n, fuel = n + 1 := ⟨fuel - 1, by simp at hf; omega⟩
    exact whileGetRecord_eof
      (fun m1 : Memory Row => (methods (m1.rsb this).m_next).getRecord tdbb m1) _ n _ _ _
      (external_getRecord_nil methods this tdbb m hnext st hst)
  | cons r rs ih =>
    intro fuel st hst hf
    obtain ⟨n, rfl⟩ : ∃ n, fuel = n + 1 := ⟨fuel - 1, by simp at hf; omega⟩
    have hg := external_getRecord_cons methods this tdbb m hnext st r rs hst
    have hb := anyBody_setRequest ev this tdbb false m (next_fetch r rs st) r rfl
    simp only [anyLoop]
    by_cases he : (EVL_boolean ev (m.rsb this).m_boolean r (next_fetch r rs st)).1 = true
    · rw [if_pos he] at hb
      rw [if_pos he]
      exact whileGetRecord_break
        (fun m1 : Memory Row => (methods (m1.rsb this).m_next).getRecord tdbb m1) _ n _ _ _ _ _
        hg hb
    · rw [if_neg he] at hb
      rw [if_neg he]
      exact (whileGetRecord_continue
        (fun m1 : Memory Row => (methods (m1.rsb this).m_next).getRecord tdbb m1) _ n _ _ _ _ _
        hg hb).trans (ih n _ (by simp) (by simp at hf; omega))

theorem plainBody_setRequest (ev : jrd_nod → Row → TriState) (this : Nat) (tdbb : thread_db)
    (l : Bool × Bool) (m : Memory Row) (st : State Row) (r : Row) (hc : st.current = some r) :
    plainBody (currentEval ev) this tdbb l (m.setRequest tdbb.getRequest st)
      = (if (EVL_boolean ev (m.rsb this).m_boolean r st).1 then Sum.inr (true, l.2)
         else Sum.inl (l.1,
           if test_req_null (EVL_boolean ev (m.rsb this).m_boolean r st).2 then true else l.2),
         m.setRequest tdbb.getRequest (EVL_boolean ev (m.rsb this).m_boolean r st).2) := by
  unfold plainBody
  simp only [setRequest_rsb, EVL_boolean_setRequest ev tdbb _ m _ r hc,
    test_req_null_setRequest]
  split <;> rfl

theorem plainLoop_external (methods : Nat → RecordSource Row) (ev : jrd_nod → Row → TriState)
    (this : Nat) (tdbb : thread_db) (m : Memory Row)
    (hnext : methods (m.rsb this).m_next = externalSource) (rows : List Row) :
    ∀ (fuel : Nat) (st : State Row) (nf : Bool), st.rows = rows → rows.length < fuel →
      whileGetRecord (fun m1 : Memory Row => (methods (m1.rsb this).m_next).getRecord tdbb m1)
          (plainBody (currentEval ev) this tdbb) fuel (false, nf)
          (m.setRequest tdbb.getRequest st)
        = some ((plainLoop (m.rsb this).toFilteredStream ev rows st nf).1,
            m.setRequest tdbb.getRequest
              (plainLoop (m.rsb this).toFilteredStream ev rows st nf).2) := by
  induction rows with
  | nil =>
    intro fuel st nf hst hf
    obtain ⟨n, rfl⟩ : ∃ n, fuel = n + 1 := ⟨fuel - 1, by simp at hf; omega⟩
    exact whileGetRecord_eof
      (fun m1 : Memory Row => (methods (m1.rsb this).m_next).getRecord tdbb m1) _ n _ _ _
      (external_getRecord_nil methods this tdbb m hnext st hst)
  | cons r rs ih =>
    intro fuel st nf hst hf
    obtain ⟨n, rfl⟩ : ∃ n, fuel = n + 1 := ⟨fuel - 1, by simp at hf; omega⟩
    have hg := external_getRecord_cons methods this tdbb m hnext st r rs hst
    have hb := plainBody_setRequest ev this tdbb (false, nf) m (next_fetch r rs st) r rfl
    simp only [plainLoop]
    by_cases he : (EVL_boolean ev (m.rsb this).m_boolean r (next_fetch r rs st)).1 = true
    · rw [if_pos he] at hb
      rw [if_pos he]
      exact whileGetRecord_break
        (fun m1 : Memory Row => (methods (m1.rsb this).m_next).getRecord tdbb m1) _ n _ _ _ _ _
        hg hb
    · rw [if_neg he] at hb
      rw [if_neg he]
      exact (whileGetRecord_continue
        (fun m1 : Memory Row => (methods (m1.rsb this).m_next).getRecord tdbb m1) _ n _ _ _ _ _
        hg hb).trans (ih n _ _ (by simp) (by simp at hf; omega))

theorem allLoop_external (methods : Nat → RecordSource Row) (ev : jrd_nod → Row → TriState)
    (this : Nat) (tdbb : thread_db) (m : Memory Row)
    (hnext : methods (m.rsb this).m_next = externalSource) (sel : Option jrd_nod)
    (rows : List Row) :
    ∀ (fuel : Nat) (st : State Row), st.rows = rows → rows.length < fuel →
      whileGetRecord (fun m1 : Memory Row => (methods (m1.rsb this).m_next).getRecord tdbb m1)
          (allBody (currentEval ev) this tdbb sel) fuel false
          (m.setRequest tdbb.getRequest st)
        = some ((allLoop (m.rsb this).toFilteredStream ev sel rows st).1,
            m.setRequest tdbb.getRequest
              (allLoop (m.rsb this).toFilteredStream ev sel rows st).2) := by
  induction rows with
  | nil =>
    intro fuel st hst hf
    obtain ⟨n, rfl⟩ : ∃ n, fuel = n + 1 := ⟨fuel - 1, by simp at hf; omega⟩
    exact whileGetRecord_eof
      (fun m1 : Memory Row => (methods (m1.rsb this).m_next).getRecord tdbb m1) _ n _ _ _
      (external_getRecord_nil methods this tdbb m hnext st hst)
  | cons r rs ih =>
    intro fuel st hst hf
    obtain ⟨n, rfl⟩ : ∃ n, fuel = n + 1 := ⟨fuel - 1, by simp at hf; omega⟩
    have hg := external_getRecord_cons methods this tdbb m hnext st r rs hst
    have hn : rs.length < n := by simp at hf; omega
    have e1 := EVL_boolean_setRequest ev tdbb (m.rsb this).m_boolean m
      (clear_req_null (next_fetch r rs st)) r rfl
    have brk : ∀ (x : State Row),
        allBody (currentEval ev) this tdbb sel false
            (m.setRequest tdbb.getRequest (next_fetch r rs st))
          = (Sum.inr true, m.setRequest tdbb.getRequest x) →
        whileGetRecord
            (fun m1 : Memory Row => (methods (m1.rsb this).m_next).getRecord tdbb m1)
            (allBody (currentEval ev) this tdbb sel) (n + 1) false
            (m.setRequest tdbb.getRequest st)
          = some (true, m.setRequest tdbb.getRequest x) := fun x hb =>
      whileGetRecord_break
        (fun m1 : Memory Row => (methods (m1.rsb this).m_next).getRecord tdbb m1) _ n _ _ _ _ _
        hg hb
    have cont : ∀ (x : State Row), x.rows = rs →
        allBody (currentEval ev) this tdbb sel false
            (m.setRequest tdbb.getRequest (next_fetch r rs st))
          = (Sum.inl false, m.setRequest tdbb.getRequest x) →
        whileGetRecord
            (fun m1 : Memory Row => (methods (m1.rsb this).m_next).getRecord tdbb m1)
            (allBody (currentEval ev) this tdbb sel) (n + 1) false
            (m.setRequest tdbb.getRequest st)
          = some ((allLoop (m.rsb this).toFilteredStream ev sel rs x).1,
              m.setRequest tdbb.getRequest
                (allLoop (m.rsb this).toFilteredStream ev sel rs x).2) := fun x hx hb =>
      (whileGetRecord_continue
        (fun m1 : Memory Row => (methods (m1.rsb this).m_next).getRecord tdbb m1) _ n _ _ _ _ _
        hg hb).trans (ih n x hx hn)
    simp only [allLoop]
    by_cases he : (EVL_boolean ev (m.rsb this).m_boolean r
        (clear_req_null (next_fetch r rs st))).1 = true
    · simp only [he, Bool.not_true, Bool.false_eq_true, if_false]
      refine cont _ (by simp) ?_
      unfold allBody
      simp only [setRequest_rsb, clear_req_null_setRequest, e1, he, Bool.not_true,
        Bool.false_eq_true, if_false]
    · have he2 : (EVL_boolean ev (m.rsb this).m_boolean r
          (clear_req_null (next_fetch r rs st))).1 = false := by simpa using he
      simp only [he2, Bool.not_false, if_true]
      cases sel with
      | none =>
        refine brk _ ?_
        unfold allBody
        simp only [setRequest_rsb, clear_req_null_setRequest, e1, he2, Bool.not_false, if_true]
      | some s =>
        have s1 := EVL_boolean_setRequest ev tdbb s m
          (clear_req_null (EVL_boolean ev (m.rsb this).m_boolean r
            (clear_req_null (next_fetch r rs st))).2) r (by simp)
        dsimp only
        by_cases hs : (EVL_boolean ev s r (clear_req_null (EVL_boolean ev
            (m.rsb this).m_boolean r (clear_req_null (next_fetch r rs st))).2)).1 = true
        · rw [if_pos hs]
          refine brk _ ?_
          unfold allBody
          simp only [setRequest_rsb, clear_req_null_setRequest, e1, he2, Bool.not_false,
            if_true, s1, hs]
        · rw [if_neg hs]
          refine cont _ (by simp) ?_
          unfold allBody
          simp only [setRequest_rsb, clear_req_null_setRequest, e1, he2, Bool.not_false,
            if_true, s1, hs, Bool.false_eq_true, if_false]

theorem notAllLoop_external (methods : Nat → RecordSource Row) (ev : jrd_nod → Row → TriState)
    (this : Nat) (tdbb : thread_db) (m : Memory Row)
    (hnext : methods (m.rsb this).m_next = externalSource) (sel : Option jrd_nod)
    (rows : List Row) :
    ∀ (fuel : Nat) (st : State Row), st.rows = rows → rows.length < fuel →
      whileGetRecord (fun m1 : Memory Row => (methods (m1.rsb this).m_next).getRecord tdbb m1)
          (notAllBody (currentEval ev) this tdbb sel) fuel false
          (m.setRequest tdbb.getRequest st)
        = some ((notAllLoop (m.rsb this).toFilteredStream ev sel rows st).1,
            m.setRequest tdbb.getRequest
              (notAllLoop (m.rsb this).toFilteredStream ev sel rows st).2) := by
  induction rows with
  | nil =>
    intro fuel st hst hf
    obtain ⟨n, rfl⟩ : ∃ n, fuel = n + 1 := ⟨fuel - 1, by simp at hf; omega⟩
    exact whileGetRecord_eof
      (fun m1 : Memory Row => (methods (m1.rsb this).m_next).getRecord tdbb m1) _ n _ _ _
      (external_getRecord_nil methods this tdbb m hnext st hst)
  | cons r rs ih =>
    intro fuel st hst hf
    obtain ⟨n, rfl⟩ : ∃ n, fuel = n + 1 := ⟨fuel - 1, by simp at hf; omega⟩
    have hg := external_getRecord_cons methods this tdbb m hnext st r rs hst
    have hn : rs.length < n := by simp at hf; omega
    have e1 := EVL_boolean_setRequest ev tdbb (m.rsb this).m_boolean m
      (clear_req_null (next_fetch r rs st)) r rfl
    have brk : ∀ (x : State Row),
        notAllBody (currentEval ev) this tdbb sel false
            (m.setRequest tdbb.getRequest (next_fetch r rs st))
          = (Sum.inr true, m.setRequest tdbb.getRequest x) →
        whileGetRecord
            (fun m1 : Memory Row => (methods (m1.rsb this).m_next).getRecord tdbb m1)
            (notAllBody (currentEval ev) this tdbb sel) (n + 1) false
            (m.setRequest tdbb.getRequest st)
          = some (true, m.setRequest tdbb.getRequest x) := fun x hb =>
      whileGetRecord_break
        (fun m1 : Memory Row => (methods (m1.rsb this).m_next).getRecord tdbb m1) _ n _ _ _ _ _
        hg hb
    have cont : ∀ (x : State Row), x.rows = rs →
        notAllBody (currentEval ev) this tdbb sel false
            (m.setRequest tdbb.getRequest (next_fetch r rs st))
          = (Sum.inl false, m.setRequest tdbb.getRequest x) →
        whileGetRecord
            (fun m1 : Memory Row => (methods (m1.rsb this).m_next).getRecord tdbb m1)
            (notAllBody (currentEval ev) this tdbb sel) (n + 1) false
            (m.setRequest tdbb.getRequest st)
          = some ((notAllLoop (m.rsb this).toFilteredStream ev sel rs x).1,
              m.setRequest tdbb.getRequest
                (notAllLoop (m.rsb this).toFilteredStream ev sel rs x).2) := fun x hx hb =>
      (whileGetRecord_continue
        (fun m1 : Memory Row => (methods (m1.rsb this).m_next).getRecord tdbb m1) _ n _ _ _ _ _
        hg hb).trans (ih n x hx hn)
    simp only [notAllLoop]
    by_cases he : (!(EVL_boolean ev (m.rsb this).m_boolean r
        (clear_req_null (next_fetch r rs st))).1 &&
        !test_req_null (EVL_boolean ev (m.rsb this).m_boolean r
          (clear_req_null (next_fetch r rs st))).2) = true
    · rw [if_pos he]
      cases sel with
      | none =>
        refine brk _ ?_
        unfold notAllBody
        simp only [setRequest_rsb, clear_req_null_setRequest, e1, test_req_null_setRequest,
          he, if_true]
      | some s =>
        have s1 := EVL_boolean_setRequest ev tdbb s m
          (clear_req_null (EVL_boolean ev (m.rsb this).m_boolean r
            (clear_req_null (next_fetch r rs st))).2) r (by simp)
        dsimp only
        by_cases hs : (EVL_boolean ev s r (clear_req_null (EVL_boolean ev
            (m.rsb this).m_boolean r (clear_req_null (next_fetch r rs st))).2)).1 = true
        · rw [if_pos hs]
          refine brk _ ?_
          unfold notAllBody
          simp only [setRequest_rsb, clear_req_null_setRequest, e1, test_req_null_setRequest,
            he, if_true, s1, hs]
        · rw [if_neg hs]
          refine cont _ (by simp) ?_
          unfold notAllBody
          simp only [setRequest_rsb, clear_req_null_setRequest, e1, test_req_null_setRequest,
            he, if_true, s1, hs, Bool.false_eq_true, if_false]
    · rw [if_neg he]
      refine cont _ (by simp) ?_
      unfold notAllBody
      simp only [setRequest_rsb, clear_req_null_setRequest, e1, test_req_null_setRequest,
        he, Bool.false_eq_true, if_false]

theorem notAnyLoop_external (methods : Nat → RecordSource Row) (ev : jrd_nod → Row → TriState)
    (this : Nat) (tdbb : thread_db) (m : Memory Row)
    (hnext : methods (m.rsb this).m_next = externalSource) (sel : Option jrd_nod)
    (col : jrd_nod) (rows : List Row) :
    ∀ (fuel : Nat) (st : State Row), st.rows = rows → rows.length < fuel →
      whileGetRecord (fun m1 : Memory Row => (methods (m1.rsb this).m_next).getRecord tdbb m1)
          (notAnyBody (currentEval ev) this tdbb sel col) fuel (false, false)
          (m.setRequest tdbb.getRequest st)
        = some ((notAnyLoop (m.rsb this).toFilteredStream ev sel col rows st).1,
            m.setRequest tdbb.getRequest
              (notAnyLoop (m.rsb this).toFilteredStream ev sel col rows st).2) := by
  induction rows with
  | nil =>
    intro fuel st hst hf
    obtain ⟨n, rfl⟩ : ∃ n, fuel = n + 1 := ⟨fuel - 1, by simp at hf; omega⟩
    exact whileGetRecord_eof
      (fun m1 : Memory Row => (methods (m1.rsb this).m_next).getRecord tdbb m1) _ n _ _ _
      (external_getRecord_nil methods this tdbb m hnext st hst)
  | cons r rs ih =>
    intro fuel st hst hf
    obtain ⟨n, rfl⟩ : ∃ n, fuel = n + 1 := ⟨fuel - 1, by simp at hf; omega⟩
    have hg := external_getRecord_cons methods this tdbb m hnext st r rs hst
    have hn : rs.length < n := by simp at hf; omega
    have e1 := EVL_boolean_setRequest ev tdbb (m.rsb this).m_boolean m
      (next_fetch r rs st) r rfl
    have brk : ∀ (l : Bool × Bool) (x : State Row),
        notAnyBody (currentEval ev) this tdbb sel col (false, false)
            (m.setRequest tdbb.getRequest (next_fetch r rs st))
          = (Sum.inr l, m.setRequest tdbb.getRequest x) →
        whileGetRecord
            (fun m1 : Memory Row => (methods (m1.rsb this).m_next).getRecord tdbb m1)
            (notAnyBody (currentEval ev) this tdbb sel col) (n + 1) (false, false)
            (m.setRequest tdbb.getRequest st)
          = some (l, m.setRequest tdbb.getRequest x) := fun l x hb =>
      whileGetRecord_break
        (fun m1 : Memory Row => (methods (m1.rsb this).m_next).getRecord tdbb m1) _ n _ _ _ _ _
        hg hb
    have cont : ∀ (x : State Row), x.rows = rs →
        notAnyBody (currentEval ev) this tdbb sel col (false, false)
            (m.setRequest tdbb.getRequest (next_fetch r rs st))
          = (Sum.inl (false, false), m.setRequest tdbb.getRequest x) →
        whileGetRecord
            (fun m1 : Memory Row => (methods (m1.rsb this).m_next).getRecord tdbb m1)
            (notAnyBody (currentEval ev) this tdbb sel col) (n + 1) (false, false)
            (m.setRequest tdbb.getRequest st)
          = some ((notAnyLoop (m.rsb this).toFilteredStream ev sel col rs x).1,
              m.setRequest tdbb.getRequest
                (notAnyLoop (m.rsb this).toFilteredStream ev sel col rs x).2) := fun x hx hb =>
      (whileGetRecord_continue
        (fun m1 : Memory Row => (methods (m1.rsb this).m_next).getRecord tdbb m1) _ n _ _ _ _ _
        hg hb).trans (ih n x hx hn)
    simp only [notAnyLoop]
    by_cases he : (EVL_boolean ev (m.rsb this).m_boolean r (next_fetch r rs st)).1 = true
    · rw [if_pos he]
      refine brk _ _ ?_
      unfold notAnyBody
      simp only [setRequest_rsb, e1, he, if_true]
    · rw [if_neg he]
      cases sel with
      | none =>
        dsimp only
        by_cases ht : test_req_null
            (EVL_boolean ev (m.rsb this).m_boolean r (next_fetch r rs st)).2 = true
        · rw [if_pos ht]
          refine brk _ _ ?_
          unfold notAnyBody
          simp only [setRequest_rsb, e1, he, Bool.false_eq_true, if_false, test_req_null_setRequest, ht, if_true]
        · rw [if_neg ht]
          refine cont _ (by simp) ?_
          unfold notAnyBody
          simp only [setRequest_rsb, e1, he, Bool.false_eq_true, if_false, test_req_null_setRequest, ht]
      | some s =>
        have s1 := EVL_boolean_setRequest ev tdbb s m
          (clear_req_null (EVL_boolean ev (m.rsb this).m_boolean r (next_fetch r rs st)).2)
          r (by simp)
        have c1 := EVL_boolean_setRequest ev tdbb col m
          (clear_req_null (EVL_boolean ev s r (clear_req_null
            (EVL_boolean ev (m.rsb this).m_boolean r (next_fetch r rs st)).2)).2) r (by simp)
        dsimp only
        by_cases hs : (EVL_boolean ev s r (clear_req_null
            (EVL_boolean ev (m.rsb this).m_boolean r (next_fetch r rs st)).2)).1 = true
        · rw [if_pos hs]
          by_cases ht : test_req_null (EVL_boolean ev col r (clear_req_null
              (EVL_boolean ev s r (clear_req_null
                (EVL_boolean ev (m.rsb this).m_boolean r (next_fetch r rs st)).2)).2)).2 = true
          · rw [if_pos ht]
            refine brk _ _ ?_
            unfold notAnyBody
            simp only [setRequest_rsb, e1, he, Bool.false_eq_true, if_false, clear_req_null_setRequest, s1, hs,
              if_true, c1, test_req_null_setRequest, ht]
          · rw [if_neg ht]
            refine cont _ (by simp) ?_
            unfold notAnyBody
            simp only [setRequest_rsb, e1, he, Bool.false_eq_true, if_false, clear_req_null_setRequest, s1, hs,
              if_true, c1, test_req_null_setRequest, ht]
        · rw [if_neg hs]
          refine cont _ (by simp) ?_
          unfold notAnyBody
          simp only [setRequest_rsb, e1, he, Bool.false_eq_true, if_false, clear_req_null_setRequest, s1, hs]

theorem setRequest_self (m : Memory Row) (A : Nat) : m.setRequest A (m.requests A) = m := by
  simp only [Memory.setRequest, Function.update_eq_self]

theorem evaluateBoolean_external (methods : Nat → RecordSource Row)
    (ev : jrd_nod → Row → TriState) (this : Nat) (fuel : Nat) (tdbb : thread_db)
    (m : Memory Row) (hnext : methods (m.rsb this).m_next = externalSource)
    (hfuel : (m.requests tdbb.getRequest).rows.length < fuel) :
    FilteredStreamObject.evaluateBoolean methods (currentEval ev) this fuel tdbb m
      = some ((evaluateBoolean (m.rsb this).toFilteredStream ev (m.requests tdbb.getRequest)).1,
          m.setRequest tdbb.getRequest
            (evaluateBoolean (m.rsb this).toFilteredStream ev (m.requests tdbb.getRequest)).2) := by
  have hp := plainLoop_external methods ev this tdbb m hnext _ fuel
    (m.requests tdbb.getRequest) false rfl hfuel
  have h1 := notAnyLoop_external methods ev this tdbb m hnext
  have h2 := anyLoop_external methods ev this tdbb m hnext _ fuel
    (m.requests tdbb.getRequest) rfl hfuel
  have h3 := notAllLoop_external methods ev this tdbb m hnext
  have h4 := allLoop_external methods ev this tdbb m hnext
  rw [setRequest_self] at hp h2
  have plain : (whileGetRecord
        (fun m1 : Memory Row => (methods (m1.rsb this).m_next).getRecord tdbb m1)
        (plainBody (currentEval ev) this tdbb) fuel (false, false) m).map
        (fun l => (l.1.1, if l.1.2 then l.2.set_req_null tdbb.getRequest else l.2))
      = some ((plainLoop (m.rsb this).toFilteredStream ev
            (m.requests tdbb.getRequest).rows (m.requests tdbb.getRequest) false).1.1,
          m.setRequest tdbb.getRequest
            (if (plainLoop (m.rsb this).toFilteredStream ev
                (m.requests tdbb.getRequest).rows (m.requests tdbb.getRequest) false).1.2
             then { (plainLoop (m.rsb this).toFilteredStream ev
                (m.requests tdbb.getRequest).rows (m.requests tdbb.getRequest) false).2 with
               req_flags := (plainLoop (m.rsb this).toFilteredStream ev
                (m.requests tdbb.getRequest).rows
                (m.requests tdbb.getRequest) false).2.req_flags ||| req_null }
             else (plainLoop (m.rsb this).toFilteredStream ev
                (m.requests tdbb.getRequest).rows (m.requests tdbb.getRequest) false).2)) := by
    rw [hp]
    simp only [Option.map_some', set_req_null_setRequest]
    split <;> rfl
  unfold FilteredStreamObject.evaluateBoolean evaluateBoolean
  dsimp only
  cases column_node (m.rsb this).toFilteredStream with
  | none => exact plain
  | some col =>
    dsimp only
    cases (m.rsb this).m_ansiAny with
    | true =>
      cases (m.rsb this).m_ansiNot with
      | true =>
        have h := h1 (select_node (m.rsb this).toFilteredStream) col _ fuel
          (m.requests tdbb.getRequest) rfl hfuel
        rw [setRequest_self] at h
        simp only [if_true, h, Option.map_some', clear_req_null_setRequest]
      | false =>
        simp only [if_true, Bool.false_eq_true, if_false, h2, Option.map_some',
          clear_req_null_setRequest]
    | false =>
      cases (m.rsb this).m_ansiAll with
      | true =>
        cases (m.rsb this).m_ansiNot with
        | true =>
          have h := h3 (select_node (m.rsb this).toFilteredStream) _ fuel
            (m.requests tdbb.getRequest) rfl hfuel
          rw [setRequest_self] at h
          simp only [if_true, Bool.false_eq_true, if_false, h, Option.map_some',
            clear_req_null_setRequest]
        | false =>
          have h := h4 (select_node (m.rsb this).toFilteredStream) _ fuel
            (m.requests tdbb.getRequest) rfl hfuel
          rw [setRequest_self] at h
          simp only [if_true, Bool.false_eq_true, if_false, h, Option.map_some',
            clear_req_null_setRequest]
      | false =>
        simp only [Bool.false_eq_true, if_false]
        exact plain

theorem invalidateRecords_external (methods : Nat → RecordSource Row) (this : Nat)
    (request : Nat) (m : Memory Row) (hnext : methods (m.rsb this).m_next = externalSource) :
    FilteredStreamObject.invalidateRecords methods this request m
      = m.setRequest request
          (invalidateRecords (m.rsb this).toFilteredStream (m.requests request)) := by
  unfold FilteredStreamObject.invalidateRecords
  rw [hnext]
  rfl

theorem open_external (methods : Nat → RecordSource Row) (this : Nat) (tdbb : thread_db)
    (m : Memory Row) (hnext : methods (m.rsb this).m_next = externalSource) :
    FilteredStreamObject.open methods this tdbb m
      = m.setRequest tdbb.getRequest
          ((m.rsb this).toFilteredStream.open (m.requests tdbb.getRequest)) := by
  unfold FilteredStreamObject.open
  simp only [Memory.set_irsb_flags, setRequest_rsb, hnext, externalSource, setRequest_same,
    setRequest_twice]
  rfl

theorem close_external (methods : Nat → RecordSource Row) (this : Nat) (tdbb : thread_db)
    (m : Memory Row) (hnext : methods (m.rsb this).m_next = externalSource) :
    FilteredStreamObject.close methods this tdbb m
      = m.setRequest tdbb.getRequest
          ((m.rsb this).toFilteredStream.close (m.requests tdbb.getRequest)) := by
  unfold FilteredStreamObject.close FilteredStream.close
  simp only [invalidateRecords_external methods this _ m hnext, Memory.irsb_flags,
    Memory.set_irsb_flags, setRequest_rsb, setRequest_same, setRequest_twice, hnext,
    externalSource]
  split <;> rfl

theorem getRecord_external (methods : Nat → RecordSource Row)
    (ev : jrd_nod → Row → TriState) (this : Nat) (fuel : Nat) (tdbb : thread_db)
    (m : Memory Row) (hnext : methods (m.rsb this).m_next = externalSource)
    (hfuel : (m.requests tdbb.getRequest).rows.length < fuel) :
    FilteredStreamObject.getRecord methods (currentEval ev) this fuel tdbb m
      = some ((getRecord (m.rsb this).toFilteredStream ev (m.requests tdbb.getRequest)).1,
          m.setRequest tdbb.getRequest
            (getRecord (m.rsb this).toFilteredStream ev (m.requests tdbb.getRequest)).2) := by
  unfold FilteredStreamObject.getRecord getRecord
  simp only [Memory.irsb_flags, evaluateBoolean_external methods ev this fuel tdbb m hnext hfuel]
  split
  · simp only [setRequest_self]
  · cases hb : (evaluateBoolean (m.rsb this).toFilteredStream ev
        (m.requests tdbb.getRequest)).1 with
    | false =>
      simp only [Bool.not_false, if_true]
      rw [invalidateRecords_external methods this tdbb.getRequest
        (m.setRequest tdbb.getRequest _) hnext]
      simp only [setRequest_rsb, setRequest_same, setRequest_twice]
    | true =>
      simp only [Bool.not_true, Bool.false_eq_true, if_false]

/-! ## Several requests: `getRecord` returns over a finite successor -/

theorem whileGetRecord_returns {L : Type} (μ : Memory Row → Nat)
    (getRecord : Memory Row → Option (Bool × Memory Row))
    (body : L → Memory Row → (L ⊕ L) × Memory Row)
    (hget : ∀ m, ∃ b m1, getRecord m = some (b, m1) ∧ μ m1 ≤ μ m ∧ (b = true → μ m1 < μ m))
    (hbody : ∀ l m, μ (body l m).2 ≤ μ m) :
    ∀ (fuel : Nat) (l : L) (m : Memory Row), μ m < fuel →
      ∃ r, whileGetRecord getRecord body fuel l m = some r := by
  intro fuel
  induction fuel with
  | zero => intro l m h; exact absurd h (Nat.not_lt_zero _)
  | succ n ih =>
    intro l m h
    obtain ⟨b, m1, hg, _, hlt⟩ := hget m
    cases b with
    | false => exact ⟨_, whileGetRecord_eof getRecord body n l m m1 hg⟩
    | true =>
      have h1 := hlt rfl
      have h2 := hbody l m1
      cases hb : body l m1 with
      | mk x m2 =>
        rw [hb] at h2
        cases x with
        | inl l2 =>
          obtain ⟨r, hr⟩ := ih l2 m2 (by dsimp only at h2; omega)
          exact ⟨r, (whileGetRecord_continue getRecord body n l l2 m m1 m2 hg hb).trans hr⟩
        | inr l2 => exact ⟨_, whileGetRecord_break getRecord body n l l2 m m1 m2 hg hb⟩

theorem getRecord_returns (methods : Nat → RecordSource Row)
    (ev : jrd_nod → State Row → TriState) (this fuel : Nat) (tdbb : thread_db)
    (μ : Memory Row → Nat)
    (hown : OwnWrites (fun m m1 : Memory Row => μ m1 ≤ μ m) this tdbb.getRequest)
    (hnext : ∀ c m, ∃ b m1, (methods c).getRecord tdbb m = some (b, m1) ∧ μ m1 ≤ μ m ∧
      (b = true → μ m1 < μ m))
    (m : Memory Row) (hfuel : μ m < fuel) :
    ∃ r, FilteredStreamObject.getRecord methods ev this fuel tdbb m = some r := by
  have loop : ∀ {L : Type} (body : L → Memory Row → (L ⊕ L) × Memory Row) (l : L),
      (∀ l m, μ (body l m).2 ≤ μ m) → ∀ f : L × Memory Row → Bool × Memory Row,
      ∃ r, (whileGetRecord
        (fun m1 : Memory Row => (methods (m1.rsb this).m_next).getRecord tdbb m1)
        body fuel l m).map f = some r := by
    intro L body l hb f
    obtain ⟨r, hr⟩ := whileGetRecord_returns μ _ body (fun m => hnext _ m) hb fuel l m hfuel
    exact ⟨f r, by rw [hr]; rfl⟩
  have he : ∃ r, FilteredStreamObject.evaluateBoolean methods ev this fuel tdbb m = some r := by
    unfold FilteredStreamObject.evaluateBoolean
    dsimp only
    split
    · split
      · split
        · exact loop _ _ (notAnyBody_keeps _ this ev tdbb hown _ _) _
        · exact loop _ _ (anyBody_keeps _ this ev tdbb hown) _
      · split
        · split
          · exact loop _ _ (notAllBody_keeps _ this ev tdbb hown _) _
          · exact loop _ _ (allBody_keeps _ this ev tdbb hown _) _
        · exact loop _ _ (plainBody_keeps _ this ev tdbb hown) _
    · exact loop _ _ (plainBody_keeps _ this ev tdbb hown) _
  obtain ⟨r, hr⟩ := he
  obtain ⟨b, m1⟩ := r
  unfold FilteredStreamObject.getRecord
  dsimp only
  split
  · exact ⟨_, rfl⟩
  · rw [hr]
    cases b with
    | false => exact ⟨_, rfl⟩
    | true => exact ⟨_, rfl⟩

theorem sampleMethods_keeps (R : Memory (Option Int) → Memory (Option Int) → Prop)
    (fuel : Nat) (tdbb : thread_db) (hR : OwnWrites R 1 tdbb.getRequest)
    (hext : Keeps R externalSource tdbb) :
    ∀ c, Keeps R (sampleMethods fuel c) tdbb := by
  intro c
  unfold sampleMethods
  split
  · exact filteredSource_keeps R 1 _ _ fuel tdbb hR (fun _ => hext)
  · exact hext

theorem sampleMethods_reads (fuel : Nat) (tdbb : thread_db) :
    ∀ c, ReadsOwnRequest (sampleMethods fuel c) tdbb := by
  intro c
  unfold sampleMethods
  split
  · exact filteredSource_reads _ _ 1 fuel tdbb (fun _ => externalSource_reads tdbb)
  · exact externalSource_reads tdbb

theorem keeps_getRecord_map {β : Type} (R : Memory Row → Memory Row → Prop)
    (src : RecordSource Row) (tdbb : thread_db) (h : Keeps R src tdbb) (m : Memory Row)
    (g : Memory Row → β) (hg : ∀ m1, R m m1 → g m1 = g m)
    (hs : (src.getRecord tdbb m).isSome = true) :
    (src.getRecord tdbb m).map (fun x => g x.2) = some (g m) := by
  cases hx : src.getRecord tdbb m with
  | none => rw [hx] at hs; simp at hs
  | some x =>
    obtain ⟨b, m1⟩ := x
    simp only [Option.map_some', Option.some.injEq]
    exact hg m1 (h.2.2.1 m b m1 hx)

/-- C17 as stated fails: `open` writes an offset of the request's impure area
other than the operator's own.  The operator at address 0 (impure offset 0)
has as successor the `FilteredStream` at address 1 (impure offset 1).  Run
under request 0 on a fresh memory, `open` stores `irsb_open` at offset 0 (line
52) and calls `m_next->open(tdbb)` (line 54), which stores `irsb_open` at offset
1 of the same request: the flag words at offsets (0, 1) go from (0, 0) to
(1, 1).  `close` then clears both. -/
theorem open_writes_successor_offset :
    (sampleObjects 0).m_impure = 0 ∧
    ((sampleMemory [some 5]).requests 0).impure 0 = 0 ∧
    ((sampleMemory [some 5]).requests 0).impure 1 = 0 ∧
    ((FilteredStreamObject.open (sampleMethods 4) 0 ⟨0⟩
        (sampleMemory [some 5])).requests 0).impure 0 = 1 ∧
    ((FilteredStreamObject.open (sampleMethods 4) 0 ⟨0⟩
        (sampleMemory [some 5])).requests 0).impure 1 = 1 ∧
    ((FilteredStreamObject.close (sampleMethods 4) 0 ⟨0⟩
        (FilteredStreamObject.open (sampleMethods 4) 0 ⟨0⟩
          (sampleMemory [some 5]))).requests 0).impure 1 = 0 ∧
    ¬ (∀ off, off ≠ (sampleObjects 0).m_impure →
        ((FilteredStreamObject.open (sampleMethods 4) 0 ⟨0⟩
            (sampleMemory [some 5])).requests 0).impure off
          = ((sampleMemory [some 5]).requests 0).impure off) := by
  refine ⟨by decide, by decide, by decide, by decide, by decide, by decide, ?_⟩
  intro h
  exact absurd (h 1 (by decide)) (by decide)

/-- C17 amended: per-context isolation, relative to the successor.  The
operations `open`, `close`, `getRecord` (and `invalidateRecords`) of the
`FilteredStream` at address `this`, run under the request of `tdbb`, are the
methods of `filteredSource methods ev this fuel`.  Whatever they change beyond
the flag word at the operator's own impure offset and the `req_null` bit of
that request's flag word is changed by the calls they hand on to the successor
with the same `tdbb`.  So, for every successor table `methods`:

* if no successor call changes a `FilteredStream` object, neither do they (the
  operator's successor, predicates, quantifier flags and offset stay as they
  are);
* if no successor call under this request changes the state of another
  request, neither do they;
* if successor calls change this request's flag word at most in the `req_null`
  bit, so do they;
* for an offset other than the operator's own, if no successor call changes the
  impure area of this request at that offset, neither do they;
* if the successors read only the objects and this request's state, so do they:
  on memories that differ in other requests only, each operation returns the
  same value and leaves the same state of this request;
* when the successor is the external cursor, `open` and `close` are the
  one-request operations `F.open` and `F.close` applied to this request's
  state, and so is `getRecord`, which returns once `fuel` exceeds the number of
  pending rows. -/
theorem per_request_isolation (methods : Nat → RecordSource Row)
    (ev : jrd_nod → State Row → TriState) (this fuel : Nat) (tdbb : thread_db) :
    ((∀ c, Keeps SameObjects (methods c) tdbb) →
      Keeps SameObjects (filteredSource methods ev this fuel) tdbb) ∧
    ((∀ c, Keeps (SameOtherRequests tdbb.getRequest) (methods c) tdbb) →
      Keeps (SameOtherRequests tdbb.getRequest) (filteredSource methods ev this fuel) tdbb) ∧
    ((∀ c, Keeps (SameFlagsButNull tdbb.getRequest) (methods c) tdbb) →
      Keeps (SameFlagsButNull tdbb.getRequest) (filteredSource methods ev this fuel) tdbb) ∧
    (∀ (objs : Nat → FilteredStreamObject) (off : Nat), off ≠ (objs this).m_impure →
      (∀ c, Keeps (SameImpureAt objs tdbb.getRequest off) (methods c) tdbb) →
      Keeps (SameImpureAt objs tdbb.getRequest off)
        (filteredSource methods ev this fuel) tdbb) ∧
    ((∀ c, ReadsOwnRequest (methods c) tdbb) →
      ReadsOwnRequest (filteredSource methods ev this fuel) tdbb) ∧
    (∀ (ev0 : jrd_nod → Row → TriState) (m : Memory Row),
      methods (m.rsb this).m_next = externalSource →
      FilteredStreamObject.open methods this tdbb m
        = m.setRequest tdbb.getRequest
            ((m.rsb this).toFilteredStream.open (m.requests tdbb.getRequest)) ∧
      FilteredStreamObject.close methods this tdbb m
        = m.setRequest tdbb.getRequest
            ((m.rsb this).toFilteredStream.close (m.requests tdbb.getRequest)) ∧
      ((m.requests tdbb.getRequest).rows.length < fuel →
        FilteredStreamObject.getRecord methods (currentEval ev0) this fuel tdbb m
          = some
            ((getRecord (m.rsb this).toFilteredStream ev0 (m.requests tdbb.getRequest)).1,
              m.setRequest tdbb.getRequest
                (getRecord (m.rsb this).toFilteredStream ev0
                  (m.requests tdbb.getRequest)).2))) :=
  ⟨filteredSource_keeps _ this methods ev fuel tdbb (ownWrites_SameObjects this _),
   filteredSource_keeps _ this methods ev fuel tdbb (ownWrites_SameOtherRequests this _),
   filteredSource_keeps _ this methods ev fuel tdbb (ownWrites_SameFlagsButNull this _),
   fun objs off hoff =>
     filteredSource_keeps _ this methods ev fuel tdbb
       (ownWrites_SameImpureAt objs this _ off hoff),
   filteredSource_reads methods ev this fuel tdbb,
   fun ev0 m hnext =>
     ⟨open_external methods this tdbb m hnext, close_external methods this tdbb m hnext,
      getRecord_external methods ev0 this fuel tdbb m hnext⟩⟩

/-- Witness for C17 amended: the sample statement, the plain filter `value > 2`
(offset 0) over the plain filter `value < 10` (offset 1) over an external
cursor with rows [1, 5, NULL], opened under request 0 while request 1 is
fresh.  `getRecord` under request 0 returns true on row 5; it leaves the
objects, the state of request 1, the flag word of request 0 up to `req_null`
and offset 2 of its impure area as they were, and returns the same when request
1 holds something else.  For the inner filter, whose successor is the external
cursor, `getRecord` is the one-request operation. -/
theorem per_request_isolation_witness :
    ((filteredSource (sampleMethods 4) (currentEval sampleEval) 0 4).getRecord ⟨0⟩
        sampleOpened).map (fun x => (x.1, (x.2.requests 0).current))
      = some (true, some (some 5)) ∧
    ((filteredSource (sampleMethods 4) (currentEval sampleEval) 0 4).getRecord ⟨0⟩
        sampleOpened).map (fun x => x.2.rsb) = some sampleOpened.rsb ∧
    ((filteredSource (sampleMethods 4) (currentEval sampleEval) 0 4).getRecord ⟨0⟩
        sampleOpened).map (fun x => x.2.requests 1) = some (sampleOpened.requests 1) ∧
    ((filteredSource (sampleMethods 4) (currentEval sampleEval) 0 4).getRecord ⟨0⟩
        sampleOpened).map (fun x => (x.2.requests 0).req_flags ||| req_null)
      = some ((sampleOpened.requests 0).req_flags ||| req_null) ∧
    ((filteredSource (sampleMethods 4) (currentEval sampleEval) 0 4).getRecord ⟨0⟩
        sampleOpened).map (fun x => (x.2.requests 0).impure 2)
      = some ((sampleOpened.requests 0).impure 2) ∧
    AlikeResult 0
      ((filteredSource (sampleMethods 4) (currentEval sampleEval) 0 4).getRecord ⟨0⟩
        sampleOpened)
      ((filteredSource (sampleMethods 4) (currentEval sampleEval) 0 4).getRecord ⟨0⟩
        (sampleOpened.setRequest 1 (initialState []))) ∧
    FilteredStreamObject.getRecord (sampleMethods 4) (currentEval sampleEval) 1 4 ⟨0⟩
        sampleOpened
      = some
        ((getRecord (sampleOpened.rsb 1).toFilteredStream sampleEval
            (sampleOpened.requests 0)).1,
          sampleOpened.setRequest 0
            (getRecord (sampleOpened.rsb 1).toFilteredStream sampleEval
              (sampleOpened.requests 0)).2) :=
  ⟨by decide,
   keeps_getRecord_map _ _ _
     ((per_request_isolation (sampleMethods 4) (currentEval sampleEval) 0 4 ⟨0⟩).1
       (sampleMethods_keeps _ 4 ⟨0⟩ (ownWrites_SameObjects 1 0)
         (externalSource_SameObjects ⟨0⟩)))
     sampleOpened (fun m => m.rsb) (fun _ h => h) (by decide),
   keeps_getRecord_map _ _ _
     ((per_request_isolation (sampleMethods 4) (currentEval sampleEval) 0 4 ⟨0⟩).2.1
       (sampleMethods_keeps _ 4 ⟨0⟩ (ownWrites_SameOtherRequests 1 0)
         (externalSource_SameOtherRequests ⟨0⟩)))
     sampleOpened (fun m => m.requests 1) (fun _ h => h 1 (by decide)) (by decide),
   keeps_getRecord_map _ _ _
     ((per_request_isolation (sampleMethods 4) (currentEval sampleEval) 0 4 ⟨0⟩).2.2.1
       (sampleMethods_keeps _ 4 ⟨0⟩ (ownWrites_SameFlagsButNull 1 0)
         (externalSource_SameFlagsButNull ⟨0⟩)))
     sampleOpened (fun m => (m.requests 0).req_flags ||| req_null)
     (fun _ h => (h (by decide)).2) (by decide),
   keeps_getRecord_map _ _ _
     ((per_request_isolation (sampleMethods 4) (currentEval sampleEval) 0 4 ⟨0⟩).2.2.2.1
       sampleObjects 2 (by decide)
       (sampleMethods_keeps _ 4 ⟨0⟩ (ownWrites_SameImpureAt sampleObjects 1 0 2 (by decide))
         (externalSource_SameImpureAt sampleObjects 2 ⟨0⟩)))
     sampleOpened (fun m => (m.requests 0).impure 2) (fun _ h => (h rfl).2) (by decide),
   ((per_request_isolation (sampleMethods 4) (currentEval sampleEval) 0 4 ⟨0⟩).2.2.2.2.1
       (sampleMethods_reads 4 ⟨0⟩) sampleOpened (sampleOpened.setRequest 1 (initialState []))
       ⟨rfl, setRequest_other sampleOpened 1 0 _ (by decide)⟩).2.2.1,
   ((per_request_isolation (sampleMethods 4) (currentEval sampleEval) 1 4 ⟨0⟩).2.2.2.2.2
       sampleEval sampleOpened rfl).2.2 (by decide)⟩


/-! ## NOT ANY with a select node; ALL against NOT ALL -/

theorem notAnyLoop_some_fst (F : FilteredStream) (ev : jrd_nod → Row → TriState)
    (sel col : jrd_nod) (rows : List Row) :
    ∀ st : State Row,
      ((notAnyLoop F ev (some sel) col rows st).1.1
        || (notAnyLoop F ev (some sel) col rows st).1.2)
      = rows.any (fun r => decide (ev F.m_boolean r = TriState.TRUE)
          || (decide (ev sel r = TriState.TRUE) && decide (ev col r = TriState.UNKNOWN))) := by
  induction rows with
  | nil => intro st; rfl
  | cons r rs ih =>
    intro st
    simp only [notAnyLoop, EVL_boolean_fst, EVL_boolean_test, List.any_cons]
    by_cases h : ev F.m_boolean r = TriState.TRUE
    · simp [h]
    · by_cases h2 : ev sel r = TriState.TRUE
      · by_cases h3 : ev col r = TriState.UNKNOWN
        · simp [h, h2, h3]
        · simp [h, h2, h3, ih]
      · simp [h, h2, ih]

/-- C18: NOT ANY with a select/column pair.  When the quantifier predicate is
an AND node (select predicate left, column comparison right) and `m_ansiAny`,
`m_ansiNot` are set, `evaluateBoolean` returns true iff some child row has the
outer predicate true, or has the outer predicate not true, the select
predicate true and the column comparison unknown; rows whose select predicate
is not true never contribute an unknown. -/
theorem evaluateBoolean_not_any_select (F : FilteredStream) (ev : jrd_nod → Row → TriState)
    (st : State Row) (sel col : jrd_nod)
    (hq : F.m_anyBoolean = some (jrd_nod.nod_and sel col))
    (hAny : F.m_ansiAny = true) (hNot : F.m_ansiNot = true) :
    ((evaluateBoolean F ev st).1 = true ↔
        ∃ r ∈ st.rows, ev F.m_boolean r = TriState.TRUE ∨
          (ev F.m_boolean r ≠ TriState.TRUE ∧ ev sel r = TriState.TRUE ∧
            ev col r = TriState.UNKNOWN)) ∧
      ((∀ r ∈ st.rows, ev F.m_boolean r ≠ TriState.TRUE ∧ ev sel r ≠ TriState.TRUE) →
        (evaluateBoolean F ev st).1 = false) := by
  have hcol : column_node F = some col := by simp [column_node, hq, hAny]
  have hsel : select_node F = some sel := by simp [select_node, hq, hAny]
  have key : (evaluateBoolean F ev st).1
      = st.rows.any (fun r => decide (ev F.m_boolean r = TriState.TRUE)
          || (decide (ev sel r = TriState.TRUE) && decide (ev col r = TriState.UNKNOWN))) := by
    simp only [evaluateBoolean, hcol, hAny, hNot, hsel, if_true]
    exact notAnyLoop_some_fst F ev sel col st.rows st
  refine ⟨?_, ?_⟩
  · rw [key, List.any_eq_true]
    constructor
    · rintro ⟨r, hr, h⟩
      refine ⟨r, hr, ?_⟩
      by_cases h1 : ev F.m_boolean r = TriState.TRUE
      · exact Or.inl h1
      · simp only [h1, decide_False, Bool.false_or, Bool.and_eq_true, decide_eq_true_eq] at h
        exact Or.inr ⟨h1, h.1, h.2⟩
    · rintro ⟨r, hr, h | ⟨_, h2, h3⟩⟩
      · exact ⟨r, hr, by simp [h]⟩
      · exact ⟨r, hr, by simp [h2, h3]⟩
  · intro h
    rw [key, List.any_eq_false]
    intro r hr
    simp [(h r hr).1, (h r hr).2]

/-- Witness for C18: NOT ANY with outer predicate `value = 5`, select
predicate `value > 2` and column comparison `value = 5` over rows [NULL, 1]:
on NULL the select predicate is unknown, on 1 it is false; neither is true, so
no unknown is contributed and the result is false. -/
theorem evaluateBoolean_not_any_select_witness :
    (evaluateBoolean
        (sampleStream 1 (some (jrd_nod.nod_and (jrd_nod.nod_other 0) (jrd_nod.nod_other 1)))
          true false true) sampleEval
        ((sampleStream 1 (some (jrd_nod.nod_and (jrd_nod.nod_other 0) (jrd_nod.nod_other 1)))
          true false true).open (initialState [none, some 1]))).1 = false :=
  (evaluateBoolean_not_any_select
    (sampleStream 1 (some (jrd_nod.nod_and (jrd_nod.nod_other 0) (jrd_nod.nod_other 1)))
      true false true) sampleEval
    ((sampleStream 1 (some (jrd_nod.nod_and (jrd_nod.nod_other 0) (jrd_nod.nod_other 1)))
      true false true).open (initialState [none, some 1]))
    (jrd_nod.nod_other 0) (jrd_nod.nod_other 1) rfl rfl rfl).2 (by decide)

/-- C19: non-negated ALL without a select node, as the comment in the source
states it.  `evaluateBoolean` returns true iff the child is empty or every
row's predicate is true (no false and no unknown row); a row whose predicate
is false or null makes ALL false. -/
theorem evaluateBoolean_all_no_select (F : FilteredStream) (ev : jrd_nod → Row → TriState)
    (st : State Row) (q : jrd_nod) (hq : F.m_anyBoolean = some q)
    (hand : ∀ a b, q ≠ jrd_nod.nod_and a b)
    (hAny : F.m_ansiAny = false) (hAll : F.m_ansiAll = true) (hNot : F.m_ansiNot = false) :
    ((evaluateBoolean F ev st).1 = true ↔
        st.rows = [] ∨ ∀ r ∈ st.rows, ev F.m_boolean r = TriState.TRUE) ∧
      ((∃ r ∈ st.rows, ev F.m_boolean r = TriState.FALSE ∨ ev F.m_boolean r = TriState.UNKNOWN) →
        (evaluateBoolean F ev st).1 = false) := by
  obtain ⟨col, hcol⟩ := column_node_isSome F q hq
  have hsel := select_node_not_and F q hq hand
  have key : (evaluateBoolean F ev st).1
      = !st.rows.any (fun r => !decide (ev F.m_boolean r = TriState.TRUE)) := by
    simp only [evaluateBoolean, hcol, hAny, hAll, hNot, hsel, allLoop_fst]
    simp
  refine ⟨?_, ?_⟩
  · rw [key, Bool.not_eq_true_eq_eq_false, List.any_eq_false]
    constructor
    · intro h
      right
      intro r hr
      simpa using h r hr
    · rintro (h | h)
      · rw [h]; simp
      · intro r hr
        simp [h r hr]
  · rintro ⟨r, hr, h⟩
    rw [key, Bool.not_eq_false_eq_eq_true, List.any_eq_true]
    refine ⟨r, hr, ?_⟩
    rcases h with h | h <;> simp [h]

/-- Witness for C19: ALL `value < 10` over rows [1, NULL] is false, the NULL
row being unknown. -/
theorem evaluateBoolean_all_no_select_witness :
    (evaluateBoolean (sampleStream 2 (some (jrd_nod.nod_other 2)) false true false) sampleEval
        ((sampleStream 2 (some (jrd_nod.nod_other 2)) false true false).open
          (initialState [some 1, none]))).1 = false :=
  (evaluateBoolean_all_no_select (sampleStream 2 (some (jrd_nod.nod_other 2)) false true false)
    sampleEval
    ((sampleStream 2 (some (jrd_nod.nod_other 2)) false true false).open
      (initialState [some 1, none]))
    (jrd_nod.nod_other 2) rfl (fun _ _ h => jrd_nod.noConfusion h) rfl rfl rfl).2
    ⟨none, by decide, Or.inr rfl⟩

theorem any_congr_mem {α : Type} (f g : α → Bool) (l : List α)
    (h : ∀ x ∈ l, f x = g x) : l.any f = l.any g := by
  induction l with
  | nil => rfl
  | cons x xs ih =>
    simp only [List.any_cons]
    rw [h x (List.mem_cons_self x xs), ih (fun y hy => h y (List.mem_cons_of_mem x hy))]

theorem evaluateBoolean_all_key (F : FilteredStream) (ev : jrd_nod → Row → TriState)
    (st : State Row) (q : jrd_nod) (hq : F.m_anyBoolean = some q)
    (hAny : F.m_ansiAny = false) (hAll : F.m_ansiAll = true) (hNot : F.m_ansiNot = false) :
    (evaluateBoolean F ev st).1
      = !st.rows.any (fun r => !decide (ev F.m_boolean r = TriState.TRUE)
          && decide (∀ s, select_node F = some s → ev s r = TriState.TRUE)) := by
  obtain ⟨col, hcol⟩ := column_node_isSome F q hq
  simp only [evaluateBoolean, hcol, hAny, hAll, hNot, allLoop_fst]
  simp

theorem evaluateBoolean_not_all_key (F : FilteredStream) (ev : jrd_nod → Row → TriState)
    (st : State Row) (q : jrd_nod) (hq : F.m_anyBoolean = some q)
    (hAny : F.m_ansiAny = false) (hAll : F.m_ansiAll = true) (hNot : F.m_ansiNot = true) :
    (evaluateBoolean F ev st).1
      = !st.rows.any (fun r => decide (ev F.m_boolean r = TriState.FALSE)
          && decide (∀ s, select_node F = some s → ev s r = TriState.TRUE)) := by
  obtain ⟨col, hcol⟩ := column_node_isSome F q hq
  simp only [evaluateBoolean, hcol, hAny, hAll, hNot, notAllLoop_fst]
  simp

/-- C20 as stated fails: over the single row NULL with predicate `value < 10`
(unknown), the operator with `m_ansiAll` set and `m_ansiNot` clear returns
false while the same operator with `m_ansiNot` set returns true. -/
theorem all_not_all_differ :
    (evaluateBoolean (sampleStream 2 (some (jrd_nod.nod_other 2)) false true false) sampleEval
        ((sampleStream 2 (some (jrd_nod.nod_other 2)) false true false).open
          (initialState [none]))).1 = false ∧
    (evaluateBoolean (sampleStream 2 (some (jrd_nod.nod_other 2)) false true true) sampleEval
        ((sampleStream 2 (some (jrd_nod.nod_other 2)) false true true).open
          (initialState [none]))).1 = true := by
  decide

/-- C20 amended: ALL and NOT ALL use the same `any_false` bookkeeping and
return `!any_false`, but their row tests differ in the unknown case.  On every
child row sequence where no row's outer predicate is unknown the two return
the same boolean; in general, whenever ALL (`m_ansiNot` clear) returns true so
does NOT ALL (`m_ansiNot` set). -/
theorem all_not_all_agree (F : FilteredStream) (ev : jrd_nod → Row → TriState)
    (st : State Row) (q : jrd_nod) (hq : F.m_anyBoolean = some q)
    (hAny : F.m_ansiAny = false) (hAll : F.m_ansiAll = true) :
    ((∀ r ∈ st.rows, ev F.m_boolean r ≠ TriState.UNKNOWN) →
        (evaluateBoolean { F with m_ansiNot := true } ev st).1
          = (evaluateBoolean { F with m_ansiNot := false } ev st).1) ∧
      ((evaluateBoolean { F with m_ansiNot := false } ev st).1 = true →
        (evaluateBoolean { F with m_ansiNot := true } ev st).1 = true) := by
  have keyT : (evaluateBoolean { F with m_ansiNot := true } ev st).1
      = !st.rows.any (fun r => decide (ev F.m_boolean r = TriState.FALSE)
          && decide (∀ s, select_node F = some s → ev s r = TriState.TRUE)) :=
    evaluateBoolean_not_all_key { F with m_ansiNot := true } ev st q hq hAny hAll rfl
  have keyF : (evaluateBoolean { F with m_ansiNot := false } ev st).1
      = !st.rows.any (fun r => !decide (ev F.m_boolean r = TriState.TRUE)
          && decide (∀ s, select_node F = some s → ev s r = TriState.TRUE)) :=
    evaluateBoolean_all_key { F with m_ansiNot := false } ev st q hq hAny hAll rfl
  refine ⟨?_, ?_⟩
  · intro h
    rw [keyT, keyF]
    congr 1
    apply any_congr_mem
    intro r hr
    have hu := h r hr
    cases hv : ev F.m_boolean r with
    | TRUE => simp
    | FALSE => simp
    | UNKNOWN => exact absurd hv hu
  · rw [keyT, keyF, Bool.not_eq_true_eq_eq_false, Bool.not_eq_true_eq_eq_false,
      List.any_eq_false, List.any_eq_false]
    intro h r hr
    have h1 := h r hr
    cases hv : ev F.m_boolean r with
    | TRUE => simp
    | FALSE => simpa [hv] using h1
    | UNKNOWN => simp

/-- Witness for C20 amended: the ALL operator with predicate `value < 10` is
opened over the child rows [1, 20], so both rows are pending.  The predicate is
true on 1 and false on 20, unknown on neither; both variants return false. -/
theorem all_not_all_agree_witness :
    ((sampleStream 2 (some (jrd_nod.nod_other 2)) false true false).open
        (initialState [some 1, some 20])).rows = [some 1, some 20] ∧
    (evaluateBoolean { sampleStream 2 (some (jrd_nod.nod_other 2)) false true false with
          m_ansiNot := false } sampleEval
        ((sampleStream 2 (some (jrd_nod.nod_other 2)) false true false).open
          (initialState [some 1, some 20]))).1 = false ∧
    (evaluateBoolean { sampleStream 2 (some (jrd_nod.nod_other 2)) false true false with
          m_ansiNot := true } sampleEval
        ((sampleStream 2 (some (jrd_nod.nod_other 2)) false true false).open
          (initialState [some 1, some 20]))).1
      = (evaluateBoolean { sampleStream 2 (some (jrd_nod.nod_other 2)) false true false with
          m_ansiNot := false } sampleEval
        ((sampleStream 2 (some (jrd_nod.nod_other 2)) false true false).open
          (initialState [some 1, some 20]))).1 :=
  ⟨rfl, by decide,
   (all_not_all_agree (sampleStream 2 (some (jrd_nod.nod_other 2)) false true false) sampleEval
    ((sampleStream 2 (some (jrd_nod.nod_other 2)) false true false).open
      (initialState [some 1, some 20]))
    (jrd_nod.nod_other 2) rfl rfl rfl).1 (by decide)⟩

end Jrd

namespace Firebird

/-! ## Buffer management -/

theorem fill_length (kept : List Char) (n : Nat) (junk : Nat → Char) :
    (AbstractString.fill kept n junk).length = n := by
  simp [AbstractString.fill]

theorem readChars_length (s : const_pointer) (n : Nat) : (readChars s n).length = n := by
  simp [readChars]

theorem writeAt_zero (buf src : List Char) (h : buf.length = src.length) :
    writeAt buf 0 src = src := by
  simp [writeAt, ← h]

theorem readChars_getD (l : List Char) (k n : Nat) (h : k + n ≤ l.length) :
    readChars (fun i => l.getD (k + i) NUL) n = (l.drop k).take n := by
  apply List.ext_getElem
  · simp [readChars]; omega
  · intro i h1 h2
    simp only [readChars, List.length_map, List.length_range] at h1
    simp [readChars, List.getD_eq_getElem?_getD, List.getElem?_eq_getElem (show k + i < l.length by omega)]

theorem readChars_c_str (s : AbstractString) :
    readChars s.c_str s.length = s.chars := by
  have h := readChars_getD s.chars 0 s.chars.length (by omega)
  simp only [Nat.zero_add, List.drop_zero, List.take_length] at h
  exact h

theorem getBuffer_ok (s : AbstractString) (newLen : Nat) (pr : Bool) (junk : Nat → Char)
    (h : newLen ≤ s.max_length) :
    ∃ b, s.getBuffer newLen pr junk = Except.ok b ∧ b.max_length = s.max_length ∧
      b.chars.length = newLen ∧
      (pr = true → b.chars = AbstractString.fill (s.chars ++ [NUL]) newLen junk) := by
  unfold AbstractString.getBuffer AbstractString.checkLength
  rw [if_neg (by omega)]
  dsimp only
  split
  · exact ⟨_, rfl, rfl, fill_length _ _ _, fun hp => by simp [hp]⟩
  · exact ⟨_, rfl, rfl, fill_length _ _ _, fun _ => rfl⟩

theorem getBuffer_error (s : AbstractString) (newLen : Nat) (pr : Bool) (junk : Nat → Char)
    (h : s.max_length < newLen) :
    s.getBuffer newLen pr junk = Except.error Error.length_exceeds_limit := by
  unfold AbstractString.getBuffer AbstractString.checkLength
  rw [if_pos h]

theorem baseAssign_ok (this : AbstractString) (s : const_pointer) (n : Nat)
    (h : n ≤ this.max_length) :
    ∃ b, this.baseAssign s n = Except.ok b ∧ b.max_length = this.max_length ∧
      b.chars = readChars s n := by
  obtain ⟨b, hb, hm, hl, _⟩ := getBuffer_ok this n false AbstractString.unread h
  refine ⟨{ b with chars := writeAt b.chars 0 (readChars s n) }, ?_, hm, ?_⟩
  · simp [AbstractString.baseAssign, hb]
  · exact writeAt_zero _ _ (by rw [hl, readChars_length])

theorem fill_take (chars : List Char) (n : Nat) (junk : Nat → Char) (h : chars.length ≤ n) :
    (AbstractString.fill (chars ++ [NUL]) n junk).take chars.length = chars := by
  apply List.ext_getElem
  · simp [AbstractString.fill]; omega
  · intro i h1 h2
    simp [AbstractString.fill, List.getD_eq_getElem?_getD, List.getElem?_append_left h2,
      List.getElem?_eq_getElem h2]

theorem append_ok (this : AbstractString) (s : const_pointer) (n : Nat)
    (h : this.length + n ≤ this.max_length) (hmax : this.max_length < SIZE_MOD) :
    ∃ b, this.append s n = Except.ok b ∧ b.max_length = this.max_length ∧
      b.chars = this.chars ++ readChars s n := by
  have hu : uadd this.length n = this.length + n := by
    unfold uadd; exact Nat.mod_eq_of_lt (by omega)
  obtain ⟨b, hb, hm, hl, hc⟩ := getBuffer_ok this (this.length + n) true AbstractString.unread h
  refine ⟨{ b with chars := writeAt b.chars (b.length - n) (readChars s n) }, ?_, hm, ?_⟩
  · have hn : n ≤ b.length := by unfold AbstractString.length; omega
    simp [AbstractString.append, hu, hb, hn]
  · have hoff : b.length - n = this.chars.length := by
      unfold AbstractString.length at *; omega
    have hlen : this.chars.length ≤ this.length + n := by
      unfold AbstractString.length; omega
    simp only [writeAt, hoff, readChars_length]
    rw [hc rfl, fill_take _ _ _ hlen]
    have hd : List.drop (this.chars.length + n)
        (AbstractString.fill (this.chars ++ [NUL]) (this.length + n) AbstractString.unread) = [] := by
      apply List.drop_of_length_le
      rw [fill_length]; unfold AbstractString.length; omega
    rw [hd, List.append_nil]

theorem append_error (this : AbstractString) (s : const_pointer) (n : Nat)
    (h : this.max_length < this.length + n) (hwrap : this.length + n < SIZE_MOD) :
    this.append s n = Except.error Error.length_exceeds_limit := by
  have hu : uadd this.length n = this.length + n := by
    unfold uadd; exact Nat.mod_eq_of_lt hwrap
  simp [AbstractString.append, hu, getBuffer_error this _ true AbstractString.unread h]

theorem getBuffer_at_max (s : AbstractString) (pr : Bool) (junk : Nat → Char)
    (h1 : s.bufferSize ≤ s.max_length) (h2 : s.max_length + 17 < SIZE_MOD)
    (h3 : 0 < s.max_length) (h4 : s.max_length * 2 < SIZE_MOD) :
    ∃ r, s.getBuffer s.max_length pr junk = Except.ok r ∧
      r.length = s.max_length ∧ r.bufferSize = s.max_length ∧
      r.capacity = s.max_length - 1 := by
  have hcap : usub s.max_length 1 = s.max_length - 1 := by
    unfold usub SIZE_MOD at *; omega
  have hu : uadd (uadd s.max_length 1) INIT_RESERVE = s.max_length + 17 := by
    unfold uadd INIT_RESERVE SIZE_MOD at *; omega
  have hsz : (if (if (s.max_length + 17) / 2 < s.bufferSize then s.bufferSize * 2 % SIZE_MOD
        else s.max_length + 17) > s.max_length then s.max_length
      else if (s.max_length + 17) / 2 < s.bufferSize then s.bufferSize * 2 % SIZE_MOD
        else s.max_length + 17) = s.max_length := by
    by_cases hA : (s.max_length + 17) / 2 < s.bufferSize
    · have hm : s.bufferSize * 2 % SIZE_MOD = s.bufferSize * 2 :=
        Nat.mod_eq_of_lt (by omega)
      rw [if_pos hA, hm, if_pos (by omega)]
    · rw [if_neg hA, if_pos (by omega)]
  unfold AbstractString.getBuffer AbstractString.checkLength
  rw [if_neg (by omega)]
  dsimp only
  rw [if_pos (by omega), hu, hsz]
  exact ⟨_, rfl, fill_length _ _ _, rfl, hcap⟩

theorem initializeBuffer_at_max (limit : Nat) (junk : Nat → Char)
    (h1 : INLINE_BUFFER_SIZE ≤ limit) (h2 : limit + 17 < SIZE_MOD) :
    ∃ r, AbstractString.initializeBuffer limit limit junk = Except.ok r ∧
      r.length = limit ∧ r.bufferSize = limit ∧ r.capacity = limit - 1 := by
  have hcap : usub limit 1 = limit - 1 := by
    unfold usub SIZE_MOD INLINE_BUFFER_SIZE at *; omega
  have hu : uadd (uadd limit 1) INIT_RESERVE = limit + 17 := by
    unfold uadd INIT_RESERVE SIZE_MOD at *; omega
  unfold AbstractString.initializeBuffer
  rw [if_neg (by omega), if_neg (by omega), hu]
  dsimp only
  rw [if_pos (by omega)]
  exact ⟨_, rfl, fill_length _ _ _, rfl, hcap⟩

/-- C13, the code at the failing input: a string with limit `max_length =
0x1FFFE` (a `PathName`) asked for the longest admissible length.  `getBuffer`
succeeds with `length() == newLen`, but caps the new buffer size at
`max_length`, so `bufferSize == newLen` (capacity `newLen - 1`) and the
terminator index `newLen` is one past the buffer; `initialize` does the
same. -/
theorem getBuffer_at_limit :
    (∃ r, AbstractString.getBuffer { max_length := 0x1FFFE, chars := [], bufferSize := 32 }
        0x1FFFE true AbstractString.unread = Except.ok r ∧
      r.length = 0x1FFFE ∧ r.bufferSize = 0x1FFFE ∧ r.capacity = 0x1FFFD) ∧
    (∃ r, AbstractString.initializeBuffer 0x1FFFE 0x1FFFE AbstractString.unread = Except.ok r ∧
      r.length = 0x1FFFE ∧ r.bufferSize = 0x1FFFE ∧ r.capacity = 0x1FFFD) :=
  ⟨getBuffer_at_max { max_length := 0x1FFFE, chars := [], bufferSize := 32 } true
      AbstractString.unread (by decide) (by decide) (by decide) (by decide),
   initializeBuffer_at_max 0x1FFFE AbstractString.unread (by decide) (by decide)⟩

/-- C14, the code at the failing input: a string of length 5 (limit
0x7FFFFFFE) and `append(s, n)` with `n = 0xFFFFFFFF`.  The exact sum exceeds
the limit, yet no error is raised: `stringLength + n` wraps to 4, `getBuffer`
accepts it and the string is cut to length 4. -/
theorem append_wraps_around :
    5 + 0xFFFFFFFF > 0x7FFFFFFE ∧
    (AbstractString.append
        { max_length := 0x7FFFFFFE, chars := ['h', 'e', 'l', 'l', 'o'], bufferSize := 32 }
        (fun _ => 'x') 0xFFFFFFFF).map (fun r => r.chars)
      = Except.ok ['h', 'e', 'l', 'l'] := by
  decide

/-! ## Searching and splitting -/

theorem rfindLoop_spec (chars : List Char) (c : Char) :
    ∀ i, i < chars.length →
      (AbstractString.rfindLoop chars c i = npos ∧ ∀ j, j ≤ i → chars.getD j NUL ≠ c) ∨
      (∃ k, k ≤ i ∧ AbstractString.rfindLoop chars c i = k ∧ chars.getD k NUL = c ∧
        ∀ j, k < j → j ≤ i → chars.getD j NUL ≠ c) := by
  intro i
  induction i with
  | zero =>
    intro _
    by_cases h : chars.getD 0 NUL = c
    · right
      exact ⟨0, le_refl 0, by rw [AbstractString.rfindLoop, if_pos h], h,
        fun j h1 h2 => by omega⟩
    · left
      refine ⟨by rw [AbstractString.rfindLoop, if_neg h], fun j hj => ?_⟩
      have : j = 0 := by omega
      rw [this]; exact h
  | succ i ih =>
    intro hi
    by_cases h : chars.getD (i + 1) NUL = c
    · right
      exact ⟨i + 1, le_refl _, by rw [AbstractString.rfindLoop, if_pos h], h,
        fun j h1 h2 => by omega⟩
    · rcases ih (by omega) with ⟨h1, h2⟩ | ⟨k, hk, h1, h2, h3⟩
      · left
        refine ⟨by rw [AbstractString.rfindLoop, if_neg h]; exact h1, fun j hj => ?_⟩
        by_cases hj2 : j = i + 1
        · rw [hj2]; exact h
        · exact h2 j (by omega)
      · right
        refine ⟨k, by omega, by rw [AbstractString.rfindLoop, if_neg h]; exact h1, h2,
          fun j hj1 hj2 => ?_⟩
        by_cases hj3 : j = i + 1
        · rw [hj3]; exact h
        · exact h3 j hj1 (by omega)

theorem not_mem_of_getD_ne (l : List Char) (c : Char) (n : Nat)
    (h : ∀ j, j < n → l.getD j NUL ≠ c) (hn : l.length ≤ n) : c ∉ l := by
  intro hc
  obtain ⟨j, hj, hjc⟩ := List.mem_iff_getElem.1 hc
  apply h j (by omega)
  simp [List.getD_eq_getElem?_getD, List.getElem?_eq_getElem hj, hjc]

theorem not_mem_drop_of_getD_ne (l : List Char) (c : Char) (k : Nat)
    (h : ∀ j, k < j → j < l.length → l.getD j NUL ≠ c) : c ∉ l.drop (k + 1) := by
  intro hc
  obtain ⟨j, hj, hjc⟩ := List.mem_iff_getElem.1 hc
  simp only [List.length_drop] at hj
  have hlt : k + 1 + j < l.length := by omega
  apply h (k + 1 + j) (by omega) hlt
  rw [List.getElem_drop] at hjc
  simp [List.getD_eq_getElem?_getD, List.getElem?_eq_getElem hlt, hjc]

theorem split_at_index (l : List Char) (c : Char) (k : Nat) (hk : k < l.length)
    (hc : l.getD k NUL = c) : l.take k ++ c :: l.drop (k + 1) = l := by
  have h1 : l[k] = c := by
    simpa [List.getD_eq_getElem?_getD, List.getElem?_eq_getElem hk] using hc
  rw [← h1, ← List.drop_eq_getElem_cons hk, List.take_append_drop]

theorem rfind_npos_spec (s : AbstractString) (c : Char)
    (hlen : s.chars.length ≤ PathName.MAX_SIZE) :
    (s.rfind c npos = npos ∧ c ∉ s.chars) ∨
    (∃ k, s.rfind c npos = k ∧ k < s.chars.length ∧ s.chars.getD k NUL = c ∧
      c ∉ s.chars.drop (k + 1)) := by
  have hM : PathName.MAX_SIZE = 131070 := rfl
  by_cases h0 : s.chars.length = 0
  · left
    have hnil : s.chars = [] := List.length_eq_zero.1 h0
    refine ⟨?_, by simp [hnil]⟩
    simp only [AbstractString.rfind, AbstractString.length, h0]
    rfl
  · have hlast : usub s.length 1 = s.chars.length - 1 := by
      unfold usub SIZE_MOD AbstractString.length; omega
    have hr : s.rfind c npos = AbstractString.rfindLoop s.chars c (s.chars.length - 1) := by
      have h1 : ¬ (s.chars.length - 1 ≥ 2147483648) := by omega
      have h2 : ¬ (npos < s.chars.length - 1) := by unfold npos SIZE_MOD; omega
      simp only [AbstractString.rfind, hlast, if_neg h1, if_neg h2]
    rcases rfindLoop_spec s.chars c (s.chars.length - 1) (by omega) with
      ⟨h1, h2⟩ | ⟨k, hk, h1, h2, h3⟩
    · left
      exact ⟨by rw [hr, h1], not_mem_of_getD_ne s.chars c s.chars.length
        (fun j hj => h2 j (by omega)) (le_refl _)⟩
    · right
      exact ⟨k, by rw [hr, h1], by omega, h2,
        not_mem_drop_of_getD_ne s.chars c k (fun j hj1 hj2 => h3 j hj1 (by omega))⟩

theorem normalizeChars_length (l : List Char) : (PathName.normalizeChars l).length = l.length := by
  induction l with
  | nil => rfl
  | cons c cs ih =>
    unfold PathName.normalizeChars
    split
    · rfl
    · simp [ih]

theorem normalize_length (p : PathName) : p.normalize.chars.length = p.chars.length := by
  unfold PathName.normalize
  split
  · rfl
  · dsimp only
    split
    · exact normalizeChars_length _
    · rfl

theorem normalize_max_length (p : PathName) : p.normalize.max_length = p.max_length := by
  unfold PathName.normalize
  split <;> rfl

theorem adjustRange_tail (len k : Nat) (hk : k < len) (hlen : len ≤ PathName.MAX_SIZE) :
    (AbstractString.adjustRange len (uadd k 1) (usub (usub len k) 1)).1 = k + 1 ∧
    (AbstractString.adjustRange len (uadd k 1) (usub (usub len k) 1)).2 = len - (k + 1) := by
  have hM : PathName.MAX_SIZE = 131070 := rfl
  have h1 : uadd k 1 = k + 1 := by unfold uadd SIZE_MOD; omega
  have h2 : usub (usub len k) 1 = len - (k + 1) := by unfold usub SIZE_MOD; omega
  have h3 : k + 1 ≠ npos := by unfold npos SIZE_MOD; omega
  have h4 : len - (k + 1) ≠ npos := by unfold npos SIZE_MOD; omega
  have h5 : uadd (k + 1) (len - (k + 1)) = len := by unfold uadd SIZE_MOD; omega
  unfold AbstractString.adjustRange
  rw [h1, h2, if_neg h3]
  dsimp only
  by_cases h6 : k + 1 ≥ len
  · rw [if_pos h6]
    constructor
    · show len = k + 1
      omega
    · show 0 = len - (k + 1)
      omega
  · rw [if_neg h6, h5, if_neg (by rintro (h | h | h) <;> omega)]
    exact ⟨rfl, rfl⟩

theorem adjustRange_head (len k : Nat) (hk : k < len) (hlen : len ≤ PathName.MAX_SIZE) :
    AbstractString.adjustRange len 0 k = (0, k) := by
  have hM : PathName.MAX_SIZE = 131070 := rfl
  have h3 : (0 : Nat) ≠ npos := by unfold npos SIZE_MOD; omega
  have h4 : k ≠ npos := by unfold npos SIZE_MOD; omega
  have h5 : uadd 0 k = k := by unfold uadd SIZE_MOD; omega
  unfold AbstractString.adjustRange
  rw [if_neg h3]
  dsimp only
  rw [if_neg (by omega), h5, if_neg (by rintro (h | h | h) <;> omega)]

theorem assignCStr_ok (m : Store) (this : Nat) (s : List Char)
    (h : s.length ≤ (m this).max_length) :
    ∃ a, assignCStr m this s
        = Except.ok (Function.update m this { toAbstractString := a, normalized := false }) ∧
      a.chars = s ∧ a.max_length = (m this).max_length := by
  obtain ⟨b, hb, hm, hc⟩ := baseAssign_ok (m this).toAbstractString
    (fun i => s.getD i NUL) s.length h
  refine ⟨b, by unfold assignCStr; rw [hb], ?_, hm⟩
  rw [hc]
  have h2 := readChars_getD s 0 s.length (by omega)
  simp only [Nat.zero_add, List.drop_zero, List.take_length] at h2
  exact h2

theorem assignRef_ok (m : Store) (this v : Nat) (hne : v ≠ this)
    (h : (m v).chars.length ≤ (m this).max_length) :
    ∃ a, assignRef m this v
        = Except.ok (Function.update m this
            { toAbstractString := a, normalized := (m v).normalized }) ∧
      a.chars = (m v).chars ∧ a.max_length = (m this).max_length := by
  obtain ⟨b, hb, hm, hc⟩ := baseAssign_ok (m this).toAbstractString
    (m v).c_str (m v).length h
  refine ⟨b, by unfold assignRef; rw [if_pos hne, hb], ?_, hm⟩
  rw [hc]
  exact readChars_c_str (m v).toAbstractString

theorem assignSub_ok (m : Store) (this v : Nat) (pos n p1 n1 : Nat) (hne : v ≠ this)
    (hadj : AbstractString.adjustRange (m v).length pos n = (p1, n1))
    (hin : p1 + n1 ≤ (m v).chars.length)
    (h : n1 ≤ (m this).max_length) :
    ∃ a, assignSub m this v pos n
        = Except.ok (Function.update m this
            { toAbstractString := a, normalized := (m v).normalized }) ∧
      a.chars = ((m v).chars.drop p1).take n1 ∧ a.max_length = (m this).max_length := by
  obtain ⟨b, hb, hm, hc⟩ := baseAssign_ok (m this).toAbstractString
    (fun i => (m v).c_str (p1 + i)) n1 h
  refine ⟨b, by unfold assignSub; simp only [hadj, if_neg hne]; rw [hb], ?_, hm⟩
  rw [hc]
  exact readChars_getD (m v).chars p1 n1 hin

/-- C11: `splitLastComponent` called with three distinct variables.  With `s`
the normalized input: when `s` contains a separator, there is an index `k`
holding a separator such that the first output is the characters before `k`,
the second output the characters after `k`, the second output contains no
separator (so `k` is the last one) and first + separator + second is `s`; when
`s` contains no separator the second output is `s` and the first is empty. -/
theorem splitLastComponent_distinct (m : Store) (path file orgPath : Nat)
    (hpf : path ≠ file) (hpo : path ≠ orgPath) (hfo : file ≠ orgPath)
    (hlen : (m orgPath).chars.length ≤ PathName.MAX_SIZE)
    (hp : (m path).max_length = PathName.MAX_SIZE)
    (hf : (m file).max_length = PathName.MAX_SIZE) :
    ∃ r, splitLastComponent m path file orgPath = Except.ok r ∧
      (dir_sep ∈ (m orgPath).normalize.chars →
        ∃ k, k < (m orgPath).normalize.chars.length ∧
          (m orgPath).normalize.chars.getD k NUL = dir_sep ∧
          (r path).chars = (m orgPath).normalize.chars.take k ∧
          (r file).chars = (m orgPath).normalize.chars.drop (k + 1) ∧
          dir_sep ∉ (r file).chars ∧
          (r path).chars ++ dir_sep :: (r file).chars = (m orgPath).normalize.chars) ∧
      (dir_sep ∉ (m orgPath).normalize.chars →
        (r file).chars = (m orgPath).normalize.chars ∧ (r path).chars = []) := by
  have hM : PathName.MAX_SIZE = 131070 := rfl
  have hslen : (m orgPath).normalize.chars.length ≤ PathName.MAX_SIZE := by
    rw [normalize_length]; exact hlen
  have hr : (m orgPath).rfind dir_sep npos
      = ((m orgPath).normalize.toAbstractString.rfind dir_sep npos, (m orgPath).normalize) := by
    simp [PathName.rfind]
  have hm1p : (Function.update m orgPath (m orgPath).normalize) path = m path :=
    Function.update_noteq hpo _ _
  have hm1f : (Function.update m orgPath (m orgPath).normalize) file = m file :=
    Function.update_noteq hfo _ _
  have hm1o : (Function.update m orgPath (m orgPath).normalize) orgPath
      = (m orgPath).normalize := Function.update_same _ _ _
  rcases rfind_npos_spec (m orgPath).normalize.toAbstractString dir_sep hslen with
    ⟨h1, h2⟩ | ⟨k, h1, hk, hck, hdrop⟩
  · -- no separator
    obtain ⟨a, ha, hac, _⟩ := assignCStr_ok (Function.update m orgPath (m orgPath).normalize)
      path [] (by simp)
    obtain ⟨b, hb, hbc, _⟩ := assignRef_ok
      (Function.update (Function.update m orgPath (m orgPath).normalize) path
        { toAbstractString := a, normalized := false }) file orgPath (Ne.symm hfo)
      (by
        rw [Function.update_noteq (Ne.symm hpo), hm1o, Function.update_noteq (Ne.symm hpf),
          hm1f, hf]
        exact hslen)
    have hs : splitLastComponent m path file orgPath
        = assignRef (Function.update (Function.update m orgPath (m orgPath).normalize) path
            { toAbstractString := a, normalized := false }) file orgPath := by
      simp only [splitLastComponent, hr, h1, if_true, ha]
    refine ⟨_, hs.trans hb, ?_, ?_⟩
    · intro hmem; exact absurd hmem h2
    · intro _
      constructor
      · rw [Function.update_same, hbc, Function.update_noteq (Ne.symm hpo), hm1o]
      · rw [Function.update_noteq hpf, Function.update_same]
        exact hac
  · -- last separator at index k
    have hkn : k ≠ npos := by unfold npos SIZE_MOD; omega
    obtain ⟨t1, t2⟩ := adjustRange_tail (m orgPath).normalize.chars.length k hk hslen
    have hadj1 : AbstractString.adjustRange
        ((Function.update m orgPath (m orgPath).normalize) orgPath).length (uadd k 1)
        (usub (usub ((Function.update m orgPath (m orgPath).normalize) orgPath).length k) 1)
        = (k + 1, (m orgPath).normalize.chars.length - (k + 1)) := by
      rw [hm1o]
      exact Prod.ext t1 t2
    obtain ⟨a, ha, hac, _⟩ := assignSub_ok (Function.update m orgPath (m orgPath).normalize)
      file orgPath _ _ _ _ (Ne.symm hfo) hadj1
      (by rw [hm1o]; omega) (by rw [hm1f, hf]; omega)
    have hadj2 : AbstractString.adjustRange
        ((Function.update (Function.update m orgPath (m orgPath).normalize) file
          { toAbstractString := a,
            normalized := ((Function.update m orgPath (m orgPath).normalize)
              orgPath).normalized }) orgPath).length 0 k = (0, k) := by
      rw [Function.update_noteq (Ne.symm hfo), hm1o]
      exact adjustRange_head _ k hk hslen
    obtain ⟨b, hb, hbc, _⟩ := assignSub_ok _ path orgPath _ _ _ _ (Ne.symm hpo) hadj2
      (by rw [Function.update_noteq (Ne.symm hfo), hm1o]; omega)
      (by rw [Function.update_noteq hpf, hm1p, hp]; omega)
    have hfile : ((m orgPath).normalize.chars.drop (k + 1)).take
        ((m orgPath).normalize.chars.length - (k + 1))
        = (m orgPath).normalize.chars.drop (k + 1) := by
      apply List.take_of_length_le
      simp
    rw [Function.update_noteq (Ne.symm hfo), hm1o] at hbc
    rw [hm1o, hfile] at hac
    simp only [List.drop_zero] at hbc
    have hs : splitLastComponent m path file orgPath
        = assignSub (Function.update (Function.update m orgPath (m orgPath).normalize) file
            { toAbstractString := a,
              normalized := ((Function.update m orgPath (m orgPath).normalize)
                orgPath).normalized }) path orgPath 0 k := by
      simp only [splitLastComponent, hr, h1, if_neg hkn, if_neg (Ne.symm hfo), ha]
    refine ⟨_, hs.trans hb, ?_, ?_⟩
    · intro _
      refine ⟨k, hk, hck, ?_, ?_, ?_, ?_⟩
      · rw [Function.update_same, hbc]
      · rw [Function.update_noteq (Ne.symm hpf), Function.update_same, hac]
      · rw [Function.update_noteq (Ne.symm hpf), Function.update_same, hac]
        exact hdrop
      · rw [Function.update_same, hbc, Function.update_noteq (Ne.symm hpf),
          Function.update_same, hac]
        exact split_at_index _ _ k hk hck
    · intro hnot
      exfalso
      apply hnot
      have := split_at_index _ _ k hk hck
      rw [← this]
      simp

/-- Witness for C11: "/usr/lib/x.so" splits into a path and a file without
separator that give the input back when joined by a separator ("/usr/lib" and
"x.so"). -/
theorem splitLastComponent_distinct_witness :
    ∃ r, splitLastComponent (fun i => if i = 2 then mkPath "/usr/lib/x.so" else mkPath "") 0 1 2
        = Except.ok r ∧
      (r 0).chars ++ dir_sep :: (r 1).chars = "/usr/lib/x.so".toList ∧
      dir_sep ∉ (r 1).chars := by
  obtain ⟨r, hr, h1, _⟩ := splitLastComponent_distinct
    (fun i => if i = 2 then mkPath "/usr/lib/x.so" else mkPath "") 0 1 2
    (by decide) (by decide) (by decide) (by decide) rfl rfl
  obtain ⟨k, _, _, _, _, hn, hs⟩ := h1 (by decide)
  exact ⟨r, hr, hs, hn⟩

/-- C12, the code at the failing input: the input "x.so" has no separator and
the variable holding it is also passed as the first (path) output.  With three
distinct variables the file output is "x.so"; with the alias, `path = ""`
empties the input before `file = orgPath` copies it, and the file output is
empty. -/
theorem splitLastComponent_alias_path :
    (splitLastComponent (fun i => if i = 2 then mkPath "x.so" else mkPath "") 0 1 2).map
        (fun r => ((r 0).chars, (r 1).chars))
      = Except.ok ([], "x.so".toList) ∧
    (splitLastComponent (fun i => if i = 2 then mkPath "x.so" else mkPath "") 2 1 2).map
        (fun r => ((r 2).chars, (r 1).chars))
      = Except.ok ([], []) := by
  decide

/-! ## ensureSeparator, isSubdirOf -/

theorem normalize_normalized (p : PathName) : p.normalize.normalized = true := by
  unfold PathName.normalize
  split
  · assumption
  · rfl

theorem normalize_chars (p : PathName) :
    p.normalize.chars = if p.normalized = true then p.chars
      else if p.chars.length > 0 then PathName.normalizeChars p.chars else p.chars := by
  unfold PathName.normalize
  split <;> rfl

theorem normalize_of_normalized (p : PathName) (h : p.normalized = true) : p.normalize = p := by
  unfold PathName.normalize
  rw [if_pos h]

theorem readChars_const_one (c : Char) : readChars (fun _ => c) 1 = [c] := rfl

theorem ensureSeparator_spec (p : PathName) (hmax : p.max_length = PathName.MAX_SIZE)
    (hfit : p.chars.length < PathName.MAX_SIZE) :
    ∃ r, p.ensureSeparator = Except.ok r ∧ r.normalized = true ∧
      r.max_length = PathName.MAX_SIZE ∧
      r.chars = if p.normalize.chars.length > 0 ∧
          p.normalize.chars.getD (p.normalize.chars.length - 1) NUL ≠ dir_sep
        then p.normalize.chars ++ [dir_sep] else p.normalize.chars := by
  have hM : PathName.MAX_SIZE = 131070 := rfl
  have hnl := normalize_length p
  have hnm := normalize_max_length p
  by_cases hc : p.normalize.chars.length > 0 ∧
      p.normalize.chars.getD (p.normalize.chars.length - 1) NUL ≠ dir_sep
  · obtain ⟨a, ha, ham, hac⟩ := append_ok p.normalize.toAbstractString (fun _ => dir_sep) 1
      (by unfold AbstractString.length; omega) (by unfold SIZE_MOD; omega)
    refine ⟨{ p.normalize with toAbstractString := a }, ?_, normalize_normalized p, ?_, ?_⟩
    · unfold PathName.ensureSeparator
      simp only [AbstractString.length, AbstractString.appendFill]
      rw [if_pos hc, ha]
    · show a.max_length = PathName.MAX_SIZE
      rw [ham, hnm, hmax]
    · show a.chars = _
      rw [if_pos hc, hac, readChars_const_one]
  · refine ⟨p.normalize, ?_, normalize_normalized p, by rw [hnm, hmax], by rw [if_neg hc]⟩
    unfold PathName.ensureSeparator
    simp only [AbstractString.length]
    rw [if_neg hc]

theorem initializeBuffer_ok (limit len : Nat) (junk : Nat → Char) (h : len ≤ limit) :
    ∃ a, AbstractString.initializeBuffer limit len junk = Except.ok a ∧
      a.max_length = limit ∧ a.chars.length = len := by
  unfold AbstractString.initializeBuffer
  split
  · exact ⟨_, rfl, rfl, fill_length _ _ _⟩
  · rw [if_neg (by omega)]
    exact ⟨_, rfl, rfl, fill_length _ _ _⟩

theorem copy_spec (src : PathName) (h : src.chars.length ≤ PathName.MAX_SIZE) :
    ∃ d, PathName.copy src = Except.ok d ∧ d.chars = src.chars ∧
      d.normalized = src.normalized ∧ d.max_length = PathName.MAX_SIZE := by
  obtain ⟨a, ha, ham, hal⟩ := initializeBuffer_ok PathName.MAX_SIZE src.length
    AbstractString.unread h
  refine ⟨PathName.mk { a with chars := writeAt a.chars 0 (readChars src.c_str src.length) }
    src.normalized, by unfold PathName.copy; rw [ha], ?_, rfl, ham⟩
  show writeAt a.chars 0 (readChars src.c_str src.length) = src.chars
  rw [writeAt_zero _ _ (by rw [hal, readChars_length]), readChars_c_str]

theorem normalize_chars_congr (p q : PathName) (h1 : p.chars = q.chars)
    (h2 : p.normalized = q.normalized) : p.normalize.chars = q.normalize.chars := by
  rw [normalize_chars, normalize_chars, h1, h2]

/-- C16 as stated fails twice: every non-empty path, such as "abc", is a
subdir of the empty dir although it does not begin with a separator; and
"/a/", which is strictly longer than the dir "/a" and begins with it followed
by a separator, is not a subdir of "/a". -/
theorem isSubdirOf_counterexample :
    ((mkPath "abc").isSubdirOf (mkPath "")).map (fun r => r.1) = Except.ok true ∧
    ((mkPath "/a/").isSubdirOf (mkPath "/a")).map (fun r => r.1) = Except.ok false := by
  decide

/-- C16 amended: let `d` be the normalized `dir` with a separator appended
unless `dir` is empty or already ends with one.  For `dir` shorter than the
limit (so that the separator fits), `p.isSubdirOf(dir)` returns true iff the
normalized `p` is strictly longer than `d` and begins with `d`; in particular
no path is a subdir of itself. -/
theorem isSubdirOf_spec (p dir : PathName) (hfit : dir.chars.length < PathName.MAX_SIZE) :
    ∃ b t, p.isSubdirOf dir = Except.ok (b, t) ∧
      (dir.chars.length = p.chars.length → b = false) ∧
      (b = true ↔
        (if dir.normalize.chars.length > 0 ∧
            dir.normalize.chars.getD (dir.normalize.chars.length - 1) NUL ≠ dir_sep
          then dir.normalize.chars ++ [dir_sep] else dir.normalize.chars).length
            < p.normalize.chars.length ∧
        (if dir.normalize.chars.length > 0 ∧
            dir.normalize.chars.getD (dir.normalize.chars.length - 1) NUL ≠ dir_sep
          then dir.normalize.chars ++ [dir_sep] else dir.normalize.chars)
            <+: p.normalize.chars) := by
  obtain ⟨d0, hd0, hc0, hn0, hm0⟩ := copy_spec dir (by omega)
  obtain ⟨d, hd, _, _, hdc⟩ := ensureSeparator_spec d0 hm0 (by rw [hc0]; exact hfit)
  rw [normalize_chars_congr d0 dir hc0 hn0] at hdc
  rw [← hdc]
  have hdl : dir.chars.length ≤ d.chars.length := by
    rw [hdc, ← normalize_length dir]
    split
    · simp
    · exact le_refl _
  by_cases hle : p.length ≤ d.length
  · refine ⟨false, p, ?_, fun _ => rfl, ?_⟩
    · unfold PathName.isSubdirOf
      rw [hd0]; dsimp only
      rw [hd]; dsimp only
      rw [if_pos hle]
    · constructor
      · intro h; exact absurd h (by decide)
      · rintro ⟨h1, _⟩
        rw [normalize_length] at h1
        unfold AbstractString.length at hle
        omega
  · refine ⟨decide (readChars p.normalize.c_str d.length = readChars d.c_str d.length),
      p.normalize, ?_, ?_, ?_⟩
    · unfold PathName.isSubdirOf
      rw [hd0]; dsimp only
      rw [hd]; dsimp only
      rw [if_neg hle]
    · intro heq
      unfold AbstractString.length at hle
      omega
    · have hlt : d.chars.length < p.normalize.chars.length := by
        rw [normalize_length]; unfold AbstractString.length at hle; omega
      have e1 : readChars p.normalize.c_str d.length = p.normalize.chars.take d.chars.length := by
        have := readChars_getD p.normalize.chars 0 d.chars.length (by omega)
        simp only [Nat.zero_add, List.drop_zero] at this
        exact this
      have e2 : readChars d.c_str d.length = d.chars := readChars_c_str d.toAbstractString
      rw [e1, e2, decide_eq_true_eq]
      constructor
      · intro h
        exact ⟨hlt, by rw [List.prefix_iff_eq_take]; exact h.symm⟩
      · rintro ⟨_, h⟩
        rw [List.prefix_iff_eq_take] at h
        exact h.symm

/-- Witness for C16 amended: "/a/b" is a subdir of "/a". -/
theorem isSubdirOf_spec_witness :
    ∃ b t, (mkPath "/a/b").isSubdirOf (mkPath "/a") = Except.ok (b, t) ∧ b = true := by
  obtain ⟨b, t, h1, h2⟩ := isSubdirOf_spec (mkPath "/a/b") (mkPath "/a") (by decide)
  exact ⟨b, t, h1, h2.2.2 (by decide)⟩

/-! ## appendPath -/

theorem normalizeChars_id (l : List Char) (h1 : '/' ∉ l) (h2 : '\\' ∉ l) :
    PathName.normalizeChars l = l := by
  induction l with
  | nil => rfl
  | cons c cs ih =>
    have hc1 : c ≠ '/' := fun h => h1 (by rw [h]; exact List.mem_cons_self _ _)
    have hc2 : c ≠ '\\' := fun h => h2 (by rw [h]; exact List.mem_cons_self _ _)
    unfold PathName.normalizeChars
    split
    · rfl
    · rw [if_neg (by rintro (h | h); exact hc2 h; exact hc1 h),
        ih (fun h => h1 (List.mem_cons_of_mem _ h)) (fun h => h2 (List.mem_cons_of_mem _ h))]

theorem normalize_chars_id (x : PathName) (h1 : '/' ∉ x.chars) (h2 : '\\' ∉ x.chars) :
    x.normalize.chars = x.chars := by
  rw [normalize_chars]
  split
  · rfl
  · split
    · exact normalizeChars_id _ h1 h2
    · rfl

theorem strchr_none (c : Char) (hc : c ≠ NUL) (l : List Char) :
    ∀ i, c ∉ l → AbstractString.strchr c l i = none := by
  induction l with
  | nil => intro i _; simp [AbstractString.strchr, hc]
  | cons x xs ih =>
    intro i h
    have hx : x ≠ c := fun e => h (by rw [e]; exact List.mem_cons_self _ _)
    unfold AbstractString.strchr
    rw [if_neg hx]
    split
    · rfl
    · exact ih _ (fun hm => h (List.mem_cons_of_mem _ hm))

theorem find_no_sep (v : PathName) (hv : v.normalized = true) (h : dir_sep ∉ v.chars) :
    (v.find dir_sep 0).1 = npos := by
  have hq : (v.find dir_sep 0).1 = v.normalize.toAbstractString.find dir_sep 0 := by
    simp [PathName.find]
  have hs : AbstractString.strchr dir_sep (List.drop 0 v.chars) 0 = none :=
    strchr_none dir_sep (by decide) _ _ h
  rw [hq, normalize_of_normalized v hv]
  unfold AbstractString.find
  rw [hs]

theorem appendPathLoop_done (v : PathName) (fuel : Nat) (this : PathName) (cur_pos : Nat)
    (h : ¬ cur_pos < v.length) :
    PathName.appendPathLoop v fuel this cur_pos = Except.ok this := by
  cases fuel with
  | zero => rfl
  | succ n =>
    unfold PathName.appendPathLoop
    rw [if_neg h]

theorem appendPathLoop_component (v this : PathName) (hv : v.normalized = true)
    (hne : v.chars ≠ []) (hsep : dir_sep ∉ v.chars) (hdot : v.chars ≠ ['.'])
    (hdd : v.chars ≠ ['.', '.']) (hlen : v.chars.length ≤ PathName.MAX_SIZE) :
    PathName.appendPathLoop v v.length this 0
      = match this.toAbstractString.append (fun i => v.c_str (0 + i)) v.chars.length with
        | Except.error e => Except.error e
        | Except.ok a => Except.ok { this with toAbstractString := a } := by
  have hM : PathName.MAX_SIZE = 131070 := rfl
  have hpos : 0 < v.chars.length := List.length_pos.2 hne
  obtain ⟨n, hn⟩ : ∃ n, v.length = n + 1 := ⟨v.chars.length - 1, by
    unfold AbstractString.length; omega⟩
  have hvl : v.length = v.chars.length := rfl
  have hnp : v.length ≠ npos := by unfold npos SIZE_MOD; omega
  have hu1 : uadd 0 1 = 1 := rfl
  have hu2 : uadd 0 2 = 2 := rfl
  have hc1 : ¬ (v.length = 1 ∧ v.chars.getD 0 NUL = '.') := by
    rintro ⟨h1, h2⟩
    apply hdot
    rw [hvl] at h1
    match hv2 : v.chars, h1, h2 with
    | [c], _, h2 => simp at h2; rw [h2]
  have hc2 : ¬ (v.length = 2 ∧ v.chars.getD 0 NUL = '.' ∧ v.chars.getD (0 + 1) NUL = '.') := by
    rintro ⟨h1, h2, h3⟩
    apply hdd
    rw [hvl] at h1
    match hv2 : v.chars, h1, h2, h3 with
    | [c, d], _, h2, h3 => simp at h2 h3; rw [h2, h3]
  have hadj : AbstractString.adjustRange v.length 0 (uadd (usub v.length 0) 1)
      = (0, v.chars.length) := by
    have e1 : uadd (usub v.length 0) 1 = v.chars.length + 1 := by
      unfold uadd usub SIZE_MOD AbstractString.length; omega
    have e2 : usub v.length 0 = v.chars.length := by
      unfold usub SIZE_MOD AbstractString.length; omega
    have h3 : (0 : Nat) ≠ npos := by unfold npos SIZE_MOD; omega
    have h4 : ¬ (0 ≥ v.length) := by rw [hvl]; omega
    have h5 : v.chars.length + 1 > v.length ∨ uadd 0 (v.chars.length + 1) > v.length
        ∨ v.chars.length + 1 = npos := Or.inl (by rw [hvl]; omega)
    unfold AbstractString.adjustRange
    rw [e1, if_neg h3]
    dsimp only
    rw [if_neg h4, if_pos h5, e2]
  have hend : ¬ uadd v.length 1 < v.length := by
    unfold uadd SIZE_MOD AbstractString.length; omega
  rw [hn]
  unfold PathName.appendPathLoop
  have hcur : 0 < v.length := by rw [hvl]; exact hpos
  have hz : ¬ v.length = 0 := by omega
  rw [if_pos hcur, find_no_sep v hv hsep]
  simp only [if_true]
  rw [if_neg hz, hu1, if_neg hc1, hu2, if_neg hc2]
  unfold AbstractString.appendSub
  rw [hadj]
  dsimp only
  cases happ : this.toAbstractString.append (fun i => v.c_str (0 + i)) v.chars.length with
  | error e => rfl
  | ok a => exact appendPathLoop_done v n _ _ hend

theorem appendPathLoop_dot (v this : PathName) (hv : v.normalized = true)
    (hc : v.chars = ['.']) :
    PathName.appendPathLoop v v.length this 0 = Except.ok this := by
  have hvl : v.length = 1 := by unfold AbstractString.length; rw [hc]; rfl
  have hsep : dir_sep ∉ v.chars := by rw [hc]; decide
  have hg : v.chars.getD 0 NUL = '.' := by rw [hc]; rfl
  rw [hvl]
  unfold PathName.appendPathLoop
  rw [hvl, if_pos (by omega), find_no_sep v hv hsep]
  simp only [if_true]
  rw [if_neg (by omega), if_pos ⟨rfl, hg⟩]
  rfl

theorem getD_sep_layout (P xs : List Char) (hP : P ≠ [])
    (hPlast : P.getD (P.length - 1) NUL = dir_sep) (hxs : dir_sep ∉ xs) :
    (P ++ xs ++ [dir_sep]).getD (P.length - 1) NUL = dir_sep ∧
    ∀ j, P.length - 1 < j → j ≤ (P ++ xs ++ [dir_sep]).length - 2 →
      (P ++ xs ++ [dir_sep]).getD j NUL ≠ dir_sep := by
  have hpl : 0 < P.length := List.length_pos.2 hP
  constructor
  · rw [List.getD_eq_getElem?_getD, List.append_assoc,
      List.getElem?_append_left (by omega), ← List.getD_eq_getElem?_getD]
    exact hPlast
  · intro j h1 h2
    simp only [List.length_append, List.length_singleton] at h2
    have hj : j - P.length < xs.length := by omega
    rw [List.getD_eq_getElem?_getD, List.append_assoc, List.getElem?_append_right (by omega),
      List.getElem?_append_left hj, List.getElem?_eq_getElem hj]
    intro h
    apply hxs
    simp only [Option.getD_some] at h
    rw [← h]
    exact List.getElem_mem _

theorem rfind_up_dir (this : AbstractString) (P xs : List Char)
    (hE : this.chars = P ++ xs ++ [dir_sep]) (hP : P ≠ [])
    (hPlast : P.getD (P.length - 1) NUL = dir_sep) (hxs : dir_sep ∉ xs) (hxne : xs ≠ [])
    (hlen : this.chars.length ≤ PathName.MAX_SIZE) :
    this.rfind dir_sep (usub this.length 2) = P.length - 1 := by
  have hM : PathName.MAX_SIZE = 131070 := rfl
  have hpl : 0 < P.length := List.length_pos.2 hP
  have hxl : 0 < xs.length := List.length_pos.2 hxne
  have hl : this.chars.length = P.length + xs.length + 1 := by
    rw [hE]; simp; omega
  obtain ⟨g1, g2⟩ := getD_sep_layout P xs hP hPlast hxs
  rw [← hE] at g1 g2
  have e1 : usub this.length 1 = this.chars.length - 1 := by
    unfold usub SIZE_MOD AbstractString.length; omega
  have e2 : usub this.length 2 = this.chars.length - 2 := by
    unfold usub SIZE_MOD AbstractString.length; omega
  have hr : this.rfind dir_sep (usub this.length 2)
      = AbstractString.rfindLoop this.chars dir_sep (this.chars.length - 2) := by
    have h1 : ¬ (this.chars.length - 1 ≥ 2147483648) := by omega
    have h2 : this.chars.length - 2 < this.chars.length - 1 := by omega
    simp only [AbstractString.rfind, e1, e2, if_neg h1, if_pos h2]
  rw [hr]
  rcases rfindLoop_spec this.chars dir_sep (this.chars.length - 2) (by omega) with
    ⟨_, h2⟩ | ⟨k, hk, h1, h2, h3⟩
  · exact absurd g1 (h2 (P.length - 1) (by omega))
  · rw [h1]
    by_contra hne
    rcases Nat.lt_or_gt_of_ne hne with hlt | hgt
    · exact h3 (P.length - 1) hlt (by omega) g1
    · exact g2 k hgt hk h2

theorem adjustRange_to_end (len pos : Nat) (hpos : pos < len)
    (hlen : len ≤ PathName.MAX_SIZE) :
    AbstractString.adjustRange len pos npos = (pos, len - pos) := by
  have hM : PathName.MAX_SIZE = 131070 := rfl
  have h3 : pos ≠ npos := by unfold npos SIZE_MOD; omega
  have h4 : ¬ (pos ≥ len) := by omega
  have h5 : npos > len ∨ uadd pos npos > len ∨ npos = npos := Or.inr (Or.inr rfl)
  have e2 : usub len pos = len - pos := by unfold usub SIZE_MOD; omega
  unfold AbstractString.adjustRange
  rw [if_neg h3]
  dsimp only
  rw [if_neg h4, if_pos h5, e2]

theorem appendPathLoop_dotdot (v this : PathName) (hv : v.normalized = true)
    (hc : v.chars = ['.', '.']) (hthis : this.normalized = true) (P xs : List Char)
    (hE : this.chars = P ++ xs ++ [dir_sep]) (hP : P ≠ [])
    (hPlast : P.getD (P.length - 1) NUL = dir_sep) (hxs : dir_sep ∉ xs) (hxne : xs ≠ [])
    (hlen : this.chars.length ≤ PathName.MAX_SIZE) :
    ∃ b, PathName.appendPathLoop v v.length this 0 = Except.ok b ∧ b.chars = P ∧
      b.normalized = true := by
  have hM : PathName.MAX_SIZE = 131070 := rfl
  have hpl : 0 < P.length := List.length_pos.2 hP
  have hxl : 0 < xs.length := List.length_pos.2 hxne
  have hl : this.chars.length = P.length + xs.length + 1 := by
    rw [hE]; simp; omega
  have hvl : v.length = 2 := by unfold AbstractString.length; rw [hc]; rfl
  have hsep : dir_sep ∉ v.chars := by rw [hc]; decide
  have hg0 : v.chars.getD 0 NUL = '.' := by rw [hc]; rfl
  have hg1 : v.chars.getD (0 + 1) NUL = '.' := by rw [hc]; rfl
  have hrf : this.rfind dir_sep (usub this.length 2)
      = (P.length - 1, this) := by
    have h1 : (this.rfind dir_sep (usub this.length 2))
        = (this.normalize.toAbstractString.rfind dir_sep (usub this.length 2),
            this.normalize) := by simp [PathName.rfind]
    rw [h1, normalize_of_normalized this hthis,
      rfind_up_dir this.toAbstractString P xs hE hP hPlast hxs hxne hlen]
  have hk : ¬ (P.length - 1 = npos) := by unfold npos SIZE_MOD; omega
  have hu : uadd (P.length - 1) 1 = P.length := by unfold uadd SIZE_MOD; omega
  have hadj := adjustRange_to_end this.chars.length P.length (by omega) hlen
  have hthislen : ¬ this.length < 2 := by unfold AbstractString.length; omega
  have her : (this.toAbstractString.baseErase P.length npos).chars = P := by
    unfold AbstractString.baseErase
    simp only [AbstractString.length, hadj]
    rw [if_neg (by omega)]
    show List.take P.length this.chars ++ List.drop (P.length + (this.chars.length - P.length))
      this.chars = P
    have hd : List.drop (P.length + (this.chars.length - P.length)) this.chars = [] :=
      List.drop_of_length_le (by omega)
    rw [hd, List.append_nil, hE, List.append_assoc, List.take_left']
    rfl
  refine ⟨{ this with toAbstractString := this.toAbstractString.baseErase P.length npos },
    ?_, her, hthis⟩
  rw [hvl]
  unfold PathName.appendPathLoop
  rw [hvl, if_pos (by omega), find_no_sep v hv hsep]
  simp only [if_true]
  have hn1 : ¬ ((2 : Nat) = uadd 0 1 ∧ v.chars.getD 0 NUL = '.') := by
    rintro ⟨h, _⟩; exact absurd h (by decide)
  have hy2 : (2 : Nat) = uadd 0 2 ∧ v.chars.getD 0 NUL = '.' ∧ v.chars.getD (0 + 1) NUL = '.' :=
    ⟨rfl, hg0, hg1⟩
  rw [if_neg (by omega), if_neg hn1, if_pos hy2, if_neg hthislen, hrf]
  dsimp only
  rw [if_neg hk, hu]
  exact appendPathLoop_done v 1 _ _ (by rw [hvl]; decide)

theorem appendPath_relative (this v : PathName) (hne : this.chars ≠ [])
    (hrel : v.normalize.chars.getD 0 NUL ≠ dir_sep) :
    this.appendPath v
      = match this.ensureSeparator with
        | Except.error e => Except.error e
        | Except.ok u => PathName.appendPathLoop v.normalize v.normalize.length u 0 := by
  have h1 : (v.isRelative).1 = true := by
    show decide (v.normalize.length = 0 ∨ v.normalize.chars.getD 0 NUL ≠ dir_sep) = true
    exact decide_eq_true (Or.inr hrel)
  have h2 : (v.isRelative).2 = v.normalize := rfl
  have h3 : ¬ this.length = 0 := by
    unfold AbstractString.length
    exact fun h => hne (List.length_eq_zero.1 h)
  unfold PathName.appendPath
  simp only [h1, h2, Bool.not_true, Bool.false_eq_true, if_false]
  rw [if_neg h3]

theorem getD_zero_ne_of_not_mem (l : List Char) (c : Char) (hne : l ≠ []) (h : c ∉ l) :
    l.getD 0 NUL ≠ c := by
  cases l with
  | nil => exact absurd rfl hne
  | cons x xs =>
    intro e
    apply h
    simp only [List.getD_cons_zero] at e
    rw [e]; exact List.mem_cons_self _ _

theorem getD_last_append (l xs : List Char) (hne : xs ≠ []) :
    (l ++ xs).getD ((l ++ xs).length - 1) NUL = xs.getD (xs.length - 1) NUL := by
  have hxl : 0 < xs.length := List.length_pos.2 hne
  rw [List.getD_eq_getElem?_getD, List.getElem?_append_right (by simp; omega),
    List.getD_eq_getElem?_getD]
  congr 2
  simp; omega

theorem getD_last_ne_of_not_mem (xs : List Char) (c : Char) (hne : xs ≠ []) (h : c ∉ xs) :
    xs.getD (xs.length - 1) NUL ≠ c := by
  have hxl : 0 < xs.length := List.length_pos.2 hne
  intro e
  apply h
  rw [List.getD_eq_getElem?_getD, List.getElem?_eq_getElem (by omega)] at e
  simp only [Option.getD_some] at e
  rw [← e]
  exact List.getElem_mem _

theorem ensureSeparator_ends (p r : PathName) (hp : p.chars ≠ [])
    (hrc : r.chars = if p.normalize.chars.length > 0 ∧
          p.normalize.chars.getD (p.normalize.chars.length - 1) NUL ≠ dir_sep
        then p.normalize.chars ++ [dir_sep] else p.normalize.chars) :
    r.chars ≠ [] ∧ r.chars.getD (r.chars.length - 1) NUL = dir_sep ∧
      r.chars.length ≤ p.chars.length + 1 := by
  have hpl : 0 < p.chars.length := List.length_pos.2 hp
  have hnl := normalize_length p
  by_cases hc : p.normalize.chars.length > 0 ∧
      p.normalize.chars.getD (p.normalize.chars.length - 1) NUL ≠ dir_sep
  · rw [if_pos hc] at hrc
    rw [hrc]
    refine ⟨by simp, ?_, by simp [hnl]⟩
    rw [getD_last_append _ _ (by simp)]
    rfl
  · rw [if_neg hc] at hrc
    rw [hrc]
    refine ⟨fun h => by rw [h] at hnl; simp at hnl; omega, ?_, by omega⟩
    by_contra hne
    exact hc ⟨by omega, hne⟩

theorem appendPath_overflow (p v : PathName) (hn : p.normalized = true) (hne : p.chars ≠ [])
    (hlast : p.chars.getD (p.chars.length - 1) NUL = dir_sep)
    (hv1 : v.normalize.chars ≠ []) (hv2 : dir_sep ∉ v.normalize.chars)
    (hv3 : v.normalize.chars ≠ ['.']) (hv4 : v.normalize.chars ≠ ['.', '.'])
    (hv5 : v.normalize.chars.length ≤ PathName.MAX_SIZE)
    (hover : p.max_length < p.chars.length + v.normalize.chars.length)
    (hwrap : p.chars.length + v.normalize.chars.length < SIZE_MOD) :
    p.appendPath v = Except.error Error.length_exceeds_limit ∧
    p.ensureSeparator = Except.ok p := by
  have hens : p.ensureSeparator = Except.ok p := by
    unfold PathName.ensureSeparator
    rw [normalize_of_normalized p hn]
    simp only [AbstractString.length]
    rw [if_neg (fun h => h.2 hlast)]
  refine ⟨?_, hens⟩
  rw [appendPath_relative p v hne (getD_zero_ne_of_not_mem _ _ hv1 hv2), hens]
  dsimp only
  rw [appendPathLoop_component v.normalize p (normalize_normalized v) hv1 hv2 hv3 hv4 hv5,
    append_error p.toAbstractString _ _ hover hwrap]

/-- C15 as stated fails twice.  A component containing a backslash holds no
directory separator `/`, yet `appendPath` normalizes it into two components,
so "a" with "b\c" appended and then ".." gives "a/b/" instead of "a/".  And on
a path of the greatest admissible length, appending a one-letter component
raises the length error while `ensureSeparator` alone succeeds. -/
theorem appendPath_up_dir_counterexample :
    (((mkPath "a").appendPath (mkPath "b\\c")).bind
        (fun a => a.appendPath (mkPath ".."))).map (fun b => b.chars)
      = Except.ok "a/b/".toList ∧
    ((mkPath "a").ensureSeparator).map (fun b => b.chars) = Except.ok "a/".toList ∧
    longestPath.appendPath (mkPath "b") = Except.error Error.length_exceeds_limit ∧
    longestPath.ensureSeparator = Except.ok longestPath := by
  have hch : longestPath.chars = List.replicate (PathName.MAX_SIZE - 1) 'a' ++ [dir_sep] := rfl
  have hl : longestPath.chars.length = PathName.MAX_SIZE := by
    rw [hch, List.length_append, List.length_replicate]
    rfl
  have hne : longestPath.chars ≠ [] := by
    rw [hch]; exact List.append_ne_nil_of_right_ne_nil _ (List.cons_ne_nil _ _)
  have hlast : longestPath.chars.getD (longestPath.chars.length - 1) NUL = dir_sep := by
    rw [hch, getD_last_append _ _ (List.cons_ne_nil _ _)]
    rfl
  have hb : (mkPath "b").normalize.chars = ['b'] := by decide
  have hmx : longestPath.max_length = PathName.MAX_SIZE := rfl
  have hover : longestPath.max_length
      < longestPath.chars.length + (mkPath "b").normalize.chars.length := by
    rw [hmx, hl, hb]; exact Nat.lt_succ_self _
  have hwrap : longestPath.chars.length + (mkPath "b").normalize.chars.length < SIZE_MOD := by
    rw [hl, hb]; decide
  exact ⟨by decide, by decide,
    appendPath_overflow longestPath (mkPath "b") rfl hne hlast
      (by rw [hb]; decide) (by rw [hb]; decide) (by rw [hb]; decide) (by rw [hb]; decide)
      (by rw [hb]; decide) hover hwrap⟩

/-- C15 amended: for every non-empty path `p` and every single component `x`
(non-empty, containing neither `/` nor a backslash, different from "." and
"..") such that `p`, a separator, `x` and another separator fit within
`max_size()`, `p.appendPath(x)` followed by `appendPath("..")` succeeds and
yields the characters and the normalized flag that `p.ensureSeparator()`
gives; and `appendPath(".")` on a non-empty `p` is exactly
`p.ensureSeparator()`. -/
theorem appendPath_up_dir (p x dd dot : PathName)
    (hp : p.chars ≠ []) (hmax : p.max_length = PathName.MAX_SIZE)
    (hx1 : x.chars ≠ []) (hx2 : '/' ∉ x.chars) (hx3 : '\\' ∉ x.chars)
    (hx4 : x.chars ≠ ['.']) (hx5 : x.chars ≠ ['.', '.'])
    (hdd : dd.chars = ['.', '.']) (hdot : dot.chars = ['.'])
    (hfit : p.chars.length + x.chars.length + 2 ≤ PathName.MAX_SIZE) :
    (∃ a b r, p.appendPath x = Except.ok a ∧ a.appendPath dd = Except.ok b ∧
      p.ensureSeparator = Except.ok r ∧ b.chars = r.chars ∧ b.normalized = r.normalized) ∧
    p.appendPath dot = p.ensureSeparator := by
  have hM : PathName.MAX_SIZE = 131070 := rfl
  have hxl : 0 < x.chars.length := List.length_pos.2 hx1
  have hxc := normalize_chars_id x hx2 hx3
  have hxn := normalize_normalized x
  have hddc : dd.normalize.chars = ['.', '.'] := by
    rw [normalize_chars_id dd (by rw [hdd]; decide) (by rw [hdd]; decide)]; exact hdd
  have hdotc : dot.normalize.chars = ['.'] := by
    rw [normalize_chars_id dot (by rw [hdot]; decide) (by rw [hdot]; decide)]; exact hdot
  constructor
  · obtain ⟨r, hr, hrn, hrm, hrc⟩ := ensureSeparator_spec p hmax (by omega)
    obtain ⟨hr1, hr2, hr3⟩ := ensureSeparator_ends p r hp hrc
    -- p.appendPath(x) appends x to r
    obtain ⟨a0, ha0, ha0m, ha0c⟩ := append_ok r.toAbstractString
      (fun i => x.normalize.c_str (0 + i)) x.normalize.chars.length
      (by
        show r.chars.length + x.normalize.chars.length ≤ r.max_length
        rw [hrm, hxc]; omega)
      (by rw [hrm]; decide)
    have hread : readChars (fun i => x.normalize.c_str (0 + i)) x.normalize.chars.length
        = x.normalize.chars := by
      have := readChars_getD x.normalize.chars 0 x.normalize.chars.length (by omega)
      simp only [List.drop_zero, List.take_length] at this
      exact this
    have ha0c2 : a0.chars = r.chars ++ x.chars := by
      rw [ha0c, hread, hxc]
    have hax : p.appendPath x = Except.ok { r with toAbstractString := a0 } := by
      rw [appendPath_relative p x hp
        (by rw [hxc]; exact getD_zero_ne_of_not_mem _ _ hx1 hx2), hr]
      dsimp only
      rw [appendPathLoop_component x.normalize r hxn (by rw [hxc]; exact hx1)
        (by rw [hxc]; exact hx2) (by rw [hxc]; exact hx4) (by rw [hxc]; exact hx5)
        (by rw [hxc]; omega), ha0]
    -- the result, followed by ".."
    have hane : (PathName.mk a0 r.normalized).chars ≠ [] := by
      show a0.chars ≠ []
      rw [ha0c2]; simp [hr1]
    obtain ⟨e, he, hen, _, hec⟩ := ensureSeparator_spec (PathName.mk a0 r.normalized)
      (by show a0.max_length = _; rw [ha0m, hrm])
      (by show a0.chars.length < _; rw [ha0c2]; simp; omega)
    have han : (PathName.mk a0 r.normalized).normalize = PathName.mk a0 r.normalized :=
      normalize_of_normalized _ hrn
    rw [han] at hec
    have hlastx : (r.chars ++ x.chars).getD ((r.chars ++ x.chars).length - 1) NUL ≠ dir_sep := by
      rw [getD_last_append _ _ hx1]
      exact getD_last_ne_of_not_mem _ _ hx1 hx2
    have hec2 : e.chars = r.chars ++ x.chars ++ [dir_sep] := by
      rw [hec]
      show (if a0.chars.length > 0 ∧ a0.chars.getD (a0.chars.length - 1) NUL ≠ dir_sep
        then a0.chars ++ [dir_sep] else a0.chars) = _
      rw [ha0c2, if_pos ⟨by simp; omega, hlastx⟩]
    obtain ⟨b, hb, hbc, hbn⟩ := appendPathLoop_dotdot dd.normalize e (normalize_normalized dd)
      hddc hen r.chars x.chars hec2 hr1 hr2 hx2 hx1
      (by rw [hec2]; simp; omega)
    refine ⟨_, b, r, hax, ?_, hr, hbc, by rw [hbn, hrn]⟩
    rw [appendPath_relative _ dd hane (by rw [hddc]; decide), he]
    exact hb
  · rw [appendPath_relative p dot hp (by rw [hdotc]; decide)]
    cases p.ensureSeparator with
    | error e => rfl
    | ok u => exact appendPathLoop_dot dot.normalize u (normalize_normalized dot) hdotc

/-- Witness for C15 amended: "/a" with "x" appended and then ".." is "/a/". -/
theorem appendPath_up_dir_witness :
    ∃ a b r, (mkPath "/a").appendPath (mkPath "x") = Except.ok a ∧
      a.appendPath (mkPath "..") = Except.ok b ∧
      (mkPath "/a").ensureSeparator = Except.ok r ∧ b.chars = r.chars ∧
      b.normalized = r.normalized :=
  (appendPath_up_dir (mkPath "/a") (mkPath "x") (mkPath "..") (mkPath ".")
    (by decide) rfl (by decide) (by decide) (by decide) (by decide) (by decide)
    rfl rfl (by decide)).1

end Firebird

namespace Jrd

variable {Row : Type}

/-! ## The unknown marker on return -/

theorem plainLoop_no_true (F : FilteredStream) (ev : jrd_nod → Row → TriState)
    (rows : List Row) :
    ∀ (st : State Row) (nf : Bool), (∀ r ∈ rows, ev F.m_boolean r ≠ TriState.TRUE) →
      (plainLoop F ev rows st nf).1.1 = false ∧
      (plainLoop F ev rows st nf).1.2
        = (nf || rows.any (fun r => decide (ev F.m_boolean r = TriState.UNKNOWN))) := by
  induction rows with
  | nil => intro st nf _; simp [plainLoop]
  | cons r rs ih =>
    intro st nf h
    have hr : ev F.m_boolean r ≠ TriState.TRUE := h r (List.mem_cons_self r rs)
    obtain ⟨h1, h2⟩ := ih (EVL_boolean ev F.m_boolean r (next_fetch r rs st)).2
      (if test_req_null (EVL_boolean ev F.m_boolean r (next_fetch r rs st)).2 then true else nf)
      (fun x hx => h x (List.mem_cons_of_mem r hx))
    simp only [plainLoop, EVL_boolean_fst, hr, decide_False]
    refine ⟨by simpa using h1, ?_⟩
    simp only [Bool.false_eq_true, if_false]
    rw [h2, EVL_boolean_test, List.any_cons]
    by_cases hu : ev F.m_boolean r = TriState.UNKNOWN
    · simp [hu]
    · simp [hu]

theorem evaluateBoolean_plain_eq (F : FilteredStream) (ev : jrd_nod → Row → TriState)
    (st : State Row)
    (h : F.m_anyBoolean = none ∨ (F.m_ansiAny = false ∧ F.m_ansiAll = false)) :
    evaluateBoolean F ev st
      = ((plainLoop F ev st.rows st false).1.1,
          if (plainLoop F ev st.rows st false).1.2 then
            { (plainLoop F ev st.rows st false).2 with
              req_flags := (plainLoop F ev st.rows st false).2.req_flags ||| req_null }
          else (plainLoop F ev st.rows st false).2) := by
  rcases h with h | ⟨h1, h2⟩
  · simp only [evaluateBoolean, column_node_none F h]
  · cases hc : column_node F with
    | none => simp only [evaluateBoolean, hc]
    | some c => simp [evaluateBoolean, hc, h1, h2]

/-- C21: plain filter unknown carry.  When the plain scan runs through the
remaining child rows without finding one whose predicate is true,
`evaluateBoolean` returns false with the child exhausted, and if the predicate
was unknown on at least one of the scanned rows the unknown marker `req_null`
is set in the request flags on return. -/
theorem plain_unknown_carry (F : FilteredStream) (ev : jrd_nod → Row → TriState)
    (st : State Row)
    (hplain : F.m_anyBoolean = none ∨ (F.m_ansiAny = false ∧ F.m_ansiAll = false))
    (hnone : ∀ r ∈ st.rows, ev F.m_boolean r ≠ TriState.TRUE) :
    (evaluateBoolean F ev st).1 = false ∧
    (evaluateBoolean F ev st).2.rows = [] ∧
    ((∃ r ∈ st.rows, ev F.m_boolean r = TriState.UNKNOWN) →
      test_req_null (evaluateBoolean F ev st).2 = true) := by
  obtain ⟨h1, h2⟩ := plainLoop_no_true F ev st.rows st false hnone
  obtain ⟨_, _, p3⟩ := plainLoop_spec F ev st.rows st false
  have hrows := (p3 h1).2
  rw [evaluateBoolean_plain_eq F ev st hplain]
  refine ⟨h1, ?_, ?_⟩
  · dsimp only
    split
    · exact hrows
    · exact hrows
  · rintro ⟨r, hr, hu⟩
    have hnf : (plainLoop F ev st.rows st false).1.2 = true := by
      rw [h2, Bool.false_or, List.any_eq_true]
      exact ⟨r, hr, by simp [hu]⟩
    dsimp only
    rw [if_pos hnf]
    simp [test_req_null, or_req_null_ne]

/-- Witness for C21: plain filter `value > 2` over rows [NULL, 1]: no row is
true, the first is unknown, and `req_null` is set on return. -/
theorem plain_unknown_carry_witness :
    test_req_null (evaluateBoolean (sampleStream 0 none false false false) sampleEval
      ((sampleStream 0 none false false false).open (initialState [none, some 1]))).2 = true :=
  (plain_unknown_carry (sampleStream 0 none false false false) sampleEval
    ((sampleStream 0 none false false false).open (initialState [none, some 1]))
    (Or.inl rfl) (by decide)).2.2 ⟨none, by decide, rfl⟩

theorem test_clear_req_null (st : State Row) : test_req_null (clear_req_null st) = false := by
  simp [test_req_null, clear_req_null, and_bitNot32_req_null]

/-- C22: in the four quantifier variants (a quantifier predicate is present
and `m_ansiAny` or `m_ansiAll` is set: ANY, NOT ANY, ALL, NOT ALL)
`evaluateBoolean` returns with the unknown marker `req_null` cleared, whatever
the child rows, the predicate outcomes and the flags on entry.  Hence only the
plain filter can leave it set, and it does so on the single row NULL with
predicate `value > 2`. -/
theorem quantifier_clears_req_null (F : FilteredStream) (ev : jrd_nod → Row → TriState)
    (st : State Row) (q : jrd_nod) (hq : F.m_anyBoolean = some q)
    (hflag : F.m_ansiAny = true ∨ F.m_ansiAll = true) :
    test_req_null (evaluateBoolean F ev st).2 = false ∧
    test_req_null (evaluateBoolean (sampleStream 0 none false false false) sampleEval
      { initialState ([] : List (Option Int)) with rows := [none] }).2 = true := by
  obtain ⟨col, hcol⟩ := column_node_isSome F q hq
  refine ⟨?_, by decide⟩
  unfold evaluateBoolean
  rw [hcol]
  dsimp only
  cases hAny : F.m_ansiAny with
  | true =>
    cases F.m_ansiNot <;> exact test_clear_req_null _
  | false =>
    have hAll : F.m_ansiAll = true := by
      rcases hflag with h | h
      · rw [hAny] at h; exact absurd h (by decide)
      · exact h
    rw [hAll]
    cases F.m_ansiNot <;> exact test_clear_req_null _

/-- Witness for C22: NOT ANY `value = 5` over rows [NULL, 2], entered with
`req_null` already set, returns with the marker cleared. -/
theorem quantifier_clears_req_null_witness :
    test_req_null (evaluateBoolean
      (sampleStream 1 (some (jrd_nod.nod_other 1)) true false true) sampleEval
      { initialState ([] : List (Option Int)) with rows := [none, some 2], req_flags := req_null }).2
      = false :=
  (quantifier_clears_req_null (sampleStream 1 (some (jrd_nod.nod_other 1)) true false true)
    sampleEval
    { initialState ([] : List (Option Int)) with rows := [none, some 2], req_flags := req_null }
    (jrd_nod.nod_other 1) rfl (Or.inl rfl)).1

end Jrd

namespace Firebird

/-- C23, the code at the failing input: `reserve(2)` on the string "hello"
(limit 0x7FFFFFFE, inline buffer).  `reserve` passes `n` to `getBuffer`, which
sets `stringLength = n` and writes the terminator at index `n`: the string
comes back as "he" of length 2; `reserve(0)`, the default argument, empties
it; `reserve(8)` makes it a string of length 8. -/
theorem reserve_changes_length :
    (AbstractString.reserve
        { max_length := 0x7FFFFFFE, chars := ['h', 'e', 'l', 'l', 'o'], bufferSize := 32 }
        2 AbstractString.unread).map (fun r => (r.length, r.chars))
      = Except.ok (2, ['h', 'e']) ∧
    (AbstractString.reserve
        { max_length := 0x7FFFFFFE, chars := ['h', 'e', 'l', 'l', 'o'], bufferSize := 32 }
        0 AbstractString.unread).map (fun r => (r.length, r.chars))
      = Except.ok (0, []) ∧
    (AbstractString.reserve
        { max_length := 0x7FFFFFFE, chars := ['h', 'e', 'l', 'l', 'o'], bufferSize := 32 }
        8 AbstractString.unread).map (fun r => r.length)
      = Except.ok 8 := by
  decide

end Firebird
